import Mathlib

/-!
# box86: the emulator context of `box86context.c`

Executable-memory pool, dynamic map, TLS partitions, canary and fork accounting.

A shallow embedding of `src/box86context.c` (32-bit ARM host: `int`, `uintptr_t`
and pointers are 32 bits wide).

* C arrays are functions from the index to the element (`mmaplist`, `dynmap`);
  `realloc` keeps the entries it already had, so it is the identity on them.
* `uintptr_t` values are naturals below `2^32`; every `uintptr_t` addition of the
  source is written with an explicit `% 4294967296`.
* `int` arguments are integers; where the source converts them to `uintptr_t`
  the 32-bit pattern `toU32` is taken.
* The result of the `mmap` call is an input of `AllocDynarecMap`: the pointer
  the call returns if the function makes it (`MAP_FAILED` on failure).
* The values `random()` returns are an input of `getrand` and of
  `NewBox86Context`.
-/

namespace Box86

/-! ## Data model -/

/-- `typedef struct mmaplist_s { void* block; uintptr_t offset; } mmaplist_t;` -/
structure mmaplist_t where
  block : Nat
  offset : Nat
deriving DecidableEq, Repr

/-- Modelled from the spec: a dynablock, of which the sources (dynablock.c is
missing) only say that it covers the guest range `[guest_start, guest_end)`. -/
structure dynablock_t where
  guest_start : Nat
  guest_end : Nat
deriving DecidableEq, Repr

/-- Modelled from the spec: the dynablock list of dynablock.c (missing): the
window `text`, `textsz` given to `NewDynablockList` and the set of dynablocks
the list owns. -/
structure dynablocklist_t where
  text : Nat
  textsz : Nat
  blocks : List dynablock_t
deriving DecidableEq, Repr

/-- `typedef struct dynmap_s { dynablocklist_t* dynablocks; } dynmap_t;` -/
structure dynmap_t where
  dynablocks : dynablocklist_t
deriving DecidableEq, Repr

/-- Modelled from the spec: `box86context_t` (box86context.h is missing), the
emulator context that owns the executable memory pool and the dynamic map. The
fields are those `box86context.c` reads and writes: the slab array with its
count, the dynamic map of `2^16` slots, a slot being `none` for a NULL
pointer, the fork-depth counter `forked` (an `int`), the size `tlssize` (an
`int`) and the bytes `tlsdata` of the TLS area, the canary bytes, and the
registry of ELF headers: the array `elfs` of header pointers with its count
`elfsize` and its capacity `elfcap` (both `int`). -/
structure box86context_t where
  mmaplist : Nat → mmaplist_t
  mmapsize : Nat
  dynmap : Nat → Option dynmap_t
  forked : Int
  tlssize : Int
  tlsdata : Nat → Nat
  canary : Nat → Nat
  elfs : Nat → Nat
  elfsize : Int
  elfcap : Int

/-- `#define MMAPSIZE (4*1024*1024)` -/
def MMAPSIZE : Nat := 4 * 1024 * 1024

/-- `MAP_FAILED` is `(void*)-1`, on a 32-bit host the pointer `0xffffffff`. -/
def MAP_FAILED : Nat := 0xffffffff

/-- The context as `calloc` leaves it in `NewBox86Context`: every field zero. -/
def zeroContext : box86context_t :=
  { mmaplist := fun _ => { block := 0, offset := 0 }
    mmapsize := 0
    dynmap := fun _ => none
    forked := 0
    tlssize := 0
    tlsdata := fun _ => 0
    canary := fun _ => 0
    elfs := fun _ => 0
    elfsize := 0
    elfcap := 0 }

/-! ## Executable-memory pool -/

/-- The 32-bit pattern of an `int`, which is also its value converted to
`uintptr_t`. -/
def toU32 (x : Int) : Nat := (x % 4294967296).toNat

/-- `size = (size+0x0f)&~0x0f;` on the 32-bit pattern of `size`
(`~0x0f` is `0xfffffff0`). -/
def alignSize (size : Int) : Nat := ((toU32 size + 0x0f) % 4294967296) &&& 0xfffffff0

/-- The fit test of the scan, `context->mmaplist[i].offset+size < MMAPSIZE`,
an unsigned 32-bit comparison. -/
def fits (ctx : box86context_t) (size : Nat) (i : Nat) : Prop :=
  ((ctx.mmaplist i).offset + size) % 4294967296 < MMAPSIZE

instance (ctx : box86context_t) (size i : Nat) : Decidable (fits ctx size i) := by
  unfold fits; infer_instance

/-- The slab array after `context->mmaplist[i].offset+=size`. -/
def bumpOffset (ctx : box86context_t) (size : Nat) (i : Nat) : box86context_t :=
  { ctx with
    mmaplist := Function.update ctx.mmaplist i
      { block := (ctx.mmaplist i).block
        offset := ((ctx.mmaplist i).offset + size) % 4294967296 } }

/-- The scan `for(int i=0; i<context->mmapsize; ++i)` of `AllocDynarecMap`, with
`n` iterations left and the index at `i`: the first slab that passes the fit test
serves the request, `none` when the loop runs to its end. -/
def AllocDynarecMap_scan (ctx : box86context_t) (size : Nat) :
    Nat → Nat → Option (Nat × box86context_t)
  | 0, _ => none
  | n + 1, i =>
    if fits ctx size i then
      some (((ctx.mmaplist i).offset + (ctx.mmaplist i).block) % 4294967296,
        bumpOffset ctx size i)
    else AllocDynarecMap_scan ctx size n (i + 1)

/-- `uintptr_t AllocDynarecMap(box86context_t *context, int size, int nolinker)`;
`p` is what the `mmap` call returns when the function makes one. The result is
the returned address and the context after the call. -/
def AllocDynarecMap (ctx : box86context_t) (size : Int) (nolinker : Int) (p : Nat) :
    Nat × box86context_t :=
  if nolinker ≠ 0 then
    if p = MAP_FAILED then (0, ctx) else (p, ctx)
  else
    let size := alignSize size
    match AllocDynarecMap_scan ctx size ctx.mmapsize 0 with
    | some r => r
    | none =>
      let i := ctx.mmapsize
      let ctx := { ctx with mmapsize := ctx.mmapsize + 1 }
      if p = MAP_FAILED then
        (0, { ctx with mmapsize := ctx.mmapsize - 1 })
      else
        (p, { ctx with
              mmaplist := Function.update ctx.mmaplist i { block := p, offset := size } })

/-- A request of the pool path: the `int size` of the call and the pointer its
`mmap` call returns if it makes one. -/
abbrev Request := Int × Nat

/-- The context after the pool-path calls `AllocDynarecMap(ctx, size, 0)` of
`reqs`, made one after another. -/
def runAlloc (ctx : box86context_t) : List Request → box86context_t
  | [] => ctx
  | q :: qs => runAlloc (AllocDynarecMap ctx q.1 0 q.2).2 qs

/-- What the pool-path calls of `reqs` hand out, in call order: the returned
address with the rounded size `(size+15)&~15` of the call. -/
def allocTrace (ctx : box86context_t) : List Request → List (Nat × Nat)
  | [] => []
  | q :: qs =>
    ((AllocDynarecMap ctx q.1 0 q.2).1, alignSize q.1) ::
      allocTrace (AllocDynarecMap ctx q.1 0 q.2).2 qs

/-- The slabs of the pool are mappings of `MMAPSIZE` bytes of the 32-bit address
space of which no two overlap. -/
def SlabsDisjoint (ctx : box86context_t) : Prop :=
  ∀ i, i < ctx.mmapsize →
    (ctx.mmaplist i).block + MMAPSIZE ≤ 4294967296 ∧
    ∀ j, j < ctx.mmapsize → i ≠ j →
      (ctx.mmaplist i).block + MMAPSIZE ≤ (ctx.mmaplist j).block ∨
      (ctx.mmaplist j).block + MMAPSIZE ≤ (ctx.mmaplist i).block

instance (ctx : box86context_t) : Decidable (SlabsDisjoint ctx) := by
  unfold SlabsDisjoint; infer_instance

/-- Two byte ranges `[a, a+r)`, given as `(a, r)`, have no byte in common. -/
def RangesDisjoint (x y : Nat × Nat) : Prop :=
  x.1 + x.2 ≤ y.1 ∨ y.1 + y.2 ≤ x.1

instance (x y : Nat × Nat) : Decidable (RangesDisjoint x y) := by
  unfold RangesDisjoint; infer_instance

/-- The context after `AllocDynarecMap` has appended the new slab `p` for a
request of rounded size `size`: `mmapsize` is one more and the entry at the old
`mmapsize` holds `block = p`, `offset = size`. -/
def appendSlab (ctx : box86context_t) (size : Nat) (p : Nat) : box86context_t :=
  { ctx with
    mmapsize := ctx.mmapsize + 1
    mmaplist := Function.update ctx.mmaplist ctx.mmapsize { block := p, offset := size } }

/-! ## Dynamic map -/

/-- Modelled from the spec: `NewDynablockList` of dynablock.c (missing) makes an
empty dynablock list for the window of `textsz` bytes that starts at `text`. -/
def NewDynablockList (_base : Nat) (text : Nat) (textsz : Nat) (_nolinker : Int)
    (_direct : Int) : dynablocklist_t :=
  { text := text, textsz := textsz, blocks := [] }

/-- Modelled from the spec: `StartDynablockList` of dynablock.c (missing), the
start of the window the list tracks. -/
def StartDynablockList (db : dynablocklist_t) : Nat := db.text

/-- Modelled from the spec: `EndDynablockList` of dynablock.c (missing), the end
of the window the list tracks, a `uintptr_t`. -/
def EndDynablockList (db : dynablocklist_t) : Nat := (db.text + db.textsz) % 4294967296

/-- Modelled from the spec: a block overlaps the invalidation range `[lo, hi)`
when they share at least one byte. -/
def overlapsRange (b : dynablock_t) (lo hi : Nat) : Bool :=
  decide (b.guest_start < hi ∧ lo < b.guest_end)

/-- Modelled from the spec: `FreeDirectDynablock` of dynablock.c (missing) is the
list's `free_range(lo, hi)`: it drops every block whose guest range overlaps
`[lo, hi)` by even one byte and keeps the list and its window. -/
def FreeDirectDynablock (db : dynablocklist_t) (lo hi : Nat) : dynablocklist_t :=
  { db with blocks := db.blocks.filter (fun b => !overlapsRange b lo hi) }

/-- Modelled from the spec: the list's own `lookup(guest_pc)`, the block whose
guest range covers the address, or `none`. -/
def lookupDynablock (db : dynablocklist_t) (a : Nat) : Option dynablock_t :=
  db.blocks.find? (fun b => decide (b.guest_start ≤ a ∧ a < b.guest_end))

/-- `dynablocklist_t* getDBFromAddress(box86context_t* context, uintptr_t addr)` -/
def getDBFromAddress (ctx : box86context_t) (addr : Nat) : Option dynablocklist_t :=
  let idx := addr >>> 16
  match ctx.dynmap idx with
  | none => none
  | some d => some d.dynablocks

/-- The body of the loop of `addDBFromAddressRange` at slot `i`; `i<<16` is an
`int` shift whose 32-bit pattern is passed as the `uintptr_t` window start. -/
def addDBSlot (ctx : box86context_t) (i : Nat) : box86context_t :=
  match ctx.dynmap i with
  | some _ => ctx
  | none =>
    { ctx with
      dynmap := Function.update ctx.dynmap i
        (some { dynablocks := NewDynablockList 0 ((i <<< 16) % 4294967296) 65536 1 1 }) }

/-- The loop `for (int i=idx; i<=end; ++i)` of `addDBFromAddressRange` with `n`
iterations left and the index at `i`. -/
def addDBLoop : Nat → Nat → box86context_t → box86context_t
  | 0, _, ctx => ctx
  | n + 1, i, ctx => addDBLoop n (i + 1) (addDBSlot ctx i)

/-- `void addDBFromAddressRange(box86context_t* context, uintptr_t addr, uintptr_t size)` -/
def addDBFromAddressRange (ctx : box86context_t) (addr size : Nat) : box86context_t :=
  let idx := addr >>> 16
  let end_ := ((addr + size) % 4294967296) >>> 16
  addDBLoop (end_ + 1 - idx) idx ctx

/-- The body of the loop of `cleanDBFromAddressRange` at slot `i`, `stop` being
the `uintptr_t` sum `addr+size`. -/
def cleanDBSlot (ctx : box86context_t) (addr stop : Nat) (i : Nat) : box86context_t :=
  match ctx.dynmap i with
  | none => ctx
  | some dynmap =>
    let startdb := StartDynablockList dynmap.dynablocks
    let enddb := EndDynablockList dynmap.dynablocks
    if addr ≤ startdb ∧ stop ≥ enddb then
      { ctx with dynmap := Function.update ctx.dynmap i none }
    else
      { ctx with
        dynmap := Function.update ctx.dynmap i
          (some { dynablocks := FreeDirectDynablock dynmap.dynablocks addr stop }) }

/-- The loop `for (int i=idx; i<=end; ++i)` of `cleanDBFromAddressRange` with `n`
iterations left and the index at `i`. -/
def cleanDBLoop (addr stop : Nat) : Nat → Nat → box86context_t → box86context_t
  | 0, _, ctx => ctx
  | n + 1, i, ctx => cleanDBLoop addr stop n (i + 1) (cleanDBSlot ctx addr stop i)

/-- `void cleanDBFromAddressRange(box86context_t* context, uintptr_t addr, uintptr_t size)` -/
def cleanDBFromAddressRange (ctx : box86context_t) (addr size : Nat) : box86context_t :=
  let idx := addr >>> 16
  let end_ := ((addr + size) % 4294967296) >>> 16
  cleanDBLoop addr ((addr + size) % 4294967296) (end_ + 1 - idx) idx ctx

/-- A call on the dynamic map: `addDBFromAddressRange(ctx, addr, size)` or
`cleanDBFromAddressRange(ctx, addr, size)`. -/
inductive DynmapCall where
  | add (addr size : Nat)
  | clean (addr size : Nat)
deriving DecidableEq, Repr

/-- The context after the calls of `calls`, made one after another. -/
def runDynmap (ctx : box86context_t) : List DynmapCall → box86context_t
  | [] => ctx
  | DynmapCall.add addr size :: cs => runDynmap (addDBFromAddressRange ctx addr size) cs
  | DynmapCall.clean addr size :: cs => runDynmap (cleanDBFromAddressRange ctx addr size) cs

/-! ## Example contexts -/

/-- An example pool: one slab at `0x10000000` of which 224 bytes are handed out. -/
def poolOneSlab : box86context_t :=
  bumpOffset (appendSlab zeroContext 112 0x10000000) 112 0

/-- An example pool: one slab at `0x10000000` with exactly 112 bytes left. -/
def poolNearlyFull : box86context_t :=
  appendSlab zeroContext (4194304 - 112) 0x10000000

/-- Every slab of the pool has a 16-byte aligned base and a 16-byte aligned
offset. -/
def PoolAligned (ctx : box86context_t) : Prop :=
  ∀ i, i < ctx.mmapsize →
    (ctx.mmaplist i).block % 16 = 0 ∧ (ctx.mmaplist i).offset % 16 = 0

instance (ctx : box86context_t) : Decidable (PoolAligned ctx) := by
  unfold PoolAligned; infer_instance

/-- The invariant of the pool with respect to the ranges `acc` handed out so far:
no offset is past the end of its slab, every range lies in the used part
`[block, block + offset)` of one slab, and no two ranges overlap. -/
def PoolInv (ctx : box86context_t) (acc : List (Nat × Nat)) : Prop :=
  (∀ i, i < ctx.mmapsize → (ctx.mmaplist i).offset ≤ MMAPSIZE) ∧
  (∀ x ∈ acc, ∃ i, i < ctx.mmapsize ∧ (ctx.mmaplist i).block ≤ x.1 ∧
    x.1 + x.2 ≤ (ctx.mmaplist i).block + (ctx.mmaplist i).offset) ∧
  acc.Pairwise RangesDisjoint

/-- An example run of requests: 100 bytes twice, a whole slab, and two requests
that go back to the first slab; the third pointer is never used. -/
def exampleRequests : List Request :=
  [(100, 0x10000000), (100, 0), (4194304, 0x20000000), (4194000, 0x30000000), (64, 7)]

/-- What the body of the loop of `cleanDBFromAddressRange` leaves in a slot that
held `v`. -/
def cleanSlotValue (v : Option dynmap_t) (addr stop : Nat) : Option dynmap_t :=
  (cleanDBSlot { zeroContext with dynmap := fun _ => v } addr stop 0).dynmap 0

/-- Every populated slot `i` of the dynamic map holds the list that
`addDBFromAddressRange` creates for it, `NewDynablockList(0, i<<16, 65536, 1, 1)`. -/
def SlotsOwnWindow (ctx : box86context_t) : Prop :=
  ∀ i d, ctx.dynmap i = some d →
    d.dynablocks = NewDynablockList 0 ((i <<< 16) % 4294967296) 65536 1 1

/-- An example dynamic map: the page `0x0804` is populated and its list holds two
blocks, `[0x8048000, 0x8048020)` and `[0x8049000, 0x8049010)`. -/
def dynmapTwoBlocks : box86context_t :=
  { zeroContext with
    dynmap := Function.update (fun _ => none) 0x0804
      (some { dynablocks :=
        { text := 0x8040000, textsz := 65536,
          blocks := [{ guest_start := 0x8048000, guest_end := 0x8048020 },
                     { guest_start := 0x8049000, guest_end := 0x8049010 }] } }) }

/-- An example run on the dynamic map: two ranges are added, one of them is
cleaned in part and a third is added. -/
def exampleCalls : List DynmapCall :=
  [DynmapCall.add 0x8048000 0x4000, DynmapCall.add 0xffff0000 0x100,
    DynmapCall.clean 0x8048000 0x1000, DynmapCall.add 0x10000 0x20000]

/-- What the body of the loop of `addDBFromAddressRange` leaves in slot `i` that
held `v`. -/
def addSlotValue (i : Nat) (v : Option dynmap_t) : Option dynmap_t :=
  (addDBSlot { zeroContext with dynmap := fun _ => v } i).dynmap i

/-- The entry of slot `0x0804` of `dynmapTwoBlocks`. -/
def twoBlocksPage : dynmap_t :=
  { dynablocks :=
      { text := 0x8040000, textsz := 65536,
        blocks := [{ guest_start := 0x8048000, guest_end := 0x8048020 },
                   { guest_start := 0x8049000, guest_end := 0x8049010 }] } }

/-! ## TLS partitions, canary and teardown -/

/-- The value of a 32-bit `int` computation whose exact result is `x`: two's
complement wrap-around. -/
def wrapInt32 (x : Int) : Int := (x + 2147483648) % 4294967296 - 2147483648

/-- `memmove(mem + dst, mem + src, n)` on a byte memory: the `n` bytes are copied
as if through a temporary buffer, so the regions may overlap. -/
def memmove (mem : Nat → Nat) (dst src n : Nat) : Nat → Nat :=
  fun j => if dst ≤ j ∧ j < dst + n then mem (src + (j - dst)) else mem j

/-- `memset(mem + dst, c, n)` on a byte memory; `c` is stored as an
`unsigned char`. -/
def memset (mem : Nat → Nat) (dst c n : Nat) : Nat → Nat :=
  fun j => if dst ≤ j ∧ j < dst + n then c % 256 else mem j

/-- `int AddTLSPartition(box86context_t* context, int tlssize)`: the returned
offset and the context after the call. `realloc` keeps the bytes the area already
had; the `int` sizes are converted to `size_t` where `memmove` and `memset` take
them. -/
def AddTLSPartition (context : box86context_t) (tlssize : Int) : Int × box86context_t :=
  let oldsize := context.tlssize
  let context := { context with tlssize := wrapInt32 (context.tlssize + tlssize) }
  let context :=
    { context with tlsdata := memmove context.tlsdata (toU32 tlssize) 0 (toU32 oldsize) }
  let context := { context with tlsdata := memset context.tlsdata 0 0 (toU32 tlssize) }
  (wrapInt32 (-context.tlssize), context)

/-- `RAND_MAX` of the C library, `2^31 - 1`. -/
def RAND_MAX : Nat := 2147483647

/-- `int getrand(int maxval)`; `r` is the value that its call of `random()`
returns, a `long` in `0..RAND_MAX`. The first branch is 32-bit `long` arithmetic
with the division of C, the second is `uint64_t` arithmetic whose result is
returned as an `int`. -/
def getrand (maxval : Int) (r : Nat) : Int :=
  if maxval < 1024 then
    wrapInt32 (Int.tdiv (wrapInt32 (((r &&& 0x7fff : Nat) : Int) * maxval)) 0x7fff)
  else
    wrapInt32 (((r * (maxval % 18446744073709551616).toNat) % 18446744073709551616
      / RAND_MAX : Nat) : Int)

/-- The loop `for (int i=0; i<4; ++i) context->canary[i] = 1 + getrand(255);` of
`NewBox86Context` with `n` iterations left and the index at `i`; `rnd k` is the
value the `k`-th call of `random()` returns, and a canary element is a byte. -/
def canaryLoop (rnd : Nat → Nat) : Nat → Nat → box86context_t → box86context_t
  | 0, _, context => context
  | n + 1, i, context =>
    canaryLoop rnd n (i + 1)
      { context with
        canary := Function.update context.canary i
          ((1 + getrand 255 (rnd i)) % 256).toNat }

/-- The model's part of `box86context_t *NewBox86Context(int argc)`: the zeroed
context of `calloc`, then the canary set-up, the four bytes by the loop and
`context->canary[getrand(4)] = 0` with the fifth value of `random()`. The
collaborators the function creates (librarian, bridge, mutexes, argv) are outside
the model. -/
def NewBox86Context (rnd : Nat → Nat) : box86context_t :=
  let context := canaryLoop rnd 4 0 zeroContext
  { context with canary := Function.update context.canary (getrand 4 (rnd 4)).toNat 0 }

/-- A step of the teardown of `FreeBox86Context` that acts on the state of the
model. -/
inductive TeardownStep where
  | munmap (block : Nat) (length : Nat)
  | free_mmaplist
  | cleanDBFromAddressRange (addr size : Nat)
  | free_context
deriving DecidableEq, Repr

/-- The loop `for (i=0; i<mmapsize; ++i) if(mmaplist[i].block) munmap(...)` of
`FreeBox86Context` with `n` iterations left and the index at `i`. -/
def munmapSlabs (ctx : box86context_t) : Nat → Nat → List TeardownStep
  | 0, _ => []
  | n + 1, i =>
    (if (ctx.mmaplist i).block ≠ 0 then
        [TeardownStep.munmap (ctx.mmaplist i).block MMAPSIZE]
      else []) ++ munmapSlabs ctx n (i + 1)

/-- What a call of `FreeBox86Context` does. -/
inductive FreeResult where
  /-- The argument `context` is NULL: the function returns at once. -/
  | nothing
  /-- The caller's pointer `*context` is NULL: the decrement of `forked`
  dereferences it. -/
  | fault
  /-- The counter `forked` was decremented and the function returned: the context
  stays allocated, in the state given, and `*context` still points to it. -/
  | kept (ctx : box86context_t)
  /-- The teardown ran to its end with the steps given, the context (in its last
  state) was freed and `*context` set to NULL. -/
  | freed (ctx : box86context_t) (steps : List TeardownStep)

/-- `void FreeBox86Context(box86context_t** context)`. The argument is `none` for
a NULL `context`, `some none` for a NULL `*context`, and `some (some ctx)` when
`*context` points to the context `ctx`. Of the teardown the steps on the pool and
on the dynamic map are modelled, in the order of the source; the releases of the
collaborators (librarian, emu, bridge, mutexes, ...) act on state outside the
model. -/
def FreeBox86Context (context : Option (Option box86context_t)) : FreeResult :=
  match context with
  | none => FreeResult.nothing
  | some none => FreeResult.fault
  | some (some ctx) =>
    let ctx := { ctx with forked := wrapInt32 (ctx.forked - 1) }
    if ctx.forked ≥ 0 then FreeResult.kept ctx
    else
      let unmap := munmapSlabs ctx ctx.mmapsize 0
      FreeResult.freed (cleanDBFromAddressRange ctx 0 0xffffffff)
        (unmap ++ [TeardownStep.free_mmaplist,
          TeardownStep.cleanDBFromAddressRange 0 0xffffffff, TeardownStep.free_context])

/-- The caller's pointer `*context` after a call of `FreeBox86Context`. -/
def pointerAfter : FreeResult → Option box86context_t
  | FreeResult.kept ctx => some ctx
  | _ => none

/-- The results of `k` calls `FreeBox86Context(&p)` made one after another on the
caller's pointer `p`. -/
def freeCalls : Nat → Option box86context_t → List FreeResult
  | 0, _ => []
  | k + 1, p =>
    FreeBox86Context (some p) :: freeCalls k (pointerAfter (FreeBox86Context (some p)))

/-- An example TLS area: one partition of 8 bytes `1, 2, ..., 8`. -/
def tlsEightBytes : box86context_t :=
  { zeroContext with tlssize := 8, tlsdata := fun j => if j < 8 then j + 1 else 0 }

/-- An example stream of `random()` values: the fifth call returns `0x7fff`, the
others 0. -/
def rndFifthAllOnes : Nat → Nat := fun k => if k = 4 then 0x7fff else 0

/-! ## Enumerations and bit-fields of `regs.h` -/

/-- The values a C `enum` gives its enumerators, in declaration order: an
enumerator with an initialiser has that value, one without has the value of the
one before it plus one, and the first has 0. `next` is the value of an
enumerator without initialiser at the head of the list. -/
def enumValues {α : Type} : List (α × Option Nat) → Nat → List (α × Nat)
  | [], _ => []
  | (a, some v) :: rest, _ => (a, v) :: enumValues rest (v + 1)
  | (a, none) :: rest, next => (a, next) :: enumValues rest (next + 1)

/-- The value of the enumerator `x` of the declaration `decl`. -/
def enumValue {α : Type} [DecidableEq α] (decl : List (α × Option Nat)) (x : α) :
    Option Nat :=
  ((enumValues decl 0).find? (fun e => decide (e.1 = x))).map (fun e => e.2)

/-- The enumerators of `defered_flags_t`. -/
inductive defered_flags_t where
  | d_none
  | d_add8 | d_add16 | d_add32
  | d_and8 | d_and16 | d_and32
  | d_dec8 | d_dec16 | d_dec32
  | d_inc8 | d_inc16 | d_inc32
  | d_imul8 | d_imul16 | d_imul32
  | d_or8 | d_or16 | d_or32
  | d_mul8 | d_mul16 | d_mul32
  | d_neg8 | d_neg16 | d_neg32
  | d_shl8 | d_shl16 | d_shl32
  | d_shr8 | d_shr16 | d_shr32
  | d_sar8 | d_sar16 | d_sar32
  | d_sub8 | d_sub16 | d_sub32
  | d_xor8 | d_xor16 | d_xor32
  | d_unknown
deriving DecidableEq, Repr

open defered_flags_t in
/-- The declaration `typedef enum { d_none = 0, d_add8, ..., d_unknown }
defered_flags_t;` of regs.h: only `d_none` has an initialiser. -/
def defered_flags_decl : List (defered_flags_t × Option Nat) :=
  [(d_none, some 0),
   (d_add8, none), (d_add16, none), (d_add32, none),
   (d_and8, none), (d_and16, none), (d_and32, none),
   (d_dec8, none), (d_dec16, none), (d_dec32, none),
   (d_inc8, none), (d_inc16, none), (d_inc32, none),
   (d_imul8, none), (d_imul16, none), (d_imul32, none),
   (d_or8, none), (d_or16, none), (d_or32, none),
   (d_mul8, none), (d_mul16, none), (d_mul32, none),
   (d_neg8, none), (d_neg16, none), (d_neg32, none),
   (d_shl8, none), (d_shl16, none), (d_shl32, none),
   (d_shr8, none), (d_shr16, none), (d_shr32, none),
   (d_sar8, none), (d_sar16, none), (d_sar32, none),
   (d_sub8, none), (d_sub16, none), (d_sub32, none),
   (d_xor8, none), (d_xor16, none), (d_xor32, none),
   (d_unknown, none)]

open defered_flags_t in
/-- The enumerator of the operation with index `k` in the order add, and, dec,
inc, imul, or, mul, neg, shl, shr, sar, sub, xor and of the width with index `w`
in the order 8, 16, 32. -/
def deferedKind : Nat → Nat → Option defered_flags_t
  | 0, 0 => some d_add8 | 0, 1 => some d_add16 | 0, 2 => some d_add32
  | 1, 0 => some d_and8 | 1, 1 => some d_and16 | 1, 2 => some d_and32
  | 2, 0 => some d_dec8 | 2, 1 => some d_dec16 | 2, 2 => some d_dec32
  | 3, 0 => some d_inc8 | 3, 1 => some d_inc16 | 3, 2 => some d_inc32
  | 4, 0 => some d_imul8 | 4, 1 => some d_imul16 | 4, 2 => some d_imul32
  | 5, 0 => some d_or8 | 5, 1 => some d_or16 | 5, 2 => some d_or32
  | 6, 0 => some d_mul8 | 6, 1 => some d_mul16 | 6, 2 => some d_mul32
  | 7, 0 => some d_neg8 | 7, 1 => some d_neg16 | 7, 2 => some d_neg32
  | 8, 0 => some d_shl8 | 8, 1 => some d_shl16 | 8, 2 => some d_shl32
  | 9, 0 => some d_shr8 | 9, 1 => some d_shr16 | 9, 2 => some d_shr32
  | 10, 0 => some d_sar8 | 10, 1 => some d_sar16 | 10, 2 => some d_sar32
  | 11, 0 => some d_sub8 | 11, 1 => some d_sub16 | 11, 2 => some d_sub32
  | 12, 0 => some d_xor8 | 12, 1 => some d_xor16 | 12, 2 => some d_xor32
  | _, _ => none

/-- The enumerators of `flags_names_t`. -/
inductive flags_names_t where
  | F_CF | F_res1 | F_PF | F_res2 | F_AF | F_res3 | F_ZF | F_SF | F_TF | F_IF | F_DF
  | F_OF | F_IOPL | F_NT | F_dummy | F_RF | F_VM | F_AC | F_VIF | F_VIP | F_ID | F_LAST
deriving DecidableEq, Repr

open flags_names_t in
/-- The declaration `typedef enum { F_CF = 0, F_res1, ..., F_IOPL, F_NT = 14, ...,
F_LAST } flags_names_t;` of regs.h. -/
def flags_names_decl : List (flags_names_t × Option Nat) :=
  [(F_CF, some 0), (F_res1, none), (F_PF, none), (F_res2, none), (F_AF, none),
   (F_res3, none), (F_ZF, none), (F_SF, none), (F_TF, none), (F_IF, none),
   (F_DF, none), (F_OF, none), (F_IOPL, none), (F_NT, some 14), (F_dummy, none),
   (F_RF, none), (F_VM, none), (F_AC, none), (F_VIF, none), (F_VIP, none),
   (F_ID, none), (F_LAST, none)]

open flags_names_t in
/-- The bit-field `f` of the union `x86flags_t` of regs.h, in declaration order:
the field `F__X` is listed under the enumerator `F_X` of the same name, with its
width in bits. -/
def x86flags_fields : List (flags_names_t × Nat) :=
  [(F_CF, 1), (F_res1, 1), (F_PF, 1), (F_res2, 1), (F_AF, 1), (F_res3, 1), (F_ZF, 1),
   (F_SF, 1), (F_TF, 1), (F_IF, 1), (F_DF, 1), (F_OF, 1), (F_IOPL, 2), (F_NT, 1),
   (F_dummy, 1), (F_RF, 1), (F_VM, 1), (F_AC, 1), (F_VIF, 1), (F_VIP, 1), (F_ID, 1)]

/-- The bit offsets of the fields of a packed bit-field laid out from bit 0
upwards, the next field starting at `next`. -/
def bitOffsets {α : Type} : List (α × Nat) → Nat → List (α × Nat)
  | [], _ => []
  | (a, width) :: rest, next => (a, next) :: bitOffsets rest (next + width)

/-- The bit offset of the field `x` of the bit-field `fields`. -/
def bitOffset {α : Type} [DecidableEq α] (fields : List (α × Nat)) (x : α) : Option Nat :=
  ((bitOffsets fields 0).find? (fun e => decide (e.1 = x))).map (fun e => e.2)

/-! ## Calls that the functions of `box86context.c` make -/

/-- A call that `AllocDynarecMap` makes to the outside: `mmap` with the length it
asks for, and the lock and unlock of the pool mutex `mutex_mmap`. -/
inductive AllocEvent where
  | mmap (length : Nat)
  | lock_mutex_mmap
  | unlock_mutex_mmap
deriving DecidableEq, Repr

/-- The calls of `AllocDynarecMap(context, size, nolinker)` to `mmap` and to the
pool mutex, in the order of the source. The length of a mapping is a `size_t`:
on the no-linker path the `int size` converted, for a new slab `MMAPSIZE`. -/
def AllocDynarecMap_events (ctx : box86context_t) (size : Int) (nolinker : Int) :
    List AllocEvent :=
  if nolinker ≠ 0 then
    [AllocEvent.mmap (toU32 size)]
  else
    let size := alignSize size
    match AllocDynarecMap_scan ctx size ctx.mmapsize 0 with
    | some _ => [AllocEvent.lock_mutex_mmap, AllocEvent.unlock_mutex_mmap]
    | none =>
      [AllocEvent.lock_mutex_mmap, AllocEvent.mmap MMAPSIZE, AllocEvent.unlock_mutex_mmap]

/-- What an execution of `addDBFromAddressRange` does with the dynamic map and
with the mutex `mutex_blocks` of the context. -/
inductive DynmapEvent where
  | lock_mutex_blocks
  | unlock_mutex_blocks
  | readSlot (i : Nat)
  | writeSlot (i : Nat)
deriving DecidableEq, Repr

/-- The events of the body of the loop of `addDBFromAddressRange` at slot `i`:
the test `if(!context->dynmap[i])` reads the slot, and an empty slot is written. -/
def addDBSlot_events (ctx : box86context_t) (i : Nat) : List DynmapEvent :=
  match ctx.dynmap i with
  | some _ => [DynmapEvent.readSlot i]
  | none => [DynmapEvent.readSlot i, DynmapEvent.writeSlot i]

/-- The events of the loop of `addDBFromAddressRange` with `n` iterations left and
the index at `i`. -/
def addDBLoop_events : Nat → Nat → box86context_t → List DynmapEvent
  | 0, _, _ => []
  | n + 1, i, ctx => addDBSlot_events ctx i ++ addDBLoop_events n (i + 1) (addDBSlot ctx i)

/-- The events of `addDBFromAddressRange(context, addr, size)`, in the order of
the source; the function has no call on `mutex_blocks`. -/
def addDBFromAddressRange_events (ctx : box86context_t) (addr size : Nat) :
    List DynmapEvent :=
  let idx := addr >>> 16
  let end_ := ((addr + size) % 4294967296) >>> 16
  addDBLoop_events (end_ + 1 - idx) idx ctx

/-! ## ELF header registry -/

/-- `int AddElfHeader(box86context_t* ctx, elfheader_t* head)`: the returned
index and the context after the call; `head` stands for the pointer. `realloc`
keeps the entries the array already had. -/
def AddElfHeader (ctx : box86context_t) (head : Nat) : Int × box86context_t :=
  let idx := ctx.elfsize
  let ctx :=
    if idx = ctx.elfcap then { ctx with elfcap := wrapInt32 (ctx.elfcap + 16) } else ctx
  let ctx := { ctx with elfs := Function.update ctx.elfs idx.toNat head }
  let ctx := { ctx with elfsize := wrapInt32 (ctx.elfsize + 1) }
  (idx, ctx)

/-- The context after the calls `AddElfHeader(ctx, head)` for the headers of
`heads`, made one after another. -/
def runAddElfHeader (ctx : box86context_t) : List Nat → box86context_t
  | [] => ctx
  | h :: hs => runAddElfHeader (AddElfHeader ctx h).2 hs

/-- The values that the calls `AddElfHeader(ctx, head)` for the headers of `heads`
return, in call order. -/
def addElfHeaderResults (ctx : box86context_t) : List Nat → List Int
  | [] => []
  | h :: hs => (AddElfHeader ctx h).1 :: addElfHeaderResults (AddElfHeader ctx h).2 hs

/-- The invariant of the registry of ELF headers after `m` calls of
`AddElfHeader`: `elfsize` is `m`, it is at most `elfcap`, and `elfcap` is a
multiple of 16 less than `m + 16`. -/
def ElfInv (ctx : box86context_t) (m : Nat) : Prop :=
  ctx.elfsize = (m : Int) ∧ ctx.elfsize ≤ ctx.elfcap ∧ ctx.elfcap % 16 = 0 ∧
    ctx.elfcap < (m : Int) + 16

/-! ## Emitted ARM code: the macros of `dynarec_arm_helper.h` -/

/-- Modelled from the spec: the host registers of the register cache, whose
numbers are defined in a header that is missing: `xEmu` holds the pointer to the
guest CPU state, `x1`, `x2`, `x3` are scratch registers and `xEAX` is the first of
the registers `xEAX…xEDI` assigned to the x86 integer registers. They are
parameters of the macros. -/
structure HostRegs where
  xEmu : Nat
  x1 : Nat
  x2 : Nat
  x3 : Nat
  xEAX : Nat
deriving DecidableEq, Repr

/-- The ARM condition codes that the macros use. -/
inductive ArmCond where
  | cEQ
  | cVS
  | cGT
  | cLO
deriving DecidableEq, Repr

/-- A field of `x86emu_t` (its declaration is missing) that a macro addresses by
`offsetof(x86emu_t, field)`. -/
inductive EmuField where
  | sw
  | df
  | flags (f : flags_names_t)
  | op1
  | op2
  | res
deriving DecidableEq, Repr

/-- The immediate offset of a load or store: the `offsetof` of a field of
`x86emu_t`, or a number such as `fixedaddress`. -/
inductive Offset where
  | field (f : EmuField)
  | imm (n : Int)
deriving DecidableEq, Repr

/-- Modelled from the spec: the emitter macros of arm_emitter.h (missing) that the
macros of dynarec_arm_helper.h call; each emits the one ARM instruction it is
named after, with the operands in the order of the macro's arguments. -/
inductive ArmInst where
  | VMRS_APSR
  | LDR_IMM9 (rt rn : Nat) (off : Offset)
  | STR_IMM9 (rt rn : Nat) (off : Offset)
  | LDRH_IMM8 (rt rn : Nat) (off : Offset)
  | STRH_IMM8 (rt rn : Nat) (off : Offset)
  | LDRB_IMM9 (rt rn : Nat) (off : Offset)
  | STRB_IMM9 (rt rn : Nat) (off : Offset)
  | LDRSB_IMM8 (rt rn : Nat) (off : Offset)
  | LDR_REG_LSL_IMM5 (rt rn rm imm5 : Nat)
  | MOVW (rd imm16 : Nat)
  | MOVW_COND (cond : ArmCond) (rd imm16 : Nat)
  | BIC_REG_LSL_IMM8 (rd rn rm imm8 : Nat)
  | ORR_REG_LSL_IMM8 (rd rn rm imm8 : Nat)
  | XOR_REG_LSL_IMM8 (rd rn rm imm8 : Nat)
  | UBFX (rd rn lsb width : Nat)
  | UXTB (rd rm rot : Nat)
  | SXTB (rd rm rot : Nat)
  | BFI (rd rn lsb width : Nat)
deriving DecidableEq, Repr

/-- The ARM condition flags N, Z, C, V. -/
structure NZCV where
  n : Bool
  z : Bool
  c : Bool
  v : Bool
deriving DecidableEq, Repr

/-- Whether an ARM condition holds for the flags: `EQ` is `Z`, `VS` is `V`, `GT`
is `!Z && N == V`, `LO` is `!C`. -/
def condHolds : ArmCond → NZCV → Bool
  | ArmCond.cEQ, f => f.z
  | ArmCond.cVS, f => f.v
  | ArmCond.cGT, f => !f.z && (f.n == f.v)
  | ArmCond.cLO, f => !f.c

/-- The fields of the guest CPU state `x86emu_t` that `FCOM` and `FCOMI` read and
write: the x87 status word `sw` (16 bits), the deferred-flags kind `df` and the
array `flags`. -/
structure EmuState where
  sw : Nat
  df : Nat
  flags : flags_names_t → Nat

/-- The state of the host while it runs emitted code: the 32-bit core registers,
the condition flags of the APSR and of the FPSCR, the address `emuAddr` of the
guest CPU state in memory, and that state. -/
structure ArmState where
  regs : Nat → Nat
  apsr : NZCV
  fpscr : NZCV
  emuAddr : Nat
  emu : EmuState

/-- The second operand `rm, LSL #imm` of a data-processing instruction. -/
def shiftedReg (st : ArmState) (rm imm : Nat) : Nat :=
  (st.regs rm <<< imm) % 4294967296

/-- The value of `BFI rd, rn, #lsb, #width` for the old value `d` of `rd` and the
value `n` of `rn`: the `width` bits of `d` from bit `lsb` are replaced by the low
`width` bits of `n`. -/
def bfiValue (d n lsb width : Nat) : Nat :=
  d % 2 ^ lsb + (n % 2 ^ width) * 2 ^ lsb + (d / 2 ^ (lsb + width)) * 2 ^ (lsb + width)

/-- The value of `UXTB rd, rm, ROR #(8*rot)` for the value `m` of `rm`: the byte
of `m` in lane `rot`. -/
def uxtbValue (m rot : Nat) : Nat := (m / 2 ^ (8 * (rot % 4))) % 256

/-- Modelled from the spec: the effect of one emitted instruction, that of the ARM
architecture. A load or store is modelled when it addresses a field of the guest
CPU state, that is when its base register holds the address of that state; for
any other memory access, which is outside the model, the result is `none`. -/
def execArm (inst : ArmInst) (st : ArmState) : Option ArmState :=
  match inst with
  | ArmInst.VMRS_APSR => some { st with apsr := st.fpscr }
  | ArmInst.MOVW rd imm16 => some { st with regs := Function.update st.regs rd imm16 }
  | ArmInst.MOVW_COND cond rd imm16 =>
    if condHolds cond st.apsr then
      some { st with regs := Function.update st.regs rd imm16 }
    else some st
  | ArmInst.BIC_REG_LSL_IMM8 rd rn rm imm8 =>
    some { st with
      regs := Function.update st.regs rd
        (st.regs rn &&& (shiftedReg st rm imm8 ^^^ 0xffffffff)) }
  | ArmInst.ORR_REG_LSL_IMM8 rd rn rm imm8 =>
    some { st with
      regs := Function.update st.regs rd (st.regs rn ||| shiftedReg st rm imm8) }
  | ArmInst.XOR_REG_LSL_IMM8 rd rn rm imm8 =>
    some { st with
      regs := Function.update st.regs rd (st.regs rn ^^^ shiftedReg st rm imm8) }
  | ArmInst.UBFX rd rn lsb width =>
    some { st with
      regs := Function.update st.regs rd ((st.regs rn / 2 ^ lsb) % 2 ^ width) }
  | ArmInst.UXTB rd rm rot =>
    some { st with regs := Function.update st.regs rd (uxtbValue (st.regs rm) rot) }
  | ArmInst.BFI rd rn lsb width =>
    some { st with
      regs := Function.update st.regs rd (bfiValue (st.regs rd) (st.regs rn) lsb width) }
  | ArmInst.LDRH_IMM8 rt rn (Offset.field EmuField.sw) =>
    if st.regs rn = st.emuAddr then
      some { st with regs := Function.update st.regs rt (st.emu.sw % 65536) }
    else none
  | ArmInst.STRH_IMM8 rt rn (Offset.field EmuField.sw) =>
    if st.regs rn = st.emuAddr then some { st with emu := { st.emu with sw := st.regs rt % 65536 } }
    else none
  | ArmInst.STR_IMM9 rt rn (Offset.field (EmuField.flags f)) =>
    if st.regs rn = st.emuAddr then
      some { st with
        emu := { st.emu with flags := Function.update st.emu.flags f (st.regs rt) } }
    else none
  | ArmInst.STR_IMM9 rt rn (Offset.field EmuField.df) =>
    if st.regs rn = st.emuAddr then some { st with emu := { st.emu with df := st.regs rt } }
    else none
  | _ => none

/-- The effect of a sequence of emitted instructions, run in order. -/
def runArm : List ArmInst → ArmState → Option ArmState
  | [], st => some st
  | inst :: rest, st =>
    match execArm inst st with
    | some st1 => runArm rest st1
    | none => none

/-- `#define FCOM(s1, s2)`: the instructions the macro emits, in order. -/
def FCOM (hr : HostRegs) (s1 s2 : Nat) : List ArmInst :=
  [ArmInst.VMRS_APSR,
   ArmInst.LDRH_IMM8 s2 hr.xEmu (Offset.field EmuField.sw),
   ArmInst.MOVW s1 0b0100011100000000,
   ArmInst.BIC_REG_LSL_IMM8 s2 s2 s1 0,
   ArmInst.MOVW_COND ArmCond.cVS s1 0b0100010100000000,
   ArmInst.MOVW_COND ArmCond.cEQ s1 0b0100000000000000,
   ArmInst.MOVW_COND ArmCond.cGT s1 0b0000000000000000,
   ArmInst.MOVW_COND ArmCond.cLO s1 0b0000000100000000,
   ArmInst.ORR_REG_LSL_IMM8 s2 s2 s1 0,
   ArmInst.STRH_IMM8 s2 hr.xEmu (Offset.field EmuField.sw)]

/-- `#define FCOMI(s1, s2)`: the instructions the macro emits, in order; the
immediate of `MOVW(s2, d_none)` is the value of the enumerator. -/
def FCOMI (hr : HostRegs) (s1 s2 : Nat) : List ArmInst :=
  [ArmInst.VMRS_APSR,
   ArmInst.XOR_REG_LSL_IMM8 s2 s2 s2 0,
   ArmInst.MOVW_COND ArmCond.cVS s1 0b111,
   ArmInst.MOVW_COND ArmCond.cEQ s1 0b100,
   ArmInst.MOVW_COND ArmCond.cGT s1 0b000,
   ArmInst.MOVW_COND ArmCond.cLO s1 0b001,
   ArmInst.UBFX s2 s1 0 1,
   ArmInst.STR_IMM9 s2 hr.xEmu (Offset.field (EmuField.flags flags_names_t.F_CF)),
   ArmInst.UBFX s2 s1 1 1,
   ArmInst.STR_IMM9 s2 hr.xEmu (Offset.field (EmuField.flags flags_names_t.F_PF)),
   ArmInst.UBFX s2 s1 2 1,
   ArmInst.STR_IMM9 s2 hr.xEmu (Offset.field (EmuField.flags flags_names_t.F_ZF)),
   ArmInst.MOVW s2 ((enumValue defered_flags_decl defered_flags_t.d_none).getD 0),
   ArmInst.STR_IMM9 s2 hr.xEmu (Offset.field EmuField.df)]

/-- The outcome of the host floating-point comparison that precedes `FCOM` or
`FCOMI`. -/
inductive FCmp where
  | unordered
  | equal
  | greater
  | less
deriving DecidableEq, Repr

/-- The condition flags that the comparison leaves in the FPSCR: unordered `C` and
`V`, equal `Z` and `C`, greater `C` alone, less `N` alone. -/
def vcmpFlags : FCmp → NZCV
  | FCmp.unordered => { n := false, z := false, c := true, v := true }
  | FCmp.equal => { n := false, z := true, c := true, v := false }
  | FCmp.greater => { n := false, z := false, c := true, v := false }
  | FCmp.less => { n := true, z := false, c := false, v := false }

/-- The conditional moves of an emitted sequence, in order. -/
def condMoves (code : List ArmInst) : List ArmCond :=
  code.filterMap (fun inst =>
    match inst with
    | ArmInst.MOVW_COND c _ _ => some c
    | _ => none)

/-- How many of the conditional moves of an emitted sequence fire, that is have
their condition hold, for the flags. -/
def firedMoves (code : List ArmInst) (f : NZCV) : Nat :=
  ((condMoves code).filter (fun c => condHolds c f)).length

/-- The host registers of box86 on ARM, as an example: `xEmu` is r0, the scratch
registers are r1, r2, r3 and `xEAX` is r4. -/
def exampleRegs : HostRegs := { xEmu := 0, x1 := 1, x2 := 2, x3 := 3, xEAX := 4 }

/-- An example host state: r0 holds the address of the guest CPU state and the
other registers are zero, the comparison found its operands equal, and the status
word is `0xffff`. -/
def exampleArmState : ArmState :=
  { regs := fun r => if r = 0 then 0x10000 else 0
    apsr := { n := false, z := false, c := false, v := false }
    fpscr := vcmpFlags FCmp.equal
    emuAddr := 0x10000
    emu := { sw := 0xffff, df := 36, flags := fun _ => 7 } }

/-! ## Operand decoding macros of `dynarec_arm_helper.h` -/

/-- The local variables of a translation pass that the operand macros read and
write (`addr`, `ed`, `gd`, `wback`, `fixedaddress`, `wb1`, `wb2`, `gb1`, `gb2`),
and the host instructions emitted so far, in order. Register numbers are natural
numbers. -/
structure MacroState where
  addr : Nat
  ed : Nat
  gd : Nat
  wback : Nat
  fixedaddress : Int
  wb1 : Nat
  wb2 : Nat
  gb1 : Nat
  gb2 : Nat
  emitted : List ArmInst
deriving DecidableEq, Repr

/-- What a call `geted(dyn, addr, ninst, nextop, &wback, hint, &fixedaddress,
absmax, mask)` leaves: the returned address, the register written through its
fifth argument, the value written through `&fixedaddress`, and the instructions it
emitted. -/
structure GetedResult where
  addr : Nat
  ed : Nat
  fixedaddress : Int
  emitted : List ArmInst
deriving DecidableEq, Repr

/-- The function `geted`, of which `dynarec_arm_helper.h` has the prototype only:
a parameter of the macros, taking `addr`, `nextop`, `hint`, `absmax` and `mask`. -/
abbrev Geted := Nat → Nat → Nat → Nat → Nat → GetedResult

/-- The statement `addr = geted(dyn, addr, ninst, nextop, &wback, hint,
&fixedaddress, absmax, mask);` of the macros. -/
def callGeted (g : Geted) (nextop hint absmax mask : Nat) (ms : MacroState) : MacroState :=
  let r := g ms.addr nextop hint absmax mask
  { ms with
    addr := r.addr
    wback := r.ed
    fixedaddress := r.fixedaddress
    emitted := ms.emitted ++ r.emitted }

/-- The emission of one instruction by an emitter macro. -/
def emit (inst : ArmInst) (ms : MacroState) : MacroState :=
  { ms with emitted := ms.emitted ++ [inst] }

/-- `#define GETGD   gd = xEAX+((nextop&0x38)>>3)`. -/
def GETGD (hr : HostRegs) (nextop : Nat) (ms : MacroState) : MacroState :=
  { ms with gd := hr.xEAX + ((nextop &&& 0x38) >>> 3) }

/-- `#define GETED`. -/
def GETED (hr : HostRegs) (g : Geted) (nextop : Nat) (ms : MacroState) : MacroState :=
  if nextop &&& 0xC0 = 0xC0 then
    { ms with ed := hr.xEAX + (nextop &&& 7), wback := 0 }
  else
    let ms1 := callGeted g nextop hr.x2 4095 0 ms
    let ms2 := emit (ArmInst.LDR_IMM9 hr.x1 ms1.wback (Offset.imm ms1.fixedaddress)) ms1
    { ms2 with ed := hr.x1 }

/-- `#define GETEDH(hint)`. -/
def GETEDH (hr : HostRegs) (g : Geted) (hint : Nat) (nextop : Nat) (ms : MacroState) :
    MacroState :=
  if nextop &&& 0xC0 = 0xC0 then
    { ms with ed := hr.xEAX + (nextop &&& 7), wback := 0 }
  else
    let ms1 := callGeted g nextop (if hint = hr.x2 then hr.x1 else hr.x2) 4095 0 ms
    let ms2 := emit (ArmInst.LDR_IMM9 hint ms1.wback (Offset.imm ms1.fixedaddress)) ms1
    { ms2 with ed := hint }

/-- `#define GETEDO(O)`. -/
def GETEDO (hr : HostRegs) (g : Geted) (O : Nat) (nextop : Nat) (ms : MacroState) :
    MacroState :=
  if nextop &&& 0xC0 = 0xC0 then
    { ms with ed := hr.xEAX + (nextop &&& 7), wback := 0 }
  else
    let ms1 := callGeted g nextop hr.x2 0 0 ms
    let ms2 := emit (ArmInst.LDR_REG_LSL_IMM5 hr.x1 ms1.wback O 0) ms1
    { ms2 with ed := hr.x1 }

/-- `#define WBACK       if(wback) {STR_IMM9(ed, wback, fixedaddress);}`. -/
def WBACK (ms : MacroState) : MacroState :=
  if ms.wback ≠ 0 then emit (ArmInst.STR_IMM9 ms.ed ms.wback (Offset.imm ms.fixedaddress)) ms
  else ms

/-- `#define GETEB(i)`. -/
def GETEB (hr : HostRegs) (g : Geted) (i : Nat) (nextop : Nat) (ms : MacroState) :
    MacroState :=
  if nextop &&& 0xC0 = 0xC0 then
    let ms1 := { ms with wback := nextop &&& 7 }
    let ms2 := { ms1 with wb2 := ms1.wback >>> 2 }
    let ms3 := { ms2 with wback := hr.xEAX + (ms2.wback &&& 3) }
    let ms4 := emit (ArmInst.UXTB i ms3.wback ms3.wb2) ms3
    { ms4 with wb1 := 0, ed := i }
  else
    let ms1 := callGeted g nextop hr.x3 4095 0 ms
    let ms2 := emit (ArmInst.LDRB_IMM9 i ms1.wback (Offset.imm ms1.fixedaddress)) ms1
    { ms2 with wb1 := 1, ed := i }

/-- `#define GETSEB(i)`. -/
def GETSEB (hr : HostRegs) (g : Geted) (i : Nat) (nextop : Nat) (ms : MacroState) :
    MacroState :=
  if nextop &&& 0xC0 = 0xC0 then
    let ms1 := { ms with wback := nextop &&& 7 }
    let ms2 := { ms1 with wb2 := ms1.wback >>> 2 }
    let ms3 := { ms2 with wback := hr.xEAX + (ms2.wback &&& 3) }
    let ms4 := emit (ArmInst.SXTB i ms3.wback ms3.wb2) ms3
    { ms4 with wb1 := 0, ed := i }
  else
    let ms1 := callGeted g nextop hr.x3 255 0 ms
    let ms2 := emit (ArmInst.LDRSB_IMM8 i ms1.wback (Offset.imm ms1.fixedaddress)) ms1
    { ms2 with wb1 := 1, ed := i }

/-- `#define EBBACK   if(wb1) {STRB_IMM9(ed, wback, fixedaddress);} else
{BFI(wback, ed, wb2*8, 8);}`. -/
def EBBACK (ms : MacroState) : MacroState :=
  if ms.wb1 ≠ 0 then emit (ArmInst.STRB_IMM9 ms.ed ms.wback (Offset.imm ms.fixedaddress)) ms
  else emit (ArmInst.BFI ms.wback ms.ed (ms.wb2 * 8) 8) ms

/-- `#define GETGB(i)`. -/
def GETGB (hr : HostRegs) (i : Nat) (nextop : Nat) (ms : MacroState) : MacroState :=
  let ms1 := { ms with gd := (nextop &&& 0x38) >>> 3 }
  let ms2 := { ms1 with gb2 := (ms1.gd &&& 4) >>> 2 }
  let ms3 := { ms2 with gb1 := hr.xEAX + (ms2.gd &&& 3) }
  let ms4 := { ms3 with gd := i }
  emit (ArmInst.UXTB ms4.gd ms4.gb1 ms4.gb2) ms4

/-- `#define GETSGB(i)`. -/
def GETSGB (hr : HostRegs) (i : Nat) (nextop : Nat) (ms : MacroState) : MacroState :=
  let ms1 := { ms with gd := (nextop &&& 0x38) >>> 3 }
  let ms2 := { ms1 with gb2 := (ms1.gd &&& 4) >>> 2 }
  let ms3 := { ms2 with gb1 := hr.xEAX + (ms2.gd &&& 3) }
  let ms4 := { ms3 with gd := i }
  emit (ArmInst.SXTB ms4.gd ms4.gb1 ms4.gb2) ms4

/-- `#define GBBACK   BFI(gb1, gd, gb2*8, 8);`. -/
def GBBACK (ms : MacroState) : MacroState :=
  emit (ArmInst.BFI ms.gb1 ms.gd (ms.gb2 * 8) 8) ms

/-- An example of `geted`: it consumes one byte of the guest code, puts the address
in the hint register with `fixedaddress` 8, and emits one move. -/
def exampleGeted : Geted := fun addr _ hint _ _ =>
  { addr := addr + 1, ed := hint, fixedaddress := 8, emitted := [ArmInst.MOVW hint 0x1000] }

/-- An example state of the pass: decoding at guest address `0x8048000`, nothing
emitted yet. -/
def exampleMacroState : MacroState :=
  { addr := 0x8048000, ed := 0, gd := 0, wback := 9, fixedaddress := 0, wb1 := 0, wb2 := 0,
    gb1 := 0, gb2 := 0, emitted := [] }

/-! ## Rounding of the request size -/

theorem land_mask16 (x : Nat) (hx : x < 4294967296) :
    x &&& 0xfffffff0 = x - x % 16 := by
  have h1 : x &&& 0xfffffff0 = (x >>> 4) <<< 4 := by
    apply Nat.eq_of_testBit_eq
    intro i
    rw [Nat.testBit_and, Nat.testBit_shiftLeft, Nat.testBit_shiftRight]
    by_cases hi : i < 32
    · interval_cases i <;> simp [Nat.testBit, Nat.shiftRight_eq_div_pow]
    · have hx2 : x.testBit i = false := by
        apply Nat.testBit_lt_two_pow
        calc x < 2 ^ 32 := by simpa using hx
          _ ≤ 2 ^ i := Nat.pow_le_pow_right (by decide) (by omega)
      have h4 : 4 ≤ i := by omega
      have : 4 + (i - 4) = i := by omega
      simp [hx2, h4, this]
  rw [h1, Nat.shiftRight_eq_div_pow, Nat.shiftLeft_eq]
  omega

theorem alignSize_eq (size : Int) :
    alignSize size =
      (toU32 size + 15) % 4294967296 - ((toU32 size + 15) % 4294967296) % 16 := by
  unfold alignSize
  exact land_mask16 _ (Nat.mod_lt _ (by decide))

theorem alignSize_mod16 (size : Int) : alignSize size % 16 = 0 := by
  rw [alignSize_eq]; omega

theorem alignSize_lt (size : Int) : alignSize size < 4294967296 := by
  rw [alignSize_eq]; omega

theorem toU32_of_nonneg (s : Int) (h0 : 0 ≤ s) (h1 : s < 4294967296) :
    (toU32 s : Int) = s := by
  unfold toU32
  omega

theorem alignSize_of_nonneg (s : Int) (h0 : 0 ≤ s) (h1 : s ≤ 2147483647) :
    (s ≤ (alignSize s : Int)) ∧ ((alignSize s : Int) < s + 16) := by
  have h := toU32_of_nonneg s h0 (by omega)
  rw [alignSize_eq]
  omega

theorem scan_some (ctx : box86context_t) (size : Nat) :
    ∀ (n i : Nat) (r : Nat × box86context_t),
      AllocDynarecMap_scan ctx size n i = some r →
      ∃ k, i ≤ k ∧ k < i + n ∧ fits ctx size k ∧
        (∀ j, i ≤ j → j < k → ¬ fits ctx size j) ∧
        r = (((ctx.mmaplist k).offset + (ctx.mmaplist k).block) % 4294967296,
              bumpOffset ctx size k) := by
  intro n
  induction n with
  | zero => intro i r h; simp [AllocDynarecMap_scan] at h
  | succ n ih =>
    intro i r h
    unfold AllocDynarecMap_scan at h
    by_cases hf : fits ctx size i
    · rw [if_pos hf] at h
      refine ⟨i, le_refl _, by omega, hf, ?_, ?_⟩
      · intro j h1 h2; omega
      · exact (Option.some.inj h).symm
    · rw [if_neg hf] at h
      obtain ⟨k, hk1, hk2, hk3, hk4, hk5⟩ := ih (i + 1) r h
      refine ⟨k, by omega, by omega, hk3, ?_, hk5⟩
      intro j h1 h2
      by_cases hji : j = i
      · subst hji; exact hf
      · exact hk4 j (by omega) h2

theorem scan_none (ctx : box86context_t) (size : Nat) :
    ∀ (n i : Nat), AllocDynarecMap_scan ctx size n i = none →
      ∀ j, i ≤ j → j < i + n → ¬ fits ctx size j := by
  intro n
  induction n with
  | zero => intro i _ j h1 h2; omega
  | succ n ih =>
    intro i h j h1 h2
    unfold AllocDynarecMap_scan at h
    by_cases hf : fits ctx size i
    · rw [if_pos hf] at h; cases h
    · rw [if_neg hf] at h
      by_cases hji : j = i
      · subst hji; exact hf
      · exact ih (i + 1) h j (by omega) (by omega)

theorem AllocDynarecMap_cases (ctx : box86context_t) (size : Int) (p : Nat) :
    (∃ k, k < ctx.mmapsize ∧ fits ctx (alignSize size) k ∧
        (∀ j, j < k → ¬ fits ctx (alignSize size) j) ∧
        AllocDynarecMap ctx size 0 p =
          (((ctx.mmaplist k).offset + (ctx.mmaplist k).block) % 4294967296,
            bumpOffset ctx (alignSize size) k)) ∨
    ((∀ j, j < ctx.mmapsize → ¬ fits ctx (alignSize size) j) ∧ p = MAP_FAILED ∧
        AllocDynarecMap ctx size 0 p = (0, ctx)) ∨
    ((∀ j, j < ctx.mmapsize → ¬ fits ctx (alignSize size) j) ∧ p ≠ MAP_FAILED ∧
        AllocDynarecMap ctx size 0 p = (p, appendSlab ctx (alignSize size) p)) := by
  cases hscan : AllocDynarecMap_scan ctx (alignSize size) ctx.mmapsize 0 with
  | some r =>
    left
    obtain ⟨k, _, hk2, hk3, hk4, hk5⟩ := scan_some ctx _ _ _ r hscan
    refine ⟨k, by omega, hk3, fun j hj => hk4 j (Nat.zero_le _) hj, ?_⟩
    simp [AllocDynarecMap, hscan, hk5]
  | none =>
    right
    have hno : ∀ j, j < ctx.mmapsize → ¬ fits ctx (alignSize size) j :=
      fun j hj => scan_none ctx _ _ _ hscan j (Nat.zero_le _) (by omega)
    by_cases hp : p = MAP_FAILED
    · left
      refine ⟨hno, hp, ?_⟩
      simp [AllocDynarecMap, hscan, hp]
    · right
      refine ⟨hno, hp, ?_⟩
      simp [AllocDynarecMap, hscan, hp, appendSlab]

/-! ## The three outcomes of a pool-path call -/

theorem AllocDynarecMap_of_fit (ctx : box86context_t) (size : Int) (p : Nat) (i : Nat)
    (hi : i < ctx.mmapsize) (hfit : fits ctx (alignSize size) i)
    (hleast : ∀ j, j < i → ¬ fits ctx (alignSize size) j) :
    AllocDynarecMap ctx size 0 p =
      (((ctx.mmaplist i).offset + (ctx.mmaplist i).block) % 4294967296,
        bumpOffset ctx (alignSize size) i) := by
  rcases AllocDynarecMap_cases ctx size p with ⟨k, hk, hkfit, hkleast, heq⟩ | ⟨hno, _, _⟩ | ⟨hno, _, _⟩
  · have hki : k = i := by
      rcases Nat.lt_trichotomy k i with h | h | h
      · exact absurd hkfit (hleast k h)
      · exact h
      · exact absurd hfit (hkleast i h)
    subst hki
    exact heq
  · exact absurd hfit (hno i hi)
  · exact absurd hfit (hno i hi)

theorem AllocDynarecMap_of_nofit_ok (ctx : box86context_t) (size : Int) (p : Nat)
    (hnofit : ∀ j, j < ctx.mmapsize → ¬ fits ctx (alignSize size) j)
    (hmap : p ≠ MAP_FAILED) :
    AllocDynarecMap ctx size 0 p = (p, appendSlab ctx (alignSize size) p) := by
  rcases AllocDynarecMap_cases ctx size p with ⟨k, hk, hkfit, _, _⟩ | ⟨_, hp, _⟩ | ⟨_, _, heq⟩
  · exact absurd hkfit (hnofit k hk)
  · exact absurd hp hmap
  · exact heq

theorem AllocDynarecMap_of_nofit_fail (ctx : box86context_t) (size : Int) (p : Nat)
    (hnofit : ∀ j, j < ctx.mmapsize → ¬ fits ctx (alignSize size) j)
    (hmap : p = MAP_FAILED) :
    AllocDynarecMap ctx size 0 p = (0, ctx) := by
  rcases AllocDynarecMap_cases ctx size p with ⟨k, hk, hkfit, _, _⟩ | ⟨_, _, heq⟩ | ⟨_, hp, _⟩
  · exact absurd hkfit (hnofit k hk)
  · exact heq
  · exact absurd hmap hp

/-! ## A single call of the pool path -/

/-- C7: when no slab of the pool passes the fit test and the `mmap` of a new slab
succeeds, `AllocDynarecMap(ctx, size, 0)` makes `mmapsize` one more, returns the
base `p` of the new slab (offset 0 within it), stores `block = p` and
`offset = (size+15)&~15` in the new entry, and leaves every earlier entry (and
the dynamic map) as it was. -/
theorem AllocDynarecMap_appends_slab (ctx : box86context_t) (size : Int) (p : Nat)
    (hnofit : ∀ j, j < ctx.mmapsize → ¬ fits ctx (alignSize size) j)
    (hmap : p ≠ MAP_FAILED) :
    (AllocDynarecMap ctx size 0 p).2.mmapsize = ctx.mmapsize + 1 ∧
    (AllocDynarecMap ctx size 0 p).1 = p ∧
    (AllocDynarecMap ctx size 0 p).1 =
      ((AllocDynarecMap ctx size 0 p).2.mmaplist ctx.mmapsize).block + 0 ∧
    (AllocDynarecMap ctx size 0 p).2.mmaplist ctx.mmapsize =
      { block := p, offset := alignSize size } ∧
    (∀ j, j < ctx.mmapsize →
      (AllocDynarecMap ctx size 0 p).2.mmaplist j = ctx.mmaplist j) ∧
    (AllocDynarecMap ctx size 0 p).2.dynmap = ctx.dynmap := by
  rw [AllocDynarecMap_of_nofit_ok ctx size p hnofit hmap]
  refine ⟨rfl, rfl, ?_, ?_, ?_, rfl⟩
  · simp [appendSlab]
  · simp [appendSlab]
  · intro j hj
    have : j ≠ ctx.mmapsize := by omega
    simp [appendSlab, Function.update, this]

/-- C7 at a concrete input: a pool whose one slab has 112 bytes left, a request of
200 bytes (rounded to 208), and a successful mapping at `0x20000000`. -/
theorem AllocDynarecMap_appends_slab_witness :
    (∀ j, j < poolNearlyFull.mmapsize → ¬ fits poolNearlyFull (alignSize 200) j) ∧
    0x20000000 ≠ MAP_FAILED ∧
    (AllocDynarecMap poolNearlyFull 200 0 0x20000000).2.mmapsize = 2 ∧
    (AllocDynarecMap poolNearlyFull 200 0 0x20000000).1 = 0x20000000 ∧
    (AllocDynarecMap poolNearlyFull 200 0 0x20000000).2.mmaplist 1 =
      { block := 0x20000000, offset := 208 } ∧
    (AllocDynarecMap poolNearlyFull 200 0 0x20000000).2.mmaplist 0 =
      poolNearlyFull.mmaplist 0 := by
  have h := AllocDynarecMap_appends_slab poolNearlyFull 200 0x20000000
    (by decide) (by decide)
  refine ⟨by decide, by decide, h.1, h.2.1, ?_, h.2.2.2.2.1 0 (by decide)⟩
  have h4 := h.2.2.2.1
  have e : alignSize 200 = 208 := by decide
  rw [e] at h4
  exact h4

/-- C8: when the request is served from an existing slab, the least index `i`
that passes the fit test of the code, `AllocDynarecMap` returns
`block_i + offset_i` with the offset of before the call, makes `offset_i` larger by
the rounded size `r` (both sums are the `uintptr_t` sums of the code, which are the
exact sums whenever they stay below `2^32`), and changes nothing else: `mmapsize`,
every `block`, the `offset` of every other slab and the dynamic map are as before. -/
theorem AllocDynarecMap_serves_existing (ctx : box86context_t) (size : Int) (p : Nat)
    (i : Nat) (hi : i < ctx.mmapsize) (hfit : fits ctx (alignSize size) i)
    (hleast : ∀ j, j < i → ¬ fits ctx (alignSize size) j) :
    (AllocDynarecMap ctx size 0 p).1 =
      ((ctx.mmaplist i).block + (ctx.mmaplist i).offset) % 4294967296 ∧
    ((AllocDynarecMap ctx size 0 p).2.mmaplist i).offset =
      ((ctx.mmaplist i).offset + alignSize size) % 4294967296 ∧
    ((ctx.mmaplist i).block + (ctx.mmaplist i).offset < 4294967296 →
      (AllocDynarecMap ctx size 0 p).1 = (ctx.mmaplist i).block + (ctx.mmaplist i).offset) ∧
    ((ctx.mmaplist i).offset + alignSize size < 4294967296 →
      ((AllocDynarecMap ctx size 0 p).2.mmaplist i).offset =
        (ctx.mmaplist i).offset + alignSize size) ∧
    (AllocDynarecMap ctx size 0 p).2.mmapsize = ctx.mmapsize ∧
    (∀ j, ((AllocDynarecMap ctx size 0 p).2.mmaplist j).block = (ctx.mmaplist j).block) ∧
    (∀ j, j ≠ i →
      ((AllocDynarecMap ctx size 0 p).2.mmaplist j).offset = (ctx.mmaplist j).offset) ∧
    (AllocDynarecMap ctx size 0 p).2.dynmap = ctx.dynmap := by
  rw [AllocDynarecMap_of_fit ctx size p i hi hfit hleast]
  refine ⟨?_, ?_, ?_, ?_, rfl, ?_, ?_, rfl⟩
  · simp [Nat.add_comm]
  · simp [bumpOffset]
  · intro h
    simp only []
    rw [Nat.add_comm, Nat.mod_eq_of_lt h]
  · intro h
    simp [bumpOffset, Nat.mod_eq_of_lt h]
  · intro j
    by_cases hj : j = i
    · subst hj; simp [bumpOffset]
    · simp [bumpOffset, Function.update, hj]
  · intro j hj
    simp [bumpOffset, Function.update, hj]

/-- C8 at a concrete input: the one slab of `poolOneSlab` (224 bytes used) serves a
request of 100 bytes at `0x10000000 + 224` and its offset becomes `224 + 112`. -/
theorem AllocDynarecMap_serves_existing_witness :
    (0 < poolOneSlab.mmapsize ∧ fits poolOneSlab (alignSize 100) 0) ∧
    (AllocDynarecMap poolOneSlab 100 0 0x20000000).1 = 0x10000000 + 224 ∧
    ((AllocDynarecMap poolOneSlab 100 0 0x20000000).2.mmaplist 0).offset = 224 + 112 ∧
    (AllocDynarecMap poolOneSlab 100 0 0x20000000).2.mmapsize = 1 := by
  have h := AllocDynarecMap_serves_existing poolOneSlab 100 0x20000000 0
    (by decide) (by decide) (by decide)
  refine ⟨⟨by decide, by decide⟩, ?_, ?_, h.2.2.2.2.1⟩
  · exact h.2.2.1 (by decide)
  · have h2 := h.2.2.2.1 (by decide)
    have e : alignSize 100 = 112 := by decide
    rw [e] at h2
    exact h2

/-- C9: failure leaves the pool as it was. When no slab passes the fit test and
the `mmap` of a new slab fails, `AllocDynarecMap(ctx, size, 0)` returns 0,
`mmapsize` has its old value and every slab entry is unchanged; and with
`nolinker` set, a failed `mmap` makes it return 0 with the context untouched. -/
theorem AllocDynarecMap_failure_atomic (ctx : box86context_t) (size : Int) (p : Nat)
    (hfail : p = MAP_FAILED) :
    ((∀ j, j < ctx.mmapsize → ¬ fits ctx (alignSize size) j) →
      (AllocDynarecMap ctx size 0 p).1 = 0 ∧
      (AllocDynarecMap ctx size 0 p).2.mmapsize = ctx.mmapsize ∧
      (∀ j, (AllocDynarecMap ctx size 0 p).2.mmaplist j = ctx.mmaplist j) ∧
      (AllocDynarecMap ctx size 0 p).2.dynmap = ctx.dynmap) ∧
    (∀ nolinker : Int, nolinker ≠ 0 →
      (AllocDynarecMap ctx size nolinker p).1 = 0 ∧
      (AllocDynarecMap ctx size nolinker p).2.mmapsize = ctx.mmapsize ∧
      (∀ j, (AllocDynarecMap ctx size nolinker p).2.mmaplist j = ctx.mmaplist j) ∧
      (AllocDynarecMap ctx size nolinker p).2.dynmap = ctx.dynmap) := by
  constructor
  · intro hnofit
    rw [AllocDynarecMap_of_nofit_fail ctx size p hnofit hfail]
    exact ⟨rfl, rfl, fun _ => rfl, rfl⟩
  · intro nolinker hn
    simp [AllocDynarecMap, hn, hfail]

/-- C9 at a concrete input: the nearly full pool, a request of 200 bytes and a
failing `mmap`, on the pool path and with `nolinker = 1`. -/
theorem AllocDynarecMap_failure_atomic_witness :
    (∀ j, j < poolNearlyFull.mmapsize → ¬ fits poolNearlyFull (alignSize 200) j) ∧
    ((AllocDynarecMap poolNearlyFull 200 0 0xffffffff).1 = 0 ∧
      (AllocDynarecMap poolNearlyFull 200 0 0xffffffff).2.mmapsize = 1 ∧
      (AllocDynarecMap poolNearlyFull 200 0 0xffffffff).2.mmaplist 0 =
        { block := 0x10000000, offset := 4194192 }) ∧
    ((AllocDynarecMap poolNearlyFull 200 1 0xffffffff).1 = 0 ∧
      (AllocDynarecMap poolNearlyFull 200 1 0xffffffff).2.mmapsize = 1) := by
  have h := AllocDynarecMap_failure_atomic poolNearlyFull 200 0xffffffff rfl
  have h1 := h.1 (by decide)
  have h2 := h.2 1 (by decide)
  refine ⟨by decide, ⟨h1.1, h1.2.1, ?_⟩, ⟨h2.1, h2.2.1⟩⟩
  rw [h1.2.2.1 0]
  decide

/-! ## Alignment of the pool -/

theorem AllocDynarecMap_aligned (ctx : box86context_t) (size : Int) (p : Nat)
    (hctx : PoolAligned ctx) (hp : p ≠ MAP_FAILED → p % 16 = 0) :
    PoolAligned (AllocDynarecMap ctx size 0 p).2 ∧
      (AllocDynarecMap ctx size 0 p).1 % 16 = 0 := by
  have hr := alignSize_mod16 size
  rcases AllocDynarecMap_cases ctx size p with ⟨k, hk, _, _, heq⟩ | ⟨_, _, heq⟩ | ⟨_, hmap, heq⟩
  · rw [heq]
    obtain ⟨hb, ho⟩ := hctx k hk
    refine ⟨?_, ?_⟩
    · intro i hi
      by_cases hik : i = k
      · subst hik
        simp only [bumpOffset, Function.update_same]
        exact ⟨hb, by omega⟩
      · simp only [bumpOffset, Function.update_noteq hik]
        exact hctx i hi
    · simp only []
      omega
  · rw [heq]
    exact ⟨hctx, rfl⟩
  · rw [heq]
    refine ⟨?_, hp hmap⟩
    intro i hi
    by_cases hik : i = ctx.mmapsize
    · subst hik
      simp only [appendSlab, Function.update_same]
      exact ⟨hp hmap, hr⟩
    · simp only [appendSlab, Function.update_noteq hik]
      have hi2 : i < ctx.mmapsize + 1 := hi
      exact hctx i (by omega)

theorem runAlloc_aligned (reqs : List Request) :
    ∀ ctx : box86context_t, PoolAligned ctx →
      (∀ q ∈ reqs, q.2 ≠ MAP_FAILED → q.2 % 16 = 0) →
      PoolAligned (runAlloc ctx reqs) := by
  induction reqs with
  | nil => intro ctx h _; exact h
  | cons q qs ih =>
    intro ctx h hq
    unfold runAlloc
    apply ih
    · exact (AllocDynarecMap_aligned ctx q.1 q.2 h (hq q (List.mem_cons_self _ _))).1
    · intro q2 hq2
      exact hq q2 (List.mem_cons_of_mem _ hq2)

/-- C4: starting from an empty pool (`mmapsize = 0`), if every slab base that a
successful `mmap` call returns is a multiple of 16, then after any sequence of
pool-path calls every slab offset (and base) is a multiple of 16, and the address
that a further call `AllocDynarecMap(ctx, size, 0)` returns, for every `int size`,
is a multiple of 16. -/
theorem AllocDynarecMap_aligned_16 (ctx : box86context_t) (hempty : ctx.mmapsize = 0)
    (reqs : List Request)
    (hbase : ∀ q ∈ reqs, q.2 ≠ MAP_FAILED → q.2 % 16 = 0) :
    (∀ i, i < (runAlloc ctx reqs).mmapsize →
      ((runAlloc ctx reqs).mmaplist i).offset % 16 = 0 ∧
      ((runAlloc ctx reqs).mmaplist i).block % 16 = 0) ∧
    ∀ (size : Int) (p : Nat), (p ≠ MAP_FAILED → p % 16 = 0) →
      (AllocDynarecMap (runAlloc ctx reqs) size 0 p).1 % 16 = 0 := by
  have h0 : PoolAligned ctx := by
    intro i hi
    omega
  have h := runAlloc_aligned reqs ctx h0 hbase
  refine ⟨fun i hi => ⟨(h i hi).2, (h i hi).1⟩, ?_⟩
  intro size p hp
  exact (AllocDynarecMap_aligned _ size p h hp).2

/-- C4 at a concrete input: two requests of 100 bytes on the zeroed context with a
slab mapped at `0x10000000`, then a request of 7 bytes. -/
theorem AllocDynarecMap_aligned_16_witness :
    zeroContext.mmapsize = 0 ∧
    ((runAlloc zeroContext [(100, 0x10000000), (100, 0x20000000)]).mmaplist 0).offset % 16
      = 0 ∧
    (AllocDynarecMap (runAlloc zeroContext [(100, 0x10000000), (100, 0x20000000)])
      7 0 0x30000000).1 % 16 = 0 := by
  have h := AllocDynarecMap_aligned_16 zeroContext rfl
    [(100, 0x10000000), (100, 0x20000000)] (by decide)
  exact ⟨rfl, (h.1 0 (by decide)).1, h.2 7 0x30000000 (by decide)⟩

/-! ## Disjointness of what the pool hands out -/

theorem alignSize_bounds (size : Int) (h0 : 0 < size) (h1 : size ≤ 4194304) :
    0 < alignSize size ∧ alignSize size ≤ MMAPSIZE := by
  have h := alignSize_of_nonneg size (by omega) (by omega)
  have hm := alignSize_mod16 size
  unfold MMAPSIZE
  omega

theorem AllocDynarecMap_keeps_slabs (ctx : box86context_t) (size : Int) (p : Nat) :
    ctx.mmapsize ≤ (AllocDynarecMap ctx size 0 p).2.mmapsize ∧
    ∀ i, i < ctx.mmapsize →
      ((AllocDynarecMap ctx size 0 p).2.mmaplist i).block = (ctx.mmaplist i).block := by
  rcases AllocDynarecMap_cases ctx size p with ⟨k, _, _, _, heq⟩ | ⟨_, _, heq⟩ | ⟨_, _, heq⟩
  · rw [heq]
    refine ⟨le_refl _, ?_⟩
    intro i _
    by_cases hik : i = k
    · subst hik; simp [bumpOffset]
    · simp [bumpOffset, Function.update_noteq hik]
  · rw [heq]
    exact ⟨le_refl _, fun _ _ => rfl⟩
  · rw [heq]
    refine ⟨Nat.le_succ _, ?_⟩
    intro i hi
    have hik : i ≠ ctx.mmapsize := by omega
    simp [appendSlab, Function.update_noteq hik]

theorem SlabsDisjoint_of_AllocDynarecMap (ctx : box86context_t) (size : Int) (p : Nat)
    (h : SlabsDisjoint (AllocDynarecMap ctx size 0 p).2) : SlabsDisjoint ctx := by
  obtain ⟨hle, hblk⟩ := AllocDynarecMap_keeps_slabs ctx size p
  intro i hi
  obtain ⟨h1, h2⟩ := h i (by omega)
  rw [hblk i hi] at h1 h2
  refine ⟨h1, ?_⟩
  intro j hj hij
  have h3 := h2 j (by omega) hij
  rw [hblk j hj] at h3
  exact h3

theorem SlabsDisjoint_of_runAlloc (reqs : List Request) :
    ∀ ctx : box86context_t, SlabsDisjoint (runAlloc ctx reqs) → SlabsDisjoint ctx := by
  induction reqs with
  | nil => intro ctx h; exact h
  | cons q qs ih =>
    intro ctx h
    exact SlabsDisjoint_of_AllocDynarecMap ctx q.1 q.2 (ih _ h)

theorem PoolInv_step (ctx : box86context_t) (acc : List (Nat × Nat)) (size : Int)
    (p : Nat) (hinv : PoolInv ctx acc) (h0 : 0 < size) (h1 : size ≤ 4194304)
    (hslabs : SlabsDisjoint (AllocDynarecMap ctx size 0 p).2)
    (hret : (AllocDynarecMap ctx size 0 p).1 ≠ 0) :
    PoolInv (AllocDynarecMap ctx size 0 p).2
      (acc ++ [((AllocDynarecMap ctx size 0 p).1, alignSize size)]) := by
  obtain ⟨hoff, hin, hpw⟩ := hinv
  obtain ⟨hrpos, hrle⟩ := alignSize_bounds size h0 h1
  have hM : MMAPSIZE = 4194304 := by decide
  rcases AllocDynarecMap_cases ctx size p with ⟨k, hk, hfit, _, heq⟩ | ⟨_, _, heq⟩ | ⟨_, _, heq⟩
  · -- served by the existing slab `k`
    rw [heq] at hslabs ⊢
    have hoffk := hoff k hk
    have hfit2 : (ctx.mmaplist k).offset + alignSize size < MMAPSIZE := by
      unfold fits at hfit
      rw [Nat.mod_eq_of_lt (by omega)] at hfit
      exact hfit
    have hnew : ((bumpOffset ctx (alignSize size) k).mmaplist k) =
        { block := (ctx.mmaplist k).block,
          offset := (ctx.mmaplist k).offset + alignSize size } := by
      simp only [bumpOffset, Function.update_same]
      rw [Nat.mod_eq_of_lt (by omega)]
    have hother : ∀ j, j ≠ k →
        (bumpOffset ctx (alignSize size) k).mmaplist j = ctx.mmaplist j := by
      intro j hj
      simp only [bumpOffset, Function.update_noteq hj]
    have hsz : (bumpOffset ctx (alignSize size) k).mmapsize = ctx.mmapsize := rfl
    obtain ⟨hkb, hkd⟩ := hslabs k (by rw [hsz]; exact hk)
    rw [hnew] at hkb hkd
    simp only [] at hkb hkd
    have hretv : ((ctx.mmaplist k).offset + (ctx.mmaplist k).block) % 4294967296 =
        (ctx.mmaplist k).block + (ctx.mmaplist k).offset := by
      rw [Nat.mod_eq_of_lt (by omega)]; omega
    simp only [hretv]
    refine ⟨?_, ?_, ?_⟩
    · intro i hi
      by_cases hik : i = k
      · subst hik; rw [hnew]; simp only []; omega
      · rw [hother i hik]; exact hoff i hi
    · intro x hx
      rcases List.mem_append.1 hx with hx | hx
      · obtain ⟨j, hj, hj1, hj2⟩ := hin x hx
        refine ⟨j, hj, ?_⟩
        by_cases hjk : j = k
        · subst hjk; rw [hnew]; simp only []; exact ⟨hj1, by omega⟩
        · rw [hother j hjk]; exact ⟨hj1, hj2⟩
      · rw [List.mem_singleton.1 hx]
        refine ⟨k, hk, ?_⟩
        rw [hnew]; simp only []
        exact ⟨by omega, by omega⟩
    · rw [List.pairwise_append]
      refine ⟨hpw, List.pairwise_singleton _ _, ?_⟩
      intro x hx y hy
      rw [List.mem_singleton.1 hy]
      obtain ⟨j, hj, hj1, hj2⟩ := hin x hx
      unfold RangesDisjoint
      simp only []
      by_cases hjk : j = k
      · subst hjk; left; exact hj2
      · have hd := hkd j (by rw [hsz]; exact hj) (Ne.symm hjk)
        rw [hother j hjk] at hd
        have hoffj := hoff j hj
        rcases hd with hd | hd
        · right; omega
        · left; omega
  · -- the mapping failed: the call returned 0
    rw [heq] at hret
    exact absurd rfl hret
  · -- a new slab was appended
    rw [heq] at hslabs ⊢
    have hnew : (appendSlab ctx (alignSize size) p).mmaplist ctx.mmapsize =
        { block := p, offset := alignSize size } := by
      simp only [appendSlab, Function.update_same]
    have hother : ∀ j, j ≠ ctx.mmapsize →
        (appendSlab ctx (alignSize size) p).mmaplist j = ctx.mmaplist j := by
      intro j hj
      simp only [appendSlab, Function.update_noteq hj]
    have hsz : (appendSlab ctx (alignSize size) p).mmapsize = ctx.mmapsize + 1 := rfl
    obtain ⟨hkb, hkd⟩ := hslabs ctx.mmapsize (by rw [hsz]; omega)
    rw [hnew] at hkb hkd
    simp only [] at hkb hkd
    refine ⟨?_, ?_, ?_⟩
    · intro i hi
      by_cases hik : i = ctx.mmapsize
      · rw [hik, hnew]; exact hrle
      · rw [hother i hik]
        rw [hsz] at hi
        exact hoff i (by omega)
    · intro x hx
      rcases List.mem_append.1 hx with hx | hx
      · obtain ⟨j, hj, hj1, hj2⟩ := hin x hx
        refine ⟨j, by rw [hsz]; omega, ?_⟩
        rw [hother j (by omega)]
        exact ⟨hj1, hj2⟩
      · rw [List.mem_singleton.1 hx]
        refine ⟨ctx.mmapsize, by rw [hsz]; omega, ?_⟩
        rw [hnew]
        exact ⟨le_refl _, le_refl _⟩
    · rw [List.pairwise_append]
      refine ⟨hpw, List.pairwise_singleton _ _, ?_⟩
      intro x hx y hy
      rw [List.mem_singleton.1 hy]
      obtain ⟨j, hj, hj1, hj2⟩ := hin x hx
      unfold RangesDisjoint
      simp only []
      have hjm : j ≠ ctx.mmapsize := by omega
      have hd := hkd j (by rw [hsz]; omega) (Ne.symm hjm)
      rw [hother j hjm] at hd
      have hoffj := hoff j hj
      rcases hd with hd | hd
      · right; omega
      · left; omega

theorem allocTrace_pairwise (reqs : List Request) :
    ∀ (ctx : box86context_t) (acc : List (Nat × Nat)), PoolInv ctx acc →
      SlabsDisjoint (runAlloc ctx reqs) →
      (∀ q ∈ reqs, 0 < q.1 ∧ q.1 ≤ 4194304) →
      (∀ x ∈ allocTrace ctx reqs, x.1 ≠ 0) →
      (acc ++ allocTrace ctx reqs).Pairwise RangesDisjoint := by
  induction reqs with
  | nil =>
    intro ctx acc hinv _ _ _
    simpa [allocTrace] using hinv.2.2
  | cons q qs ih =>
    intro ctx acc hinv hslabs hsize hsucc
    unfold runAlloc at hslabs
    unfold allocTrace at hsucc ⊢
    have hq := hsize q (List.mem_cons_self _ _)
    have hstep := PoolInv_step ctx acc q.1 q.2 hinv hq.1 hq.2
      (SlabsDisjoint_of_runAlloc qs _ hslabs)
      (hsucc _ (List.mem_cons_self _ _))
    have h := ih _ _ hstep hslabs
      (fun q2 hq2 => hsize q2 (List.mem_cons_of_mem _ hq2))
      (fun x hx => hsucc x (List.mem_cons_of_mem _ hx))
    simpa [List.append_assoc] using h

/-- C3: for every sequence of pool-path calls `AllocDynarecMap(ctx, size_k, 0)` with
`0 < size_k <= 4 MiB` made one after another from an empty pool, each of which
succeeds (returns a non-zero address), and whose slabs are pairwise disjoint
4 MiB mappings of the address space, the byte ranges `[a_k, a_k + r_k)` handed
out, `r_k = (size_k+15)&~15`, are pairwise disjoint. -/
theorem AllocDynarecMap_ranges_disjoint (ctx : box86context_t)
    (hempty : ctx.mmapsize = 0) (reqs : List Request)
    (hsize : ∀ q ∈ reqs, 0 < q.1 ∧ q.1 ≤ 4194304)
    (hsucc : ∀ x ∈ allocTrace ctx reqs, x.1 ≠ 0)
    (hslabs : SlabsDisjoint (runAlloc ctx reqs)) :
    (allocTrace ctx reqs).Pairwise RangesDisjoint := by
  have hinv : PoolInv ctx [] := by
    refine ⟨?_, ?_, List.Pairwise.nil⟩
    · intro i hi; omega
    · intro x hx; cases hx
  simpa using allocTrace_pairwise reqs ctx [] hinv hslabs hsize hsucc

/-- C3 at a concrete input: the five requests of `exampleRequests` on the zeroed
context use two slabs and hand out five pairwise disjoint ranges. -/
theorem AllocDynarecMap_ranges_disjoint_witness :
    zeroContext.mmapsize = 0 ∧
    (∀ q ∈ exampleRequests, 0 < q.1 ∧ q.1 ≤ 4194304) ∧
    (∀ x ∈ allocTrace zeroContext exampleRequests, x.1 ≠ 0) ∧
    SlabsDisjoint (runAlloc zeroContext exampleRequests) ∧
    allocTrace zeroContext exampleRequests =
      [(0x10000000, 112), (0x10000070, 112), (0x20000000, 4194304),
        (0x100000e0, 4194000), (0x103fffb0, 64)] ∧
    (allocTrace zeroContext exampleRequests).Pairwise RangesDisjoint := by
  have hsize : ∀ q ∈ exampleRequests, 0 < q.1 ∧ q.1 ≤ 4194304 := by decide
  have hsucc : ∀ x ∈ allocTrace zeroContext exampleRequests, x.1 ≠ 0 := by decide
  have hslabs : SlabsDisjoint (runAlloc zeroContext exampleRequests) := by decide
  exact ⟨rfl, hsize, hsucc, hslabs, by decide,
    AllocDynarecMap_ranges_disjoint zeroContext rfl exampleRequests hsize hsucc hslabs⟩

/-! ## The fit test and the size of a slab -/

/-- C5, the code at the failing input: on the empty pool a request of 5 MiB with
a successful `mmap` at `0x10000000` returns the base of the new 4 MiB slab and
records the offset 5 MiB, which is past the end `block + MMAPSIZE` of the slab:
the range handed out spans the slab boundary. -/
theorem AllocDynarecMap_oversized_request :
    (AllocDynarecMap zeroContext 5242880 0 0x10000000).1 = 0x10000000 ∧
    (AllocDynarecMap zeroContext 5242880 0 0x10000000).2.mmapsize = 1 ∧
    (AllocDynarecMap zeroContext 5242880 0 0x10000000).2.mmaplist 0 =
      { block := 0x10000000, offset := 5242880 } ∧
    alignSize 5242880 = 5242880 ∧
    MMAPSIZE < ((AllocDynarecMap zeroContext 5242880 0 0x10000000).2.mmaplist 0).offset ∧
    ¬ ((AllocDynarecMap zeroContext 5242880 0 0x10000000).1 + alignSize 5242880 ≤
        ((AllocDynarecMap zeroContext 5242880 0 0x10000000).2.mmaplist 0).block + MMAPSIZE) := by
  decide

/-- C6 fails as stated: the one slab of `poolNearlyFull` has a remaining capacity
of exactly `r = 112` bytes, the rounded size of a request of 100 bytes, and yet
the request is not served by it: a new slab is appended, its base is returned and
the first slab is left as it was. -/
theorem AllocDynarecMap_exact_fit_not_served :
    (poolNearlyFull.mmapsize = 1 ∧
      MMAPSIZE - (poolNearlyFull.mmaplist 0).offset = alignSize 100) ∧
    (AllocDynarecMap poolNearlyFull 100 0 0x20000000).2.mmapsize = 2 ∧
    (AllocDynarecMap poolNearlyFull 100 0 0x20000000).1 = 0x20000000 ∧
    (AllocDynarecMap poolNearlyFull 100 0 0x20000000).1 ≠
      (poolNearlyFull.mmaplist 0).block + (poolNearlyFull.mmaplist 0).offset ∧
    (AllocDynarecMap poolNearlyFull 100 0 0x20000000).2.mmaplist 0 =
      poolNearlyFull.mmaplist 0 := by
  decide

/-- C6, amended: first fit with the test of the code. For every pool and every
pool-path request of rounded size `r`, if some slab passes the fit test
`offset + r < MMAPSIZE` (an unsigned 32-bit sum; when the sum does not wrap this
says that the remaining capacity `MMAPSIZE - offset` is strictly greater than
`r`), the call is served by the first such slab in insertion order, `mmapsize` is
unchanged (no slab is appended), and only that slab's offset is bumped. -/
theorem AllocDynarecMap_first_fit (ctx : box86context_t) (size : Int) (p : Nat)
    (hsome : ∃ i, i < ctx.mmapsize ∧ fits ctx (alignSize size) i) :
    (∀ i, (ctx.mmaplist i).offset + alignSize size < 4294967296 →
      (fits ctx (alignSize size) i ↔
        alignSize size < MMAPSIZE - (ctx.mmaplist i).offset)) ∧
    ∃ k, k < ctx.mmapsize ∧ fits ctx (alignSize size) k ∧
      (∀ j, j < k → ¬ fits ctx (alignSize size) j) ∧
      (AllocDynarecMap ctx size 0 p).1 =
        ((ctx.mmaplist k).block + (ctx.mmaplist k).offset) % 4294967296 ∧
      (AllocDynarecMap ctx size 0 p).2.mmapsize = ctx.mmapsize ∧
      ((AllocDynarecMap ctx size 0 p).2.mmaplist k).offset =
        ((ctx.mmaplist k).offset + alignSize size) % 4294967296 ∧
      ∀ j, j ≠ k → (AllocDynarecMap ctx size 0 p).2.mmaplist j = ctx.mmaplist j := by
  constructor
  · intro i hi
    unfold fits
    rw [Nat.mod_eq_of_lt hi]
    omega
  · obtain ⟨i, hi, hfit⟩ := hsome
    rcases AllocDynarecMap_cases ctx size p with ⟨k, hk, hkfit, hkleast, heq⟩ | ⟨hno, _, _⟩ | ⟨hno, _, _⟩
    · refine ⟨k, hk, hkfit, hkleast, ?_⟩
      rw [heq]
      refine ⟨by simp [Nat.add_comm], rfl, by simp [bumpOffset], ?_⟩
      intro j hj
      simp [bumpOffset, Function.update_noteq hj]
    · exact absurd hfit (hno i hi)
    · exact absurd hfit (hno i hi)

/-- C6 amended, at a concrete input: the slab of `poolOneSlab` (224 bytes used)
passes the fit test for a request of 100 bytes and serves it. -/
theorem AllocDynarecMap_first_fit_witness :
    (∃ i, i < poolOneSlab.mmapsize ∧ fits poolOneSlab (alignSize 100) i) ∧
    ∃ k, k < poolOneSlab.mmapsize ∧
      (AllocDynarecMap poolOneSlab 100 0 0x20000000).1 =
        ((poolOneSlab.mmaplist k).block + (poolOneSlab.mmaplist k).offset) % 4294967296 ∧
      (AllocDynarecMap poolOneSlab 100 0 0x20000000).2.mmapsize = poolOneSlab.mmapsize := by
  have hsome : ∃ i, i < poolOneSlab.mmapsize ∧ fits poolOneSlab (alignSize 100) i :=
    ⟨0, by decide, by decide⟩
  obtain ⟨k, hk, _, _, h1, h2, _⟩ :=
    (AllocDynarecMap_first_fit poolOneSlab 100 0x20000000 hsome).2
  exact ⟨hsome, k, hk, h1, h2⟩

/-! ## Two calls in a row -/

/-- C10: for every `int` request size `s > 0` whose rounded size
`r = (s+15)&~15` satisfies `2*r < 4 MiB`, `r` is the least multiple of 16 that is
`>= s`, and two calls `AllocDynarecMap(ctx, s, 0)` in a row on an empty pool, the
first of which maps its slab at `p` (a 4 MiB mapping of the address space), return
`p` and `p + r`; for `s = 100` the second address is the first plus 112. -/
theorem AllocDynarecMap_twice (ctx : box86context_t) (hempty : ctx.mmapsize = 0)
    (s : Int) (hs : 0 < s) (hint : s ≤ 2147483647)
    (hr : 2 * alignSize s < 4194304) (p p2 : Nat)
    (hp : p + MMAPSIZE ≤ 4294967296) :
    (alignSize s % 16 = 0 ∧ s ≤ (alignSize s : Int) ∧
      ∀ m : Nat, m % 16 = 0 → s ≤ (m : Int) → alignSize s ≤ m) ∧
    (AllocDynarecMap ctx s 0 p).1 = p ∧
    (AllocDynarecMap (AllocDynarecMap ctx s 0 p).2 s 0 p2).1 = p + alignSize s ∧
    (AllocDynarecMap (AllocDynarecMap ctx 100 0 p).2 100 0 p2).1 =
      (AllocDynarecMap ctx 100 0 p).1 + 112 := by
  have hM : MMAPSIZE = 4194304 := by decide
  have hpm : p ≠ MAP_FAILED := by
    unfold MAP_FAILED; omega
  have hm16 := alignSize_mod16 s
  have hb := alignSize_of_nonneg s (by omega) hint
  have two : ∀ (t : Int), 2 * alignSize t < 4194304 →
      (AllocDynarecMap ctx t 0 p).1 = p ∧
      (AllocDynarecMap (AllocDynarecMap ctx t 0 p).2 t 0 p2).1 = p + alignSize t := by
    intro t ht
    have h1 : AllocDynarecMap ctx t 0 p = (p, appendSlab ctx (alignSize t) p) :=
      AllocDynarecMap_of_nofit_ok ctx t p (fun j hj => by omega) hpm
    rw [h1]
    refine ⟨rfl, ?_⟩
    have hslab : (appendSlab ctx (alignSize t) p).mmaplist 0 =
        { block := p, offset := alignSize t } := by
      simp [appendSlab, hempty]
    have hfit : fits (appendSlab ctx (alignSize t) p) (alignSize t) 0 := by
      unfold fits
      rw [hslab]
      simp only []
      rw [Nat.mod_eq_of_lt (by omega)]
      omega
    rw [AllocDynarecMap_of_fit _ t p2 0 (by simp [appendSlab]) hfit
      (fun j hj => absurd hj (Nat.not_lt_zero j))]
    simp only [hslab]
    rw [Nat.mod_eq_of_lt (by omega)]
    omega
  refine ⟨⟨hm16, hb.1, ?_⟩, (two s hr).1, (two s hr).2, ?_⟩
  · intro m hm hsm
    omega
  · have e : alignSize 100 = 112 := by decide
    have h := two 100 (by rw [e]; decide)
    rw [h.1, h.2, e]

/-- C10 at a concrete input: `s = 100` on the zeroed context with the slab mapped
at `0x10000000`: the rounded size is 112 and the two addresses are `0x10000000`
and `0x10000070`. -/
theorem AllocDynarecMap_twice_witness :
    zeroContext.mmapsize = 0 ∧ 2 * alignSize 100 < 4194304 ∧
    alignSize 100 = 112 ∧
    (AllocDynarecMap zeroContext 100 0 0x10000000).1 = 0x10000000 ∧
    (AllocDynarecMap (AllocDynarecMap zeroContext 100 0 0x10000000).2 100 0 0).1 =
      0x10000000 + 112 := by
  have e : alignSize 100 = 112 := by decide
  have h := AllocDynarecMap_twice zeroContext rfl 100 (by decide) (by decide)
    (by decide) 0x10000000 0 (by decide)
  refine ⟨rfl, by decide, e, h.2.1, ?_⟩
  have h3 := h.2.2.1
  rw [e] at h3
  exact h3

/-! ## The dynamic map -/

theorem cleanDBSlot_same (ctx : box86context_t) (addr stop i : Nat) :
    (cleanDBSlot ctx addr stop i).dynmap i = cleanSlotValue (ctx.dynmap i) addr stop := by
  unfold cleanSlotValue cleanDBSlot
  cases h : ctx.dynmap i with
  | none => simp [h]
  | some d =>
    simp only []
    split <;> simp

theorem cleanDBSlot_other (ctx : box86context_t) (addr stop i j : Nat) (hj : j ≠ i) :
    (cleanDBSlot ctx addr stop i).dynmap j = ctx.dynmap j := by
  unfold cleanDBSlot
  cases h : ctx.dynmap i with
  | none => simp
  | some d =>
    simp only []
    split <;> simp [Function.update_noteq hj]

theorem cleanDBLoop_slot (addr stop : Nat) :
    ∀ (n i : Nat) (ctx : box86context_t) (j : Nat),
      (cleanDBLoop addr stop n i ctx).dynmap j =
        if i ≤ j ∧ j < i + n then cleanSlotValue (ctx.dynmap j) addr stop
        else ctx.dynmap j := by
  intro n
  induction n with
  | zero =>
    intro i ctx j
    have h0 : ¬ (i ≤ j ∧ j < i + 0) := by omega
    rw [if_neg h0]
    rfl
  | succ n ih =>
    intro i ctx j
    unfold cleanDBLoop
    rw [ih]
    by_cases hji : j = i
    · subst hji
      have h1 : ¬ (j + 1 ≤ j ∧ j < j + 1 + n) := by omega
      have h2 : j ≤ j ∧ j < j + (n + 1) := by omega
      rw [if_neg h1, if_pos h2, cleanDBSlot_same]
    · rw [cleanDBSlot_other ctx addr stop i j hji]
      by_cases h : i + 1 ≤ j ∧ j < i + 1 + n
      · have h2 : i ≤ j ∧ j < i + (n + 1) := by omega
        rw [if_pos h, if_pos h2]
      · have h2 : ¬ (i ≤ j ∧ j < i + (n + 1)) := by omega
        rw [if_neg h, if_neg h2]

theorem cleanSlotValue_cases (v : Option dynmap_t) (addr stop : Nat) :
    cleanSlotValue v addr stop = none ∨
    ∃ d, v = some d ∧
      cleanSlotValue v addr stop =
        some { dynablocks := FreeDirectDynablock d.dynablocks addr stop } := by
  unfold cleanSlotValue cleanDBSlot
  cases v with
  | none => left; rfl
  | some d =>
    simp only []
    split
    · left; simp
    · right; exact ⟨d, rfl, by simp⟩

theorem FreeDirectDynablock_no_overlap (db : dynablocklist_t) (lo hi : Nat) :
    ∀ b ∈ (FreeDirectDynablock db lo hi).blocks,
      ¬ (b.guest_start < hi ∧ lo < b.guest_end) := by
  intro b hb
  unfold FreeDirectDynablock at hb
  simp only [List.mem_filter] at hb
  have h := hb.2
  simp only [overlapsRange, Bool.not_eq_true', decide_eq_false_iff_not] at h
  exact h

theorem lookupDynablock_none_of_no_overlap (db : dynablocklist_t) (lo hi a : Nat)
    (h1 : lo ≤ a) (h2 : a < hi)
    (hno : ∀ b ∈ db.blocks, ¬ (b.guest_start < hi ∧ lo < b.guest_end)) :
    lookupDynablock db a = none := by
  unfold lookupDynablock
  rw [List.find?_eq_none]
  intro b hb
  have := hno b hb
  simp only [decide_eq_true_eq]
  omega

theorem shiftRight_le_of_le (a b : Nat) (h : a ≤ b) : a >>> 16 ≤ b >>> 16 := by
  rw [Nat.shiftRight_eq_div_pow, Nat.shiftRight_eq_div_pow]
  exact Nat.div_le_div_right h

/-- C1: after `cleanDBFromAddressRange(ctx, addr, size)`, with `addr+size` the
unsigned 32-bit sum of the code, for every guest address `a` with
`addr <= a < addr+size` either slot `a>>16` is empty (`getDBFromAddress` gives
NULL), or the slot keeps its list and `FreeDirectDynablock(list, addr, addr+size)`
has been applied to it, so that no block overlapping the range is left and the
lookup of `a` in the list finds no block. -/
theorem cleanDBFromAddressRange_clears (ctx : box86context_t) (addr size a : Nat)
    (h1 : addr ≤ a) (h2 : a < (addr + size) % 4294967296) :
    getDBFromAddress (cleanDBFromAddressRange ctx addr size) a = none ∨
    ∃ l, getDBFromAddress ctx a = some l ∧
      getDBFromAddress (cleanDBFromAddressRange ctx addr size) a =
        some (FreeDirectDynablock l addr ((addr + size) % 4294967296)) ∧
      (∀ b ∈ (FreeDirectDynablock l addr ((addr + size) % 4294967296)).blocks,
        ¬ (b.guest_start < (addr + size) % 4294967296 ∧ addr < b.guest_end)) ∧
      lookupDynablock (FreeDirectDynablock l addr ((addr + size) % 4294967296)) a = none := by
  have hlo : addr >>> 16 ≤ a >>> 16 := shiftRight_le_of_le _ _ h1
  have hhi : a >>> 16 ≤ ((addr + size) % 4294967296) >>> 16 :=
    shiftRight_le_of_le _ _ (Nat.le_of_lt h2)
  have hslot : (cleanDBFromAddressRange ctx addr size).dynmap (a >>> 16) =
      cleanSlotValue (ctx.dynmap (a >>> 16)) addr ((addr + size) % 4294967296) := by
    unfold cleanDBFromAddressRange
    simp only []
    rw [cleanDBLoop_slot, if_pos (by omega)]
  unfold getDBFromAddress
  simp only []
  rw [hslot]
  rcases cleanSlotValue_cases (ctx.dynmap (a >>> 16)) addr ((addr + size) % 4294967296)
    with h | ⟨d, hd, h⟩
  · left; rw [h]
  · right
    rw [h, hd]
    refine ⟨d.dynablocks, rfl, rfl, FreeDirectDynablock_no_overlap _ _ _, ?_⟩
    exact lookupDynablock_none_of_no_overlap _ addr _ a h1 h2
      (FreeDirectDynablock_no_overlap _ _ _)

/-- C1 at a concrete input: cleaning `[0x8048010, 0x8048018)` in `dynmapTwoBlocks`
keeps the list of page `0x0804` and removes its block `[0x8048000, 0x8048020)`. -/
theorem cleanDBFromAddressRange_clears_witness :
    (0x8048010 ≤ 0x8048014 ∧ 0x8048014 < (0x8048010 + 8) % 4294967296) ∧
    getDBFromAddress (cleanDBFromAddressRange dynmapTwoBlocks 0x8048010 8) 0x8048014 =
      some { text := 0x8040000, textsz := 65536,
             blocks := [{ guest_start := 0x8049000, guest_end := 0x8049010 }] } ∧
    (getDBFromAddress (cleanDBFromAddressRange dynmapTwoBlocks 0x8048010 8) 0x8048014 = none ∨
      ∃ l, getDBFromAddress dynmapTwoBlocks 0x8048014 = some l ∧
        getDBFromAddress (cleanDBFromAddressRange dynmapTwoBlocks 0x8048010 8) 0x8048014 =
          some (FreeDirectDynablock l 0x8048010 ((0x8048010 + 8) % 4294967296)) ∧
        (∀ b ∈ (FreeDirectDynablock l 0x8048010 ((0x8048010 + 8) % 4294967296)).blocks,
          ¬ (b.guest_start < (0x8048010 + 8) % 4294967296 ∧ 0x8048010 < b.guest_end)) ∧
        lookupDynablock (FreeDirectDynablock l 0x8048010 ((0x8048010 + 8) % 4294967296))
          0x8048014 = none) :=
  ⟨by decide, by decide,
    cleanDBFromAddressRange_clears dynmapTwoBlocks 0x8048010 8 0x8048014
      (by decide) (by decide)⟩

theorem land_mask_page (x : Nat) (hx : x < 4294967296) :
    x &&& 0xffff0000 = (x >>> 16) <<< 16 := by
  apply Nat.eq_of_testBit_eq
  intro i
  rw [Nat.testBit_and, Nat.testBit_shiftLeft, Nat.testBit_shiftRight]
  by_cases hi : i < 32
  · interval_cases i <;> simp [Nat.testBit, Nat.shiftRight_eq_div_pow]
  · have hx2 : x.testBit i = false := by
      apply Nat.testBit_lt_two_pow
      calc x < 2 ^ 32 := by simpa using hx
        _ ≤ 2 ^ i := Nat.pow_le_pow_right (by decide) (by omega)
    have h16 : 16 ≤ i := by omega
    have : 16 + (i - 16) = i := by omega
    simp [hx2, h16, this]

theorem addDBSlot_window (ctx : box86context_t) (i : Nat) (h : SlotsOwnWindow ctx) :
    SlotsOwnWindow (addDBSlot ctx i) := by
  unfold addDBSlot
  cases hs : ctx.dynmap i with
  | some d => simpa [hs] using h
  | none =>
    intro j d hj
    simp only [] at hj
    by_cases hji : j = i
    · subst hji
      rw [Function.update_same] at hj
      rw [← Option.some.inj hj]
    · rw [Function.update_noteq hji] at hj
      exact h j d hj

theorem addDBLoop_window :
    ∀ (n i : Nat) (ctx : box86context_t), SlotsOwnWindow ctx →
      SlotsOwnWindow (addDBLoop n i ctx) := by
  intro n
  induction n with
  | zero => intro i ctx h; exact h
  | succ n ih =>
    intro i ctx h
    unfold addDBLoop
    exact ih _ _ (addDBSlot_window ctx i h)

theorem FreeDirectDynablock_new (base text textsz : Nat) (nolinker direct : Int)
    (lo hi : Nat) :
    FreeDirectDynablock (NewDynablockList base text textsz nolinker direct) lo hi =
      NewDynablockList base text textsz nolinker direct := by
  simp [FreeDirectDynablock, NewDynablockList]

theorem cleanDBSlot_window (ctx : box86context_t) (addr stop i : Nat)
    (h : SlotsOwnWindow ctx) : SlotsOwnWindow (cleanDBSlot ctx addr stop i) := by
  intro j d hj
  by_cases hji : j = i
  · subst hji
    rw [cleanDBSlot_same] at hj
    rcases cleanSlotValue_cases (ctx.dynmap j) addr stop with hn | ⟨d0, hd0, hv⟩
    · rw [hn] at hj; cases hj
    · rw [hv] at hj
      rw [← Option.some.inj hj]
      simp only []
      rw [h j d0 hd0, FreeDirectDynablock_new]
  · rw [cleanDBSlot_other ctx addr stop i j hji] at hj
    exact h j d hj

theorem cleanDBLoop_window (addr stop : Nat) :
    ∀ (n i : Nat) (ctx : box86context_t), SlotsOwnWindow ctx →
      SlotsOwnWindow (cleanDBLoop addr stop n i ctx) := by
  intro n
  induction n with
  | zero => intro i ctx h; exact h
  | succ n ih =>
    intro i ctx h
    unfold cleanDBLoop
    exact ih _ _ (cleanDBSlot_window ctx addr stop i h)

theorem runDynmap_window (calls : List DynmapCall) :
    ∀ ctx : box86context_t, SlotsOwnWindow ctx → SlotsOwnWindow (runDynmap ctx calls) := by
  induction calls with
  | nil => intro ctx h; exact h
  | cons c cs ih =>
    intro ctx h
    cases c with
    | add addr size =>
      unfold runDynmap
      exact ih _ (addDBLoop_window _ _ ctx h)
    | clean addr size =>
      unfold runDynmap
      exact ih _ (cleanDBLoop_window _ _ _ _ ctx h)

/-- C2: in every dynamic map reached from the all-empty map by calls of
`addDBFromAddressRange` and `cleanDBFromAddressRange`, each non-empty slot
`i < 65536` holds the list created for the window that starts at `i<<16` and has
size 65536; so for every 32-bit guest address `a`, `getDBFromAddress(a)` is NULL
or the list of slot `a>>16`, whose window
`[a & 0xffff0000, (a & 0xffff0000) + 65536)` contains `a`. -/
theorem dynmap_slots_own_window (ctx : box86context_t)
    (hempty : ∀ i, ctx.dynmap i = none) (calls : List DynmapCall) :
    (∀ i d, i < 65536 → (runDynmap ctx calls).dynmap i = some d →
      d.dynablocks = NewDynablockList 0 (i <<< 16) 65536 1 1 ∧
      StartDynablockList d.dynablocks = i <<< 16 ∧ d.dynablocks.textsz = 65536) ∧
    (∀ a, a < 4294967296 →
      getDBFromAddress (runDynmap ctx calls) a = none ∨
      ∃ d, (runDynmap ctx calls).dynmap (a >>> 16) = some d ∧
        getDBFromAddress (runDynmap ctx calls) a = some d.dynablocks ∧
        StartDynablockList d.dynablocks = a &&& 0xffff0000 ∧
        d.dynablocks.textsz = 65536 ∧
        a &&& 0xffff0000 ≤ a ∧ a < (a &&& 0xffff0000) + 65536) := by
  have h0 : SlotsOwnWindow ctx := by
    intro i d hd
    rw [hempty i] at hd
    cases hd
  have hinv := runDynmap_window calls ctx h0
  have hslot : ∀ i d, i < 65536 → (runDynmap ctx calls).dynmap i = some d →
      d.dynablocks = NewDynablockList 0 (i <<< 16) 65536 1 1 := by
    intro i d hi hd
    have h := hinv i d hd
    have hlt : i <<< 16 < 4294967296 := by
      rw [Nat.shiftLeft_eq]; omega
    rw [Nat.mod_eq_of_lt hlt] at h
    exact h
  constructor
  · intro i d hi hd
    have h := hslot i d hi hd
    refine ⟨h, ?_, ?_⟩
    · rw [h]; rfl
    · rw [h]; rfl
  · intro a ha
    have hidx : a >>> 16 < 65536 := by
      rw [Nat.shiftRight_eq_div_pow]; omega
    cases hd : (runDynmap ctx calls).dynmap (a >>> 16) with
    | none =>
      left
      simp [getDBFromAddress, hd]
    | some d =>
      right
      have h := hslot _ d hidx hd
      have hmask := land_mask_page a ha
      refine ⟨d, rfl, by simp [getDBFromAddress, hd], ?_, ?_, ?_, ?_⟩
      · rw [h, hmask]; rfl
      · rw [h]; rfl
      · rw [hmask, Nat.shiftRight_eq_div_pow, Nat.shiftLeft_eq]; omega
      · rw [hmask, Nat.shiftRight_eq_div_pow, Nat.shiftLeft_eq]; omega

/-- C2 at a concrete input: after the calls of `exampleCalls` on the zeroed
context, slot `0x0804` holds the list of the window `[0x8040000, 0x8050000)`, in
which the address `0x8048123` lies. -/
theorem dynmap_slots_own_window_witness :
    (∀ i, zeroContext.dynmap i = none) ∧
    (runDynmap zeroContext exampleCalls).dynmap 0x0804 =
      some { dynablocks := NewDynablockList 0 0x8040000 65536 1 1 } ∧
    (getDBFromAddress (runDynmap zeroContext exampleCalls) 0x8048123 = none ∨
      ∃ d, (runDynmap zeroContext exampleCalls).dynmap (0x8048123 >>> 16) = some d ∧
        getDBFromAddress (runDynmap zeroContext exampleCalls) 0x8048123 =
          some d.dynablocks ∧
        StartDynablockList d.dynablocks = 0x8048123 &&& 0xffff0000 ∧
        d.dynablocks.textsz = 65536 ∧
        0x8048123 &&& 0xffff0000 ≤ 0x8048123 ∧
        0x8048123 < (0x8048123 &&& 0xffff0000) + 65536) :=
  ⟨fun _ => rfl, by decide,
    (dynmap_slots_own_window zeroContext (fun _ => rfl) exampleCalls).2 0x8048123
      (by decide)⟩

/-! ## Slots that `addDBFromAddressRange` visits -/

theorem addDBSlot_same (ctx : box86context_t) (i : Nat) :
    (addDBSlot ctx i).dynmap i = addSlotValue i (ctx.dynmap i) := by
  unfold addSlotValue addDBSlot
  cases h : ctx.dynmap i with
  | none => simp
  | some d => simp [h]

theorem addDBSlot_other (ctx : box86context_t) (i j : Nat) (hj : j ≠ i) :
    (addDBSlot ctx i).dynmap j = ctx.dynmap j := by
  unfold addDBSlot
  cases h : ctx.dynmap i with
  | none => simp [Function.update_noteq hj]
  | some d => simp

theorem addDBLoop_slot :
    ∀ (n i : Nat) (ctx : box86context_t) (j : Nat),
      (addDBLoop n i ctx).dynmap j =
        if i ≤ j ∧ j < i + n then addSlotValue j (ctx.dynmap j) else ctx.dynmap j := by
  intro n
  induction n with
  | zero =>
    intro i ctx j
    have h0 : ¬ (i ≤ j ∧ j < i + 0) := by omega
    rw [if_neg h0]
    rfl
  | succ n ih =>
    intro i ctx j
    unfold addDBLoop
    rw [ih]
    by_cases hji : j = i
    · subst hji
      have h1 : ¬ (j + 1 ≤ j ∧ j < j + 1 + n) := by omega
      have h2 : j ≤ j ∧ j < j + (n + 1) := by omega
      rw [if_neg h1, if_pos h2, addDBSlot_same]
    · rw [addDBSlot_other ctx i j hji]
      by_cases h : i + 1 ≤ j ∧ j < i + 1 + n
      · have h2 : i ≤ j ∧ j < i + (n + 1) := by omega
        rw [if_pos h, if_pos h2]
      · have h2 : ¬ (i ≤ j ∧ j < i + (n + 1)) := by omega
        rw [if_neg h, if_neg h2]

theorem addSlotValue_some (i : Nat) (d : dynmap_t) : addSlotValue i (some d) = some d := by
  simp [addSlotValue, addDBSlot]

theorem addSlotValue_none (i : Nat) :
    addSlotValue i none =
      some { dynablocks := NewDynablockList 0 ((i <<< 16) % 4294967296) 65536 1 1 } := by
  simp [addSlotValue, addDBSlot]

theorem addDBFromAddressRange_slot (ctx : box86context_t) (addr size j : Nat) :
    (addDBFromAddressRange ctx addr size).dynmap j =
      if addr >>> 16 ≤ j ∧ j ≤ ((addr + size) % 4294967296) >>> 16 then
        addSlotValue j (ctx.dynmap j)
      else ctx.dynmap j := by
  unfold addDBFromAddressRange
  simp only []
  rw [addDBLoop_slot]
  by_cases h : addr >>> 16 ≤ j ∧ j ≤ ((addr + size) % 4294967296) >>> 16
  · rw [if_pos h, if_pos (by omega)]
  · rw [if_neg h, if_neg (by omega)]

theorem cleanDBFromAddressRange_slot (ctx : box86context_t) (addr size j : Nat) :
    (cleanDBFromAddressRange ctx addr size).dynmap j =
      if addr >>> 16 ≤ j ∧ j ≤ ((addr + size) % 4294967296) >>> 16 then
        cleanSlotValue (ctx.dynmap j) addr ((addr + size) % 4294967296)
      else ctx.dynmap j := by
  unfold cleanDBFromAddressRange
  simp only []
  rw [cleanDBLoop_slot]
  by_cases h : addr >>> 16 ≤ j ∧ j ≤ ((addr + size) % 4294967296) >>> 16
  · rw [if_pos h, if_pos (by omega)]
  · rw [if_neg h, if_neg (by omega)]

theorem addSlotValue_ne_none (i : Nat) (v : Option dynmap_t) : addSlotValue i v ≠ none := by
  cases v with
  | none => rw [addSlotValue_none]; exact Option.some_ne_none _
  | some d => rw [addSlotValue_some]; exact Option.some_ne_none _

/-! ## `addDBFromAddressRange` -/

/-- C11, the code at the failing input: the range `[0xffff0000, 2^32)` of 65536
bytes lies inside the 32-bit address space, but the `uintptr_t` sum `addr+size`
wraps to 0, the loop `for (i=idx; i<=end; ++i)` runs from `0xffff` to `0` and
creates nothing: slot `0xffff`, whose page is the range, stays empty and
`getDBFromAddress(0xffff0000)` is NULL. -/
theorem addDBFromAddressRange_wraps_at_top :
    (1 ≤ 0x10000 ∧ 0xffff0000 + 0x10000 ≤ 4294967296) ∧
    (0xffff0000 + 0x10000) % 4294967296 = 0 ∧
    (addDBFromAddressRange zeroContext 0xffff0000 0x10000).dynmap 0xffff = none ∧
    getDBFromAddress (addDBFromAddressRange zeroContext 0xffff0000 0x10000) 0xffff0000 =
      none ∧
    getDBFromAddress (addDBFromAddressRange zeroContext 0xffff0000 0x10000) 0xffffffff =
      none := by
  decide

/-- When the range ends below the top of the address space (`addr + size < 2^32`,
so the sum of the code does not wrap), after
`addDBFromAddressRange(ctx, addr, size)` every slot `i` whose page
`[i<<16, (i+1)<<16)` intersects `[addr, addr+size)` is non-empty, and
`getDBFromAddress(a)` is not NULL for every `a` of the range. -/
theorem addDBFromAddressRange_populates (ctx : box86context_t) (addr size : Nat)
    (hsum : addr + size < 4294967296) :
    (∀ i, i <<< 16 < addr + size → addr < (i + 1) <<< 16 →
      (addDBFromAddressRange ctx addr size).dynmap i ≠ none) ∧
    ∀ a, addr ≤ a → a < addr + size →
      getDBFromAddress (addDBFromAddressRange ctx addr size) a ≠ none := by
  have hmod : (addr + size) % 4294967296 = addr + size := Nat.mod_eq_of_lt hsum
  have hslot : ∀ i, addr >>> 16 ≤ i → i ≤ (addr + size) >>> 16 →
      (addDBFromAddressRange ctx addr size).dynmap i ≠ none := by
    intro i h1 h2
    rw [addDBFromAddressRange_slot, hmod, if_pos ⟨h1, h2⟩]
    exact addSlotValue_ne_none _ _
  constructor
  · intro i h1 h2
    rw [Nat.shiftLeft_eq] at h1 h2
    apply hslot
    · rw [Nat.shiftRight_eq_div_pow]; omega
    · rw [Nat.shiftRight_eq_div_pow]; omega
  · intro a h1 h2
    have hs := hslot (a >>> 16) (shiftRight_le_of_le _ _ h1)
      (shiftRight_le_of_le _ _ (Nat.le_of_lt h2))
    unfold getDBFromAddress
    simp only []
    cases hd : (addDBFromAddressRange ctx addr size).dynmap (a >>> 16) with
    | none => exact absurd hd hs
    | some d => exact Option.some_ne_none _

/-- The range `[0x8048000, 0x804c000)` at a concrete input: the lookup of
`0x8048123` after `addDBFromAddressRange` on the zeroed context finds a list. -/
theorem addDBFromAddressRange_populates_witness :
    0x8048000 + 0x4000 < 4294967296 ∧
    getDBFromAddress (addDBFromAddressRange zeroContext 0x8048000 0x4000) 0x8048123 ≠
      none :=
  ⟨by decide,
    (addDBFromAddressRange_populates zeroContext 0x8048000 0x4000
      (by decide)).2 0x8048123 (by decide) (by decide)⟩

/-- C12 fails as stated: after `addDBFromAddressRange(ctx, 0x8048000, 0x4000)` on
the all-empty map slot `0x8048` is still NULL; the address `0x8048000` lies in
page `0x8048000 >> 16 = 0x0804`. -/
theorem addDBFromAddressRange_slot_0x8048_empty :
    (∀ i, zeroContext.dynmap i = none) ∧
    0x8048000 >>> 16 = 0x0804 ∧
    (addDBFromAddressRange zeroContext 0x8048000 0x4000).dynmap 0x8048 = none :=
  ⟨fun _ => rfl, by decide, by decide⟩

/-- C12, amended: starting from a dynamic map whose slots are all empty, after
`addDBFromAddressRange(ctx, 0x8048000, 0x4000)` slot `0x0804`
(`= 0x8048000 >> 16`) is non-null and holds the list of the window
`[0x8040000, 0x8050000)`, every other slot is null, among them the slots `0x0803`
and `0x0805` next to it and the slots `0x8047`, `0x8048` and `0x8049`. -/
theorem addDBFromAddressRange_slot_0x0804 (ctx : box86context_t)
    (hempty : ∀ i, ctx.dynmap i = none) :
    (addDBFromAddressRange ctx 0x8048000 0x4000).dynmap 0x0804 =
      some { dynablocks := NewDynablockList 0 0x8040000 65536 1 1 } ∧
    (∀ i, i ≠ 0x0804 → (addDBFromAddressRange ctx 0x8048000 0x4000).dynmap i = none) ∧
    (addDBFromAddressRange ctx 0x8048000 0x4000).dynmap 0x0803 = none ∧
    (addDBFromAddressRange ctx 0x8048000 0x4000).dynmap 0x0805 = none ∧
    (addDBFromAddressRange ctx 0x8048000 0x4000).dynmap 0x8047 = none ∧
    (addDBFromAddressRange ctx 0x8048000 0x4000).dynmap 0x8048 = none ∧
    (addDBFromAddressRange ctx 0x8048000 0x4000).dynmap 0x8049 = none := by
  have hidx : 0x8048000 >>> 16 = 0x0804 := by decide
  have hend : ((0x8048000 + 0x4000) % 4294967296) >>> 16 = 0x0804 := by decide
  have hother : ∀ i, i ≠ 0x0804 →
      (addDBFromAddressRange ctx 0x8048000 0x4000).dynmap i = none := by
    intro i hi
    rw [addDBFromAddressRange_slot, hidx, hend, if_neg (by omega)]
    exact hempty i
  refine ⟨?_, hother, hother _ (by decide), hother _ (by decide), hother _ (by decide),
    hother _ (by decide), hother _ (by decide)⟩
  rw [addDBFromAddressRange_slot, hidx, hend, if_pos (by omega), hempty, addSlotValue_none]
  rfl

/-- C12 amended, on the zeroed context. -/
theorem addDBFromAddressRange_slot_0x0804_witness :
    (∀ i, zeroContext.dynmap i = none) ∧
    (addDBFromAddressRange zeroContext 0x8048000 0x4000).dynmap 0x0804 =
      some { dynablocks := { text := 0x8040000, textsz := 65536, blocks := [] } } ∧
    (addDBFromAddressRange zeroContext 0x8048000 0x4000).dynmap 0x8048 = none :=
  ⟨fun _ => rfl,
    (addDBFromAddressRange_slot_0x0804 zeroContext (fun _ => rfl)).1,
    (addDBFromAddressRange_slot_0x0804 zeroContext (fun _ => rfl)).2.2.2.2.2.1⟩

/-- C13 fails as stated: the range `[0x10000, 0x20000)` is page 1 alone and does
not intersect page 2, `[0x20000, 0x30000)`, yet
`addDBFromAddressRange(ctx, 0x10000, 0x10000)` creates slot 2: the loop runs to
`end = (addr+size)>>16 = 2` inclusive. -/
theorem addDBFromAddressRange_creates_next_page :
    ¬ (2 <<< 16 < 0x10000 + 0x10000 ∧ 0x10000 < (2 + 1) <<< 16) ∧
    zeroContext.dynmap 2 = none ∧
    (addDBFromAddressRange zeroContext 0x10000 0x10000).dynmap 2 =
      some { dynablocks := NewDynablockList 0 0x20000 65536 1 1 } ∧
    (addDBFromAddressRange zeroContext 0x10000 0x10000).dynmap 2 ≠ zeroContext.dynmap 2 := by
  decide

/-- C13, amended: `addDBFromAddressRange(ctx, addr, size)` visits the slots of the
index interval `[addr>>16, (addr+size)>>16]`, the sum being the unsigned 32-bit
sum of the code, and every slot `i` outside that interval is the same before and
after the call. When the sum does not wrap these are the slots whose page
`[i<<16, (i+1)<<16)` does not intersect the closed range `[addr, addr+size]`: the
page that holds the end address `addr+size` is visited even if the range stops at
its first byte. -/
theorem addDBFromAddressRange_frame (ctx : box86context_t) (addr size i : Nat)
    (hout : ¬ (addr >>> 16 ≤ i ∧ i ≤ ((addr + size) % 4294967296) >>> 16)) :
    (addDBFromAddressRange ctx addr size).dynmap i = ctx.dynmap i ∧
    (addr + size < 4294967296 →
      ((i + 1) <<< 16 ≤ addr ∨ addr + size < i <<< 16 ↔
        ¬ (addr >>> 16 ≤ i ∧ i ≤ ((addr + size) % 4294967296) >>> 16))) := by
  constructor
  · rw [addDBFromAddressRange_slot, if_neg hout]
  · intro hsum
    rw [Nat.mod_eq_of_lt hsum, Nat.shiftLeft_eq, Nat.shiftLeft_eq,
      Nat.shiftRight_eq_div_pow, Nat.shiftRight_eq_div_pow]
    omega

/-- C13 amended, at a concrete input: `addDBFromAddressRange(ctx, 0x10000, 0x10000)`
leaves the slots 0 and 3 of the zeroed context empty. -/
theorem addDBFromAddressRange_frame_witness :
    ¬ (0x10000 >>> 16 ≤ 3 ∧ 3 ≤ ((0x10000 + 0x10000) % 4294967296) >>> 16) ∧
    (addDBFromAddressRange zeroContext 0x10000 0x10000).dynmap 3 = none ∧
    (addDBFromAddressRange zeroContext 0x10000 0x10000).dynmap 0 = none :=
  ⟨by decide,
    (addDBFromAddressRange_frame zeroContext 0x10000 0x10000 3 (by decide)).1,
    (addDBFromAddressRange_frame zeroContext 0x10000 0x10000 0 (by decide)).1⟩

/-- C14: `addDBFromAddressRange` never replaces a populated slot and is
idempotent: for every map and every `addr`, `size`, a slot that is non-empty
before the call holds the same list after it, and a second call with the same
arguments changes nothing, so the populated slots and their lists after two calls
are those after one call (the pool fields are not touched either). -/
theorem addDBFromAddressRange_idempotent (ctx : box86context_t) (addr size : Nat) :
    (∀ i d, ctx.dynmap i = some d →
      (addDBFromAddressRange ctx addr size).dynmap i = some d) ∧
    (∀ i, (addDBFromAddressRange (addDBFromAddressRange ctx addr size) addr size).dynmap i =
      (addDBFromAddressRange ctx addr size).dynmap i) ∧
    (∀ i, (addDBFromAddressRange (addDBFromAddressRange ctx addr size) addr size).dynmap i
        ≠ none ↔ (addDBFromAddressRange ctx addr size).dynmap i ≠ none) := by
  have hkeep : ∀ (c : box86context_t) i d, c.dynmap i = some d →
      (addDBFromAddressRange c addr size).dynmap i = some d := by
    intro c i d hd
    rw [addDBFromAddressRange_slot, hd, addSlotValue_some]
    split <;> rfl
  have htwice : ∀ i,
      (addDBFromAddressRange (addDBFromAddressRange ctx addr size) addr size).dynmap i =
        (addDBFromAddressRange ctx addr size).dynmap i := by
    intro i
    cases hd : (addDBFromAddressRange ctx addr size).dynmap i with
    | some d => exact hkeep _ i d hd
    | none =>
      rw [addDBFromAddressRange_slot, hd]
      by_cases h : addr >>> 16 ≤ i ∧ i ≤ ((addr + size) % 4294967296) >>> 16
      · rw [addDBFromAddressRange_slot, if_pos h] at hd
        exact absurd hd (addSlotValue_ne_none _ _)
      · rw [if_neg h]
  refine ⟨hkeep ctx, htwice, ?_⟩
  intro i
  rw [htwice i]

/-- C14 at a concrete input: on `dynmapTwoBlocks` the populated slot `0x0804`
keeps its list with its two blocks, and a second call adds nothing. -/
theorem addDBFromAddressRange_idempotent_witness :
    (addDBFromAddressRange dynmapTwoBlocks 0x8040000 0x20000).dynmap 0x0804 =
      dynmapTwoBlocks.dynmap 0x0804 ∧
    (addDBFromAddressRange (addDBFromAddressRange dynmapTwoBlocks 0x8040000 0x20000)
        0x8040000 0x20000).dynmap 0x0805 =
      some { dynablocks := NewDynablockList 0 0x8050000 65536 1 1 } := by
  have h := addDBFromAddressRange_idempotent dynmapTwoBlocks 0x8040000 0x20000
  refine ⟨?_, ?_⟩
  · exact h.1 0x0804 _ (by decide)
  · rw [h.2.1 0x0805]
    decide

/-! ## `cleanDBFromAddressRange` -/

theorem cleanSlotValue_none (addr stop : Nat) : cleanSlotValue none addr stop = none := by
  simp [cleanSlotValue, cleanDBSlot, zeroContext]

theorem cleanSlotValue_some_drop (d : dynmap_t) (addr stop : Nat)
    (h : addr ≤ StartDynablockList d.dynablocks ∧ stop ≥ EndDynablockList d.dynablocks) :
    cleanSlotValue (some d) addr stop = none := by
  simp [cleanSlotValue, cleanDBSlot, h]

theorem cleanSlotValue_some_trim (d : dynmap_t) (addr stop : Nat)
    (h : ¬ (addr ≤ StartDynablockList d.dynablocks ∧ stop ≥ EndDynablockList d.dynablocks)) :
    cleanSlotValue (some d) addr stop =
      some { dynablocks := FreeDirectDynablock d.dynablocks addr stop } := by
  simp only [cleanSlotValue, cleanDBSlot]
  rw [if_neg h]
  simp

theorem cleanDBFromAddressRange_drop_or_trim_aux (ctx : box86context_t)
    (addr size i : Nat) (d : dynmap_t) (hd : ctx.dynmap i = some d)
    (h1 : addr >>> 16 ≤ i) (h2 : i ≤ ((addr + size) % 4294967296) >>> 16) :
    ((cleanDBFromAddressRange ctx addr size).dynmap i = none ↔
      (addr ≤ StartDynablockList d.dynablocks ∧
        (addr + size) % 4294967296 ≥ EndDynablockList d.dynablocks)) ∧
    (¬ (addr ≤ StartDynablockList d.dynablocks ∧
        (addr + size) % 4294967296 ≥ EndDynablockList d.dynablocks) →
      (cleanDBFromAddressRange ctx addr size).dynmap i =
        some { dynablocks :=
          FreeDirectDynablock d.dynablocks addr ((addr + size) % 4294967296) }) := by
  rw [cleanDBFromAddressRange_slot, if_pos ⟨h1, h2⟩, hd]
  by_cases hc : addr ≤ StartDynablockList d.dynablocks ∧
      (addr + size) % 4294967296 ≥ EndDynablockList d.dynablocks
  · rw [cleanSlotValue_some_drop d _ _ hc]
    exact ⟨⟨fun _ => hc, fun _ => rfl⟩, fun h => absurd hc h⟩
  · rw [cleanSlotValue_some_trim d _ _ hc]
    refine ⟨⟨fun h => ?_, fun h => absurd h hc⟩, fun _ => rfl⟩
    exact absurd h (Option.some_ne_none _)

/-- C15: the drop-or-trim rule of `cleanDBFromAddressRange(ctx, addr, size)`, with
`addr+size` the unsigned 32-bit sum of the code. A populated slot `i` with
`addr>>16 <= i <= (addr+size)>>16` is cleared if and only if
`addr <= StartDynablockList(list)` and `addr+size >= EndDynablockList(list)`;
otherwise it keeps its list, to which `FreeDirectDynablock(list, addr, addr+size)`
has been applied. Empty slots stay empty and slots outside that index range are
unchanged. -/
theorem cleanDBFromAddressRange_drop_or_trim (ctx : box86context_t) (addr size : Nat) :
    (∀ i d, ctx.dynmap i = some d →
      addr >>> 16 ≤ i → i ≤ ((addr + size) % 4294967296) >>> 16 →
      ((cleanDBFromAddressRange ctx addr size).dynmap i = none ↔
        (addr ≤ StartDynablockList d.dynablocks ∧
          (addr + size) % 4294967296 ≥ EndDynablockList d.dynablocks)) ∧
      (¬ (addr ≤ StartDynablockList d.dynablocks ∧
          (addr + size) % 4294967296 ≥ EndDynablockList d.dynablocks) →
        (cleanDBFromAddressRange ctx addr size).dynmap i =
          some { dynablocks :=
            FreeDirectDynablock d.dynablocks addr ((addr + size) % 4294967296) })) ∧
    (∀ i, ctx.dynmap i = none → (cleanDBFromAddressRange ctx addr size).dynmap i = none) ∧
    (∀ i, ¬ (addr >>> 16 ≤ i ∧ i ≤ ((addr + size) % 4294967296) >>> 16) →
      (cleanDBFromAddressRange ctx addr size).dynmap i = ctx.dynmap i) := by
  refine ⟨?_, ?_, ?_⟩
  · intro i d hd h1 h2
    exact cleanDBFromAddressRange_drop_or_trim_aux ctx addr size i d hd h1 h2
  · intro i hd
    rw [cleanDBFromAddressRange_slot, hd, cleanSlotValue_none]
    split <;> rfl
  · intro i hout
    rw [cleanDBFromAddressRange_slot, if_neg hout]

/-- C15 at a concrete input: cleaning `[0x8040000, 0x8050000)` drops the list of
page `0x0804` of `dynmapTwoBlocks`, cleaning `[0x8048010, 0x8048018)` keeps it and
removes the one block that overlaps. -/
theorem cleanDBFromAddressRange_drop_or_trim_witness :
    (cleanDBFromAddressRange dynmapTwoBlocks 0x8040000 0x10000).dynmap 0x0804 = none ∧
    (cleanDBFromAddressRange dynmapTwoBlocks 0x8048010 8).dynmap 0x0804 =
      some { dynablocks :=
        { text := 0x8040000, textsz := 65536,
          blocks := [{ guest_start := 0x8049000, guest_end := 0x8049010 }] } } := by
  have hd : dynmapTwoBlocks.dynmap 0x0804 = some twoBlocksPage := by decide
  have h1 := (cleanDBFromAddressRange_drop_or_trim dynmapTwoBlocks 0x8040000 0x10000).1
    0x0804 twoBlocksPage hd (by decide) (by decide)
  have h2 := (cleanDBFromAddressRange_drop_or_trim dynmapTwoBlocks 0x8048010 8).1
    0x0804 twoBlocksPage hd (by decide) (by decide)
  refine ⟨h1.1.2 (by decide), ?_⟩
  rw [h2.2 (by decide)]
  decide

theorem getDBFromAddress_of_slot_none (c : box86context_t) (a : Nat)
    (h : c.dynmap (a >>> 16) = none) : getDBFromAddress c a = none := by
  unfold getDBFromAddress
  simp only []
  rw [h]

theorem EndDynablockList_le (db : dynablocklist_t) : EndDynablockList db ≤ 0xffffffff := by
  unfold EndDynablockList
  omega

/-- C16: after `cleanDBFromAddressRange(ctx, 0, 0xffffffff)` all 65536 slots of the
dynamic map are null, slot `0xffff` included, and no lookup finds a list. This
holds for every dynamic map, so also for one built by `addDBFromAddressRange` with
any number of populated slots: `0 <= startdb` and `0xffffffff >= enddb` hold for
every `uintptr_t` value, so each populated slot takes the branch that clears it. -/
theorem cleanDBFromAddressRange_full_range (ctx : box86context_t) (i : Nat)
    (hi : i < 65536) :
    (cleanDBFromAddressRange ctx 0 0xffffffff).dynmap i = none ∧
    ∀ a, a >>> 16 = i →
      getDBFromAddress (cleanDBFromAddressRange ctx 0 0xffffffff) a = none := by
  have hidx : 0 >>> 16 = 0 := by decide
  have hend : ((0 + 0xffffffff) % 4294967296) >>> 16 = 0xffff := by decide
  have hstop : (0 + 0xffffffff) % 4294967296 = 0xffffffff := by decide
  have hslot : (cleanDBFromAddressRange ctx 0 0xffffffff).dynmap i = none := by
    rw [cleanDBFromAddressRange_slot, hidx, hend, hstop, if_pos ⟨Nat.zero_le _, by omega⟩]
    cases hd : ctx.dynmap i with
    | none => exact cleanSlotValue_none _ _
    | some d =>
      exact cleanSlotValue_some_drop d _ _ ⟨Nat.zero_le _, EndDynablockList_le _⟩
  refine ⟨hslot, ?_⟩
  intro a ha
  apply getDBFromAddress_of_slot_none
  rw [ha]
  exact hslot

/-- C16 at a concrete input: the map built by `exampleCalls` on the zeroed context
has slot `0xffff` populated, and the full-range clean leaves it null. -/
theorem cleanDBFromAddressRange_full_range_witness :
    0xffff < 65536 ∧
    (runDynmap zeroContext exampleCalls).dynmap 0xffff =
      some { dynablocks := NewDynablockList 0 0xffff0000 65536 1 1 } ∧
    (cleanDBFromAddressRange (runDynmap zeroContext exampleCalls) 0 0xffffffff).dynmap
      0xffff = none :=
  ⟨by decide, by decide,
    (cleanDBFromAddressRange_full_range (runDynmap zeroContext exampleCalls) 0xffff
      (by decide)).1⟩

/-! ## `addDBFromAddressRange` followed by `cleanDBFromAddressRange` -/

/-- C17 fails as stated: on the all-empty map, `addDBFromAddressRange` and then
`cleanDBFromAddressRange` over `0x8048000, 0x4000` leave slot `0x0804` populated.
The range covers only a part of the window `[0x8040000, 0x8050000)` of the list,
so `addr <= startdb` fails and the list is trimmed, not dropped. -/
theorem add_then_clean_leaves_slot :
    (∀ i, zeroContext.dynmap i = none) ∧
    (cleanDBFromAddressRange (addDBFromAddressRange zeroContext 0x8048000 0x4000)
      0x8048000 0x4000).dynmap 0x0804 =
        some { dynablocks := NewDynablockList 0 0x8040000 65536 1 1 } ∧
    (cleanDBFromAddressRange (addDBFromAddressRange zeroContext 0x8048000 0x4000)
      0x8048000 0x4000).dynmap 0x0804 ≠ zeroContext.dynmap 0x0804 :=
  ⟨fun _ => rfl, by decide, by decide⟩

/-- C17, amended: for a slot `i` that is empty before
`addDBFromAddressRange(ctx, addr, size)` followed by
`cleanDBFromAddressRange(ctx, addr, size)`: if `i` is outside the index interval
`[addr>>16, (addr+size)>>16]` it is empty afterwards; if `i` is inside, it is
empty afterwards if and only if the range covers the whole window of the list
created for it, `addr <= i<<16` and `addr+size >= (i<<16) + 65536` as unsigned
32-bit values, and otherwise it is left populated with that (empty) list. -/
theorem add_then_clean_slot (ctx : box86context_t) (addr size i : Nat)
    (hempty : ctx.dynmap i = none) :
    (¬ (addr >>> 16 ≤ i ∧ i ≤ ((addr + size) % 4294967296) >>> 16) →
      (cleanDBFromAddressRange (addDBFromAddressRange ctx addr size) addr size).dynmap i
        = none) ∧
    ((addr >>> 16 ≤ i ∧ i ≤ ((addr + size) % 4294967296) >>> 16) →
      ((cleanDBFromAddressRange (addDBFromAddressRange ctx addr size) addr size).dynmap i
          = none ↔
        (addr ≤ i <<< 16 ∧
          (addr + size) % 4294967296 ≥ (i <<< 16 + 65536) % 4294967296)) ∧
      (¬ (addr ≤ i <<< 16 ∧
          (addr + size) % 4294967296 ≥ (i <<< 16 + 65536) % 4294967296) →
        (cleanDBFromAddressRange (addDBFromAddressRange ctx addr size) addr size).dynmap i
          = some { dynablocks := NewDynablockList 0 (i <<< 16) 65536 1 1 })) := by
  constructor
  · intro hout
    rw [cleanDBFromAddressRange_slot, if_neg hout, addDBFromAddressRange_slot, if_neg hout]
    exact hempty
  · intro hin
    have hi : i < 65536 := by
      have h2 := hin.2
      rw [Nat.shiftRight_eq_div_pow] at h2
      omega
    have hlt : i <<< 16 < 4294967296 := by
      rw [Nat.shiftLeft_eq]; omega
    have hadd : (addDBFromAddressRange ctx addr size).dynmap i =
        some { dynablocks := NewDynablockList 0 (i <<< 16) 65536 1 1 } := by
      rw [addDBFromAddressRange_slot, if_pos hin, hempty, addSlotValue_none,
        Nat.mod_eq_of_lt hlt]
    have h := (cleanDBFromAddressRange_drop_or_trim_aux
      (addDBFromAddressRange ctx addr size) addr size i _ hadd hin.1 hin.2)
    have hfree : FreeDirectDynablock (NewDynablockList 0 (i <<< 16) 65536 1 1) addr
        ((addr + size) % 4294967296) = NewDynablockList 0 (i <<< 16) 65536 1 1 :=
      FreeDirectDynablock_new _ _ _ _ _ _ _
    simp only [hfree] at h
    exact h

/-- C17 amended, at a concrete input: over `0x8040000, 0x10000` the slot `0x0804`,
whose window the range covers, is empty again, and the slot `0x0805` of the end
address is left populated. -/
theorem add_then_clean_slot_witness :
    (zeroContext.dynmap 0x0804 = none ∧ zeroContext.dynmap 0x0805 = none) ∧
    (cleanDBFromAddressRange (addDBFromAddressRange zeroContext 0x8040000 0x10000)
      0x8040000 0x10000).dynmap 0x0804 = none ∧
    (cleanDBFromAddressRange (addDBFromAddressRange zeroContext 0x8040000 0x10000)
      0x8040000 0x10000).dynmap 0x0805 =
        some { dynablocks := NewDynablockList 0 0x8050000 65536 1 1 } := by
  have h4 := (add_then_clean_slot zeroContext 0x8040000 0x10000 0x0804 rfl).2 (by decide)
  have h5 := (add_then_clean_slot zeroContext 0x8040000 0x10000 0x0805 rfl).2 (by decide)
  exact ⟨⟨rfl, rfl⟩, h4.1.2 (by decide), h5.2 (by decide)⟩

/-! ## TLS partitions -/

theorem wrapInt32_of_range (x : Int) (h0 : -2147483648 ≤ x) (h1 : x ≤ 2147483647) :
    wrapInt32 x = x := by
  unfold wrapInt32
  omega

theorem toU32_natCast (n : Nat) (h : n < 4294967296) : toU32 (n : Int) = n := by
  unfold toU32
  omega

theorem AddTLSPartition_spec (ctx : box86context_t) (t n : Nat)
    (ht : ctx.tlssize = (t : Int)) (hrange : t + n ≤ 2147483647) :
    (AddTLSPartition ctx n).1 = -((t : Int) + n) ∧
    (AddTLSPartition ctx n).2.tlssize = (t : Int) + n ∧
    (∀ j, j < n → (AddTLSPartition ctx n).2.tlsdata j = 0) ∧
    (∀ j, j < t → (AddTLSPartition ctx n).2.tlsdata (n + j) = ctx.tlsdata j) := by
  have hn : toU32 (n : Int) = n := toU32_natCast n (by omega)
  have ht2 : toU32 ctx.tlssize = t := by rw [ht]; exact toU32_natCast t (by omega)
  have hw : wrapInt32 (ctx.tlssize + (n : Int)) = (t : Int) + n := by
    rw [ht]; exact wrapInt32_of_range _ (by omega) (by omega)
  have hw2 : wrapInt32 (-((t : Int) + n)) = -((t : Int) + n) :=
    wrapInt32_of_range _ (by omega) (by omega)
  refine ⟨?_, ?_, ?_, ?_⟩
  · simp only [AddTLSPartition, hw, hw2]
  · simp only [AddTLSPartition, hw]
  · intro j hj
    simp only [AddTLSPartition, hn, memset]
    rw [if_pos (by omega)]
  · intro j hj
    simp only [AddTLSPartition, hn, ht2, memset, memmove]
    rw [if_neg (by omega), if_pos (by omega)]
    congr 1
    omega

/-- C18: for a context whose TLS area has `t >= 0` bytes and every `n >= 1` with
`t + n` in the range of `int`, `AddTLSPartition(ctx, n)` returns `o = -(t+n)`, so
`o < 0` and `|o|` is the TLS size after the call; the area then has `t+n` bytes,
`n` zero bytes followed by the `t` old bytes unchanged, so every old byte keeps its
distance from the end. On an empty area the calls with 8 and then 16 return `-8`
and `-24`, the last 8 bytes are the content of the first partition and the 16
bytes before them are zero. -/
theorem AddTLSPartition_grows_front (ctx : box86context_t) (t n : Nat)
    (ht : ctx.tlssize = (t : Int)) (hn : 1 ≤ n) (hrange : t + n ≤ 2147483647) :
    ((AddTLSPartition ctx n).1 = -((t : Int) + n) ∧
      (AddTLSPartition ctx n).1 < 0 ∧
      |(AddTLSPartition ctx n).1| = (AddTLSPartition ctx n).2.tlssize ∧
      (AddTLSPartition ctx n).2.tlssize = (t : Int) + n ∧
      (∀ j, j < n → (AddTLSPartition ctx n).2.tlsdata j = 0) ∧
      (∀ j, j < t → (AddTLSPartition ctx n).2.tlsdata (n + j) = ctx.tlsdata j) ∧
      (∀ j, j < t → (t + n) - (n + j) = t - j)) ∧
    (t = 0 →
      (AddTLSPartition ctx 8).1 = -8 ∧
      (AddTLSPartition (AddTLSPartition ctx 8).2 16).1 = -24 ∧
      (AddTLSPartition (AddTLSPartition ctx 8).2 16).2.tlssize = 24 ∧
      (∀ j, j < 8 →
        (AddTLSPartition (AddTLSPartition ctx 8).2 16).2.tlsdata (16 + j) =
          (AddTLSPartition ctx 8).2.tlsdata j) ∧
      (∀ j, j < 16 → (AddTLSPartition (AddTLSPartition ctx 8).2 16).2.tlsdata j = 0)) := by
  constructor
  · obtain ⟨h1, h2, h3, h4⟩ := AddTLSPartition_spec ctx t n ht hrange
    refine ⟨h1, ?_, ?_, h2, h3, h4, ?_⟩
    · rw [h1]; omega
    · rw [h1, h2, abs_neg]
      exact abs_of_nonneg (by omega)
    · intro j hj; omega
  · intro ht0
    subst ht0
    obtain ⟨h1, h2, _, _⟩ := AddTLSPartition_spec ctx 0 8 ht (by decide)
    simp only [Nat.cast_ofNat, Nat.cast_zero, zero_add] at h1 h2
    have ht8 : (AddTLSPartition ctx 8).2.tlssize = ((8 : Nat) : Int) := by
      rw [h2]; rfl
    obtain ⟨g1, g2, g3, g4⟩ :=
      AddTLSPartition_spec (AddTLSPartition ctx 8).2 8 16 ht8 (by decide)
    simp only [Nat.cast_ofNat] at g1 g2 g3 g4
    refine ⟨h1, ?_, ?_, g4, g3⟩
    · rw [g1]; norm_num
    · rw [g2]; norm_num

/-- C18 at a concrete input: a partition of 16 bytes added in front of the area
`1, 2, ..., 8`. -/
theorem AddTLSPartition_grows_front_witness :
    (tlsEightBytes.tlssize = ((8 : Nat) : Int) ∧ 1 ≤ 16 ∧ 8 + 16 ≤ 2147483647) ∧
    (AddTLSPartition tlsEightBytes 16).1 = -24 ∧
    (AddTLSPartition tlsEightBytes 16).2.tlsdata 15 = 0 ∧
    (AddTLSPartition tlsEightBytes 16).2.tlsdata 16 = 1 ∧
    (AddTLSPartition tlsEightBytes 16).2.tlsdata 23 = 8 := by
  have h := (AddTLSPartition_grows_front tlsEightBytes 8 16 rfl (by decide) (by decide)).1
  simp only [Nat.cast_ofNat] at h
  refine ⟨⟨rfl, by decide, by decide⟩, ?_, h.2.2.2.2.1 15 (by decide), ?_, ?_⟩
  · rw [h.1]; norm_num
  · exact h.2.2.2.2.2.1 0 (by decide)
  · exact h.2.2.2.2.2.1 7 (by decide)

/-! ## Canary -/

/-- C19, the code at the failing input: when the fifth call of `random()` returns
`0x7fff` (the first four return 0), `getrand(4)` returns 4, so
`context->canary[getrand(4)] = 0` writes past the four canary bytes and none of
them is zeroed: the canary is `1, 1, 1, 1`. In the same way `getrand(255)` returns
255 for `0x7fff`, so that `1 + getrand(255)` is 256, not a value of `[1, 255]`. -/
theorem NewBox86Context_canary_out_of_range :
    (∀ k, k < 5 → rndFifthAllOnes k ≤ RAND_MAX) ∧
    getrand 4 (rndFifthAllOnes 4) = 4 ∧
    (∀ i, i < 4 → (NewBox86Context rndFifthAllOnes).canary i = 1) ∧
    ¬ (∃ i, i < 4 ∧ (NewBox86Context rndFifthAllOnes).canary i = 0) ∧
    1 + getrand 255 0x7fff = 256 := by
  decide

/-! ## Fork accounting -/

theorem munmapSlabs_forked (ctx : box86context_t) (f : Int) :
    ∀ n i, munmapSlabs { ctx with forked := f } n i = munmapSlabs ctx n i := by
  intro n
  induction n with
  | zero => intro i; rfl
  | succ n ih =>
    intro i
    simp only [munmapSlabs]
    rw [ih]

theorem FreeBox86Context_keeps (ctx : box86context_t) (h0 : 1 ≤ ctx.forked)
    (h1 : ctx.forked ≤ 2147483647) :
    FreeBox86Context (some (some ctx)) =
      FreeResult.kept { ctx with forked := ctx.forked - 1 } := by
  have hw : wrapInt32 (ctx.forked - 1) = ctx.forked - 1 :=
    wrapInt32_of_range _ (by omega) (by omega)
  simp only [FreeBox86Context, hw]
  rw [if_pos (by omega)]

theorem FreeBox86Context_frees (ctx : box86context_t) (h0 : ctx.forked = 0) :
    FreeBox86Context (some (some ctx)) =
      FreeResult.freed (cleanDBFromAddressRange { ctx with forked := -1 } 0 0xffffffff)
        (munmapSlabs ctx ctx.mmapsize 0 ++ [TeardownStep.free_mmaplist,
          TeardownStep.cleanDBFromAddressRange 0 0xffffffff, TeardownStep.free_context]) := by
  have hw : wrapInt32 (ctx.forked - 1) = -1 := by
    rw [h0]; decide
  simp only [FreeBox86Context, hw]
  rw [if_neg (by omega), munmapSlabs_forked]

theorem freeCalls_count (n : Nat) :
    ∀ ctx : box86context_t, ctx.forked = (n : Int) → n ≤ 2147483647 →
      freeCalls (n + 1) (some ctx) =
        (List.range n).map
            (fun (k : Nat) => FreeResult.kept { ctx with forked := (n : Int) - 1 - (k : Int) }) ++
          [FreeResult.freed
            (cleanDBFromAddressRange { ctx with forked := -1 } 0 0xffffffff)
            (munmapSlabs ctx ctx.mmapsize 0 ++ [TeardownStep.free_mmaplist,
              TeardownStep.cleanDBFromAddressRange 0 0xffffffff,
              TeardownStep.free_context])] := by
  induction n with
  | zero =>
    intro ctx h _
    have h0 : ctx.forked = 0 := by simpa using h
    simp only [freeCalls, List.range_zero, List.map_nil, List.nil_append]
    rw [FreeBox86Context_frees ctx h0]
  | succ n ih =>
    intro ctx h hn
    have hk := FreeBox86Context_keeps ctx (by rw [h]; push_cast; omega)
      (by rw [h]; push_cast; omega)
    have hf : ctx.forked - 1 = (n : Int) := by rw [h]; push_cast; omega
    rw [hf] at hk
    have hrest := ih { ctx with forked := (n : Int) } rfl (by omega)
    rw [freeCalls, hk]
    simp only [pointerAfter]
    rw [hrest, List.range_succ_eq_map, List.map_cons, List.map_map, List.cons_append,
      munmapSlabs_forked]
    congr 1
    · congr 2
      push_cast
      omega
    · congr 1
      apply List.map_congr_left
      intro k _
      simp only [Function.comp]
      congr 2
      push_cast
      omega

/-- C20: fork accounting. On a context whose counter `forked` is `n >= 0`, of
`n + 1` calls `FreeBox86Context(&p)` in a row the first `n` only decrement
`forked` by one and return: no teardown step runs, the context stays allocated
and the caller's pointer still points to it; call number `n + 1` finds
`forked = 0`, runs the teardown to its end and sets the caller's pointer to NULL.
For `n = 2` the first two calls leave `forked` at 1 and 0 and the third tears
down. -/
theorem FreeBox86Context_fork_accounting (ctx : box86context_t) (n : Nat)
    (hforked : ctx.forked = (n : Int)) (hint : n ≤ 2147483647) :
    freeCalls (n + 1) (some ctx) =
      (List.range n).map
          (fun (k : Nat) =>
            FreeResult.kept { ctx with forked := (n : Int) - 1 - (k : Int) }) ++
        [FreeResult.freed
          (cleanDBFromAddressRange { ctx with forked := -1 } 0 0xffffffff)
          (munmapSlabs ctx ctx.mmapsize 0 ++ [TeardownStep.free_mmaplist,
            TeardownStep.cleanDBFromAddressRange 0 0xffffffff,
            TeardownStep.free_context])] ∧
    (∀ c, pointerAfter (FreeResult.kept c) = some c) ∧
    (∀ c steps, pointerAfter (FreeResult.freed c steps) = none) ∧
    (n = 2 →
      freeCalls 3 (some ctx) =
        [FreeResult.kept { ctx with forked := 1 },
          FreeResult.kept { ctx with forked := 0 },
          FreeResult.freed
            (cleanDBFromAddressRange { ctx with forked := -1 } 0 0xffffffff)
            (munmapSlabs ctx ctx.mmapsize 0 ++ [TeardownStep.free_mmaplist,
              TeardownStep.cleanDBFromAddressRange 0 0xffffffff,
              TeardownStep.free_context])]) := by
  refine ⟨freeCalls_count n ctx hforked hint, fun _ => rfl, fun _ _ => rfl, ?_⟩
  intro h2
  subst h2
  rw [freeCalls_count 2 ctx hforked hint]
  simp [List.range_succ]

/-- C20 at a concrete input: the pool `poolOneSlab` with `forked = 2`; the third
call unmaps the slab at `0x10000000`. -/
theorem FreeBox86Context_fork_accounting_witness :
    ({ poolOneSlab with forked := 2 } : box86context_t).forked = ((2 : Nat) : Int) ∧
    freeCalls 3 (some { poolOneSlab with forked := 2 }) =
      [FreeResult.kept { poolOneSlab with forked := 1 },
        FreeResult.kept { poolOneSlab with forked := 0 },
        FreeResult.freed
          (cleanDBFromAddressRange { poolOneSlab with forked := -1 } 0 0xffffffff)
          [TeardownStep.munmap 0x10000000 4194304, TeardownStep.free_mmaplist,
            TeardownStep.cleanDBFromAddressRange 0 0xffffffff,
            TeardownStep.free_context]] :=
  ⟨rfl,
    (FreeBox86Context_fork_accounting { poolOneSlab with forked := 2 } 2 rfl
      (by decide)).2.2.2 rfl⟩

/-! ## Enumerations of `regs.h` -/

open defered_flags_t in
/-- C24: the numbering of the deferred-flags kinds. `d_none` is 0; the enumerator
of operation `k` (add, and, dec, inc, imul, or, mul, neg, shl, shr, sar, sub, xor
for `k = 0..12`) and width `w` (8, 16, 32 for `w = 0..2`) has the value
`1 + 3*k + w`, so the 39 operation kinds are pairwise distinct and fill `1..39`,
`d_sub32` being 36; with `d_none` they are 40 values, and `d_unknown = 40` is the
last and the largest value. -/
theorem defered_flags_numbering :
    enumValue defered_flags_decl d_none = some 0 ∧
    (∀ k, k < 13 → ∀ w, w < 3 →
      ∃ e, deferedKind k w = some e ∧ enumValue defered_flags_decl e = some (1 + 3 * k + w)) ∧
    (enumValues defered_flags_decl 0).map (fun e => e.2) = List.range 41 ∧
    ((enumValues defered_flags_decl 0).map (fun e => e.1)).Nodup ∧
    enumValue defered_flags_decl d_sub32 = some 36 ∧
    (enumValues defered_flags_decl 0).length = 41 ∧
    (enumValues defered_flags_decl 0).getLast? = some (d_unknown, 40) ∧
    (∀ e ∈ enumValues defered_flags_decl 0, e.2 ≤ 40 ∧ (e.2 = 40 → e.1 = d_unknown)) := by
  decide

open flags_names_t in
/-- C25: the EFLAGS bit positions. The enumerators of `flags_names_t` have the
values `F_CF=0, F_PF=2, F_AF=4, F_ZF=6, F_SF=7, F_TF=8, F_IF=9, F_DF=10, F_OF=11,
F_IOPL=12, F_NT=14, F_RF=16, F_VM=17, F_AC=18, F_VIF=19, F_VIP=20, F_ID=21`, and
for every field of the bit-field of `x86flags_t`, laid out from bit 0 upwards with
`IOPL` on the two bits 12 and 13, the value of the enumerator of the same name is
the bit offset of the field. -/
theorem flags_names_bit_positions :
    (enumValues flags_names_decl 0).map (fun e => e.2) = List.range 12 ++ [12] ++
      [14, 15, 16, 17, 18, 19, 20, 21, 22] ∧
    enumValue flags_names_decl F_CF = some 0 ∧ enumValue flags_names_decl F_PF = some 2 ∧
    enumValue flags_names_decl F_AF = some 4 ∧ enumValue flags_names_decl F_ZF = some 6 ∧
    enumValue flags_names_decl F_SF = some 7 ∧ enumValue flags_names_decl F_TF = some 8 ∧
    enumValue flags_names_decl F_IF = some 9 ∧ enumValue flags_names_decl F_DF = some 10 ∧
    enumValue flags_names_decl F_OF = some 11 ∧
    enumValue flags_names_decl F_IOPL = some 12 ∧
    enumValue flags_names_decl F_NT = some 14 ∧ enumValue flags_names_decl F_RF = some 16 ∧
    enumValue flags_names_decl F_VM = some 17 ∧ enumValue flags_names_decl F_AC = some 18 ∧
    enumValue flags_names_decl F_VIF = some 19 ∧
    enumValue flags_names_decl F_VIP = some 20 ∧
    enumValue flags_names_decl F_ID = some 21 ∧
    (∀ f ∈ x86flags_fields,
      bitOffset x86flags_fields f.1 = enumValue flags_names_decl f.1 ∧
      (bitOffset x86flags_fields f.1).isSome) ∧
    bitOffset x86flags_fields F_IOPL = some 12 ∧
    x86flags_fields.lookup F_IOPL = some 2 ∧
    bitOffset x86flags_fields F_NT = some 14 := by
  decide

/-! ## The no-linker path and the mutexes -/

/-- C26: with `nolinker != 0`, `AllocDynarecMap(ctx, size, nolinker)` makes one
call to the outside, the `mmap` of exactly `size` bytes (the `int` taken as a
`size_t`, with no rounding to 16), returns the address of the mapping (0 when the
mapping failed), takes no mutex, and leaves the pool as it was: `mmapsize` and
the base and offset of every slab are unchanged, as is the dynamic map. -/
theorem AllocDynarecMap_nolinker (ctx : box86context_t) (size : Int) (nolinker : Int)
    (p : Nat) (hnl : nolinker ≠ 0) :
    AllocDynarecMap_events ctx size nolinker = [AllocEvent.mmap (toU32 size)] ∧
    (0 ≤ size → size < 4294967296 → (toU32 size : Int) = size) ∧
    (p ≠ MAP_FAILED → (AllocDynarecMap ctx size nolinker p).1 = p) ∧
    (p = MAP_FAILED → (AllocDynarecMap ctx size nolinker p).1 = 0) ∧
    (AllocDynarecMap ctx size nolinker p).2.mmapsize = ctx.mmapsize ∧
    (∀ i, (AllocDynarecMap ctx size nolinker p).2.mmaplist i = ctx.mmaplist i) ∧
    (AllocDynarecMap ctx size nolinker p).2.dynmap = ctx.dynmap ∧
    AllocEvent.lock_mutex_mmap ∉ AllocDynarecMap_events ctx size nolinker ∧
    AllocEvent.unlock_mutex_mmap ∉ AllocDynarecMap_events ctx size nolinker := by
  have hev : AllocDynarecMap_events ctx size nolinker = [AllocEvent.mmap (toU32 size)] := by
    simp [AllocDynarecMap_events, hnl]
  refine ⟨hev, toU32_of_nonneg size, ?_, ?_, ?_, ?_, ?_, ?_, ?_⟩
  · intro hp
    simp [AllocDynarecMap, hnl, hp]
  · intro hp
    simp [AllocDynarecMap, hnl, hp]
  · by_cases hp : p = MAP_FAILED <;> simp [AllocDynarecMap, hnl, hp]
  · intro i
    by_cases hp : p = MAP_FAILED <;> simp [AllocDynarecMap, hnl, hp]
  · by_cases hp : p = MAP_FAILED <;> simp [AllocDynarecMap, hnl, hp]
  · rw [hev]; simp
  · rw [hev]; simp

/-- C26 at a concrete input: a request of 100 bytes with `nolinker = 1` on
`poolOneSlab` asks `mmap` for 100 bytes, not 112, and returns its address. -/
theorem AllocDynarecMap_nolinker_witness :
    (1 : Int) ≠ 0 ∧
    AllocDynarecMap_events poolOneSlab 100 1 = [AllocEvent.mmap 100] ∧
    (AllocDynarecMap poolOneSlab 100 1 0x30000000).1 = 0x30000000 ∧
    (AllocDynarecMap poolOneSlab 100 1 0x30000000).2.mmapsize = 1 ∧
    (AllocDynarecMap poolOneSlab 100 1 0x30000000).2.mmaplist 0 =
      { block := 0x10000000, offset := 224 } := by
  have h := AllocDynarecMap_nolinker poolOneSlab 100 1 0x30000000 (by decide)
  refine ⟨by decide, ?_, h.2.2.1 (by decide), h.2.2.2.2.1, ?_⟩
  · rw [h.1]; decide
  · rw [h.2.2.2.2.2.1 0]; decide

/-- C27 fails as stated: the execution of
`addDBFromAddressRange(ctx, 0x8048000, 0x4000)` on the all-empty map reads and
writes slot `0x0804` and never acquires `mutex_blocks`: its first event is the
read of the slot. -/
theorem addDBFromAddressRange_takes_no_lock :
    addDBFromAddressRange_events zeroContext 0x8048000 0x4000 =
      [DynmapEvent.readSlot 0x0804, DynmapEvent.writeSlot 0x0804] ∧
    (addDBFromAddressRange_events zeroContext 0x8048000 0x4000).head? ≠
      some DynmapEvent.lock_mutex_blocks ∧
    DynmapEvent.lock_mutex_blocks ∉
      addDBFromAddressRange_events zeroContext 0x8048000 0x4000 := by
  decide

theorem addDBLoop_events_slots :
    ∀ (n i : Nat) (ctx : box86context_t),
      ∀ e ∈ addDBLoop_events n i ctx,
        ∃ j, i ≤ j ∧ j < i + n ∧ (e = DynmapEvent.readSlot j ∨ e = DynmapEvent.writeSlot j) := by
  intro n
  induction n with
  | zero => intro i ctx e he; simp [addDBLoop_events] at he
  | succ n ih =>
    intro i ctx e he
    simp only [addDBLoop_events, List.mem_append] at he
    rcases he with he | he
    · refine ⟨i, le_refl _, by omega, ?_⟩
      unfold addDBSlot_events at he
      cases hd : ctx.dynmap i with
      | none =>
        rw [hd] at he
        simp only [List.mem_cons, List.mem_singleton, List.mem_nil_iff, or_false] at he
        exact he
      | some d =>
        rw [hd] at he
        simp only [List.mem_singleton] at he
        exact Or.inl he
    · obtain ⟨j, h1, h2, h3⟩ := ih (i + 1) _ e he
      exact ⟨j, by omega, by omega, h3⟩

/-- C27, amended: `addDBFromAddressRange` does not take the blocks mutex. No
execution acquires or releases `mutex_blocks`: every event of
`addDBFromAddressRange(ctx, addr, size)` is the read or the write of a slot of the
index interval `[addr>>16, (addr+size)>>16]`, the slots being read, and written
where empty, without a lock; serialising the call with other users of the dynamic
map is left to the caller. -/
theorem addDBFromAddressRange_events_unlocked (ctx : box86context_t) (addr size : Nat) :
    DynmapEvent.lock_mutex_blocks ∉ addDBFromAddressRange_events ctx addr size ∧
    DynmapEvent.unlock_mutex_blocks ∉ addDBFromAddressRange_events ctx addr size ∧
    ∀ e ∈ addDBFromAddressRange_events ctx addr size,
      ∃ j, addr >>> 16 ≤ j ∧ j ≤ ((addr + size) % 4294967296) >>> 16 ∧
        (e = DynmapEvent.readSlot j ∨ e = DynmapEvent.writeSlot j) := by
  have hall : ∀ e ∈ addDBFromAddressRange_events ctx addr size,
      ∃ j, addr >>> 16 ≤ j ∧ j ≤ ((addr + size) % 4294967296) >>> 16 ∧
        (e = DynmapEvent.readSlot j ∨ e = DynmapEvent.writeSlot j) := by
    intro e he
    unfold addDBFromAddressRange_events at he
    obtain ⟨j, h1, h2, h3⟩ := addDBLoop_events_slots _ _ _ e he
    exact ⟨j, h1, by omega, h3⟩
  refine ⟨?_, ?_, hall⟩
  · intro hmem
    obtain ⟨j, _, _, h3⟩ := hall _ hmem
    rcases h3 with h3 | h3 <;> cases h3
  · intro hmem
    obtain ⟨j, _, _, h3⟩ := hall _ hmem
    rcases h3 with h3 | h3 <;> cases h3

/-! ## `getrand` -/

/-- C28, the code at the failing inputs: `getrand(4)` returns 4 and `getrand(255)`
returns 255 when `random()` returns `0x7fff` (the low 15 bits all ones), and in
the other branch `getrand(1024)` returns 1024 when `random()` returns `RAND_MAX`:
the bound `maxval` is reached. -/
theorem getrand_reaches_maxval :
    (0x7fff ≤ RAND_MAX ∧ getrand 4 0x7fff = 4 ∧ ¬ getrand 4 0x7fff < 4) ∧
    (getrand 255 0x7fff = 255 ∧ ¬ getrand 255 0x7fff < 255) ∧
    (getrand 1024 RAND_MAX = 1024 ∧ ¬ getrand 1024 RAND_MAX < 1024) := by
  decide

/-- For `1 <= maxval` and a value `r` of `random()` that is not at the top of its
range (`r & 0x7fff != 0x7fff` in the branch `maxval < 1024`, `r != RAND_MAX` in the
other), `0 <= getrand(maxval) < maxval`. -/
theorem getrand_lt_maxval (maxval : Int) (r : Nat) (h1 : 1 ≤ maxval)
    (hm : maxval ≤ 2147483647) (hr : r ≤ RAND_MAX)
    (htop : if maxval < 1024 then r &&& 0x7fff ≠ 0x7fff else r ≠ RAND_MAX) :
    0 ≤ getrand maxval r ∧ getrand maxval r < maxval := by
  unfold getrand
  by_cases hb : maxval < 1024
  · rw [if_pos hb] at htop ⊢
    have hx : r &&& 0x7fff ≤ 0x7fff := Nat.and_le_right
    have hx2 : r &&& 0x7fff ≤ 0x7ffe := by omega
    generalize r &&& 0x7fff = x at hx hx2 htop
    have hprod0 : 0 ≤ (x : Int) * maxval := by positivity
    have hprod1 : (x : Int) * maxval ≤ 32766 * maxval :=
      mul_le_mul_of_nonneg_right (by omega) (by omega)
    have hw1 : wrapInt32 ((x : Int) * maxval) = (x : Int) * maxval :=
      wrapInt32_of_range _ (by omega) (by omega)
    rw [hw1, Int.tdiv_eq_ediv hprod0 (by decide)]
    have hq0 : 0 ≤ (x : Int) * maxval / 0x7fff := Int.ediv_nonneg hprod0 (by decide)
    have hq1 : (x : Int) * maxval / 0x7fff < maxval := by
      apply Int.ediv_lt_of_lt_mul (by decide)
      omega
    rw [wrapInt32_of_range _ (by omega) (by omega)]
    exact ⟨hq0, hq1⟩
  · rw [if_neg hb] at htop ⊢
    have hmod : (maxval % 18446744073709551616).toNat = maxval.toNat := by omega
    rw [hmod]
    obtain ⟨m, hmeq⟩ : ∃ m : Nat, maxval = (m : Int) := ⟨maxval.toNat, by omega⟩
    subst hmeq
    simp only [Int.toNat_ofNat]
    have hR : RAND_MAX = 2147483647 := rfl
    have hrlt : r < 2147483647 := by rw [hR] at hr htop; omega
    have hmpos : 0 < m := by omega
    have hmle : m ≤ 2147483647 := by omega
    have hprod : r * m < 2147483647 * m := Nat.mul_lt_mul_of_pos_right hrlt hmpos
    have hbig : r * m < 18446744073709551616 := by
      have : 2147483647 * m ≤ 2147483647 * 2147483647 := Nat.mul_le_mul_left _ hmle
      omega
    rw [Nat.mod_eq_of_lt hbig, hR]
    have hq : r * m / 2147483647 < m := by
      apply Nat.div_lt_of_lt_mul
      omega
    have hcast : (0 : Int) ≤ ((r * m / 2147483647 : Nat) : Int) := Int.ofNat_nonneg _
    rw [wrapInt32_of_range _ (by omega) (by omega)]
    exact ⟨hcast, by exact_mod_cast hq⟩

/-- The bound at a concrete input: `getrand(255)` for the value `0x7ffe`. -/
theorem getrand_lt_maxval_witness :
    0 ≤ getrand 255 0x7ffe ∧ getrand 255 0x7ffe < 255 :=
  getrand_lt_maxval 255 0x7ffe (by decide) (by decide) (by decide) (by decide)

/-! ## ELF header registry -/

theorem AddElfHeader_step (ctx : box86context_t) (m : Nat) (head : Nat)
    (hinv : ElfInv ctx m) (hm : m + 16 ≤ 2147483647) :
    (AddElfHeader ctx head).1 = (m : Int) ∧
    ElfInv (AddElfHeader ctx head).2 (m + 1) ∧
    (AddElfHeader ctx head).2.elfs m = head ∧
    (m : Int) < (AddElfHeader ctx head).2.elfcap ∧
    ∀ j, j ≠ m → (AddElfHeader ctx head).2.elfs j = ctx.elfs j := by
  obtain ⟨h1, h2, h3, h4⟩ := hinv
  have hidx : ctx.elfsize.toNat = m := by rw [h1]; exact Int.toNat_ofNat m
  have hw : wrapInt32 (ctx.elfsize + 1) = (m : Int) + 1 := by
    rw [h1]; exact wrapInt32_of_range _ (by omega) (by omega)
  by_cases hfull : ctx.elfsize = ctx.elfcap
  · have hc : wrapInt32 (ctx.elfcap + 16) = (m : Int) + 16 := by
      rw [← hfull, h1]; exact wrapInt32_of_range _ (by omega) (by omega)
    have hcap : (AddElfHeader ctx head).2.elfcap = (m : Int) + 16 := by
      simp only [AddElfHeader, if_pos hfull, hc]
    refine ⟨?_, ⟨?_, ?_, ?_, ?_⟩, ?_, ?_, ?_⟩
    · simp only [AddElfHeader]; exact h1
    · simp only [AddElfHeader, if_pos hfull, hw]; push_cast; rfl
    · rw [hcap]; simp only [AddElfHeader, if_pos hfull, hw]; omega
    · rw [hcap]; rw [← hfull, h1] at h3; omega
    · rw [hcap]; push_cast; omega
    · simp only [AddElfHeader, if_pos hfull, hidx, Function.update_same]
    · rw [hcap]; omega
    · intro j hj
      simp only [AddElfHeader, if_pos hfull, hidx, Function.update_noteq hj]
  · have hcap : (AddElfHeader ctx head).2.elfcap = ctx.elfcap := by
      simp only [AddElfHeader, if_neg hfull]
    refine ⟨?_, ⟨?_, ?_, ?_, ?_⟩, ?_, ?_, ?_⟩
    · simp only [AddElfHeader]; exact h1
    · simp only [AddElfHeader, if_neg hfull, hw]; push_cast; rfl
    · rw [hcap]; simp only [AddElfHeader, if_neg hfull, hw]; omega
    · rw [hcap]; exact h3
    · rw [hcap]; push_cast; omega
    · simp only [AddElfHeader, if_neg hfull, hidx, Function.update_same]
    · rw [hcap]; omega
    · intro j hj
      simp only [AddElfHeader, if_neg hfull, hidx, Function.update_noteq hj]

theorem runAddElfHeader_spec (heads : List Nat) :
    ∀ (ctx : box86context_t) (m : Nat), ElfInv ctx m →
      m + heads.length + 15 ≤ 2147483647 →
      addElfHeaderResults ctx heads =
        (List.range heads.length).map (fun (k : Nat) => ((m + k : Nat) : Int)) ∧
      ElfInv (runAddElfHeader ctx heads) (m + heads.length) ∧
      (∀ j, j < heads.length →
        (runAddElfHeader ctx heads).elfs (m + j) = heads.getD j 0) ∧
      (∀ j, j < m → (runAddElfHeader ctx heads).elfs j = ctx.elfs j) := by
  induction heads with
  | nil =>
    intro ctx m hinv _
    refine ⟨rfl, hinv, ?_, fun _ _ => rfl⟩
    intro j hj
    simp at hj
  | cons h hs ih =>
    intro ctx m hinv hlen
    simp only [List.length_cons] at hlen ⊢
    obtain ⟨s1, s2, s3, _, s5⟩ := AddElfHeader_step ctx m h hinv (by omega)
    obtain ⟨r1, r2, r3, r4⟩ := ih (AddElfHeader ctx h).2 (m + 1) s2 (by omega)
    refine ⟨?_, ?_, ?_, ?_⟩
    · simp only [addElfHeaderResults]
      rw [s1, r1, List.range_succ_eq_map, List.map_cons, List.map_map]
      congr 1
      apply List.map_congr_left
      intro k _
      simp only [Function.comp]
      congr 1
      omega
    · simp only [runAddElfHeader]
      have e : m + (hs.length + 1) = m + 1 + hs.length := by omega
      rw [e]
      exact r2
    · intro j hj
      simp only [runAddElfHeader]
      cases j with
      | zero =>
        rw [Nat.add_zero, r4 m (by omega)]
        simpa using s3
      | succ j =>
        have e : m + (j + 1) = m + 1 + j := by omega
        rw [e, r3 j (by omega)]
        rfl
    · intro j hj
      simp only [runAddElfHeader]
      rw [r4 j (by omega), s5 j (by omega)]

/-- C30: starting from `elfsize = elfcap = 0` (`realloc` succeeding, so that the
number of headers stays in the range of `int`), for every sequence of
`AddElfHeader` calls the `k`-th call, counting from 0, returns `k`; after the
calls `elfsize` is their number, `elfs[j]` is the `j`-th header added for every
`j < elfsize`, `elfsize <= elfcap` holds and `elfcap` is a multiple of 16; the
sequence being arbitrary, this holds after each call. The store `elfs[idx]` of
the call number `k` is inside the allocated array: `k` is less than the `elfcap`
that call leaves. -/
theorem AddElfHeader_registry (ctx : box86context_t) (heads : List Nat)
    (hsize : ctx.elfsize = 0) (hcap : ctx.elfcap = 0)
    (hlen : heads.length + 15 ≤ 2147483647) :
    addElfHeaderResults ctx heads =
      (List.range heads.length).map (fun (k : Nat) => (k : Int)) ∧
    (runAddElfHeader ctx heads).elfsize = (heads.length : Int) ∧
    (∀ j, j < heads.length → (runAddElfHeader ctx heads).elfs j = heads.getD j 0) ∧
    (runAddElfHeader ctx heads).elfsize ≤ (runAddElfHeader ctx heads).elfcap ∧
    (runAddElfHeader ctx heads).elfcap % 16 = 0 ∧
    (∀ k, k < heads.length →
      (k : Int) < (runAddElfHeader ctx (heads.take (k + 1))).elfcap) := by
  have hinv : ElfInv ctx 0 := by
    refine ⟨by simpa using hsize, by rw [hsize, hcap], by rw [hcap]; decide, ?_⟩
    rw [hcap]; decide
  obtain ⟨r1, r2, r3, _⟩ := runAddElfHeader_spec heads ctx 0 hinv (by omega)
  simp only [Nat.zero_add] at r1 r2 r3
  refine ⟨r1, r2.1, r3, r2.2.1, r2.2.2.1, ?_⟩
  intro k hk
  have hlk : (heads.take (k + 1)).length = k + 1 := by
    rw [List.length_take]; omega
  obtain ⟨_, p2, _, _⟩ := runAddElfHeader_spec (heads.take (k + 1)) ctx 0 hinv (by omega)
  rw [hlk] at p2
  have q1 := p2.1
  have q2 := p2.2.1
  push_cast at q1
  omega

set_option maxRecDepth 8192 in
/-- C30 at a concrete input: 17 headers `100, ..., 116` added to the zeroed
context: the calls return `0, ..., 16`, `elfcap` has grown to 32 and `elfs[16]`
is the last header. -/
theorem AddElfHeader_registry_witness :
    (zeroContext.elfsize = 0 ∧ zeroContext.elfcap = 0) ∧
    addElfHeaderResults zeroContext ((List.range 17).map (fun k => k + 100)) =
      (List.range 17).map (fun (k : Nat) => (k : Int)) ∧
    (runAddElfHeader zeroContext ((List.range 17).map (fun k => k + 100))).elfsize = 17 ∧
    (runAddElfHeader zeroContext ((List.range 17).map (fun k => k + 100))).elfcap = 32 ∧
    (runAddElfHeader zeroContext ((List.range 17).map (fun k => k + 100))).elfs 16 = 116 := by
  have h := AddElfHeader_registry zeroContext ((List.range 17).map (fun k => k + 100))
    rfl rfl (by simp)
  refine ⟨⟨rfl, rfl⟩, ?_, ?_, by decide, ?_⟩
  · rw [h.1]; rfl
  · rw [h.2.1]; rfl
  · rw [h.2.2.1 16 (by decide)]; rfl

/-! ## `FCOM` and `FCOMI` -/

theorem fcom_bits (sw code : Nat) (hsw : sw < 65536) (hcode : code < 65536) :
    ((sw &&& (0x4700 ^^^ 0xffffffff)) ||| code) % 65536 =
      (sw &&& (0xffff ^^^ 0x4700)) ||| code := by
  apply Nat.eq_of_testBit_eq
  intro i
  have e : (65536 : Nat) = 2 ^ 16 := by norm_num
  rw [e, Nat.testBit_mod_two_pow, Nat.testBit_or, Nat.testBit_or, Nat.testBit_and,
    Nat.testBit_and]
  by_cases hi : i < 16
  · interval_cases i <;> simp [Nat.testBit, Nat.shiftRight_eq_div_pow]
  · have h1 : sw.testBit i = false :=
      Nat.testBit_lt_two_pow (lt_of_lt_of_le (by simpa using hsw)
        (Nat.pow_le_pow_right (by decide) (by omega : 16 ≤ i)))
    have h2 : code.testBit i = false :=
      Nat.testBit_lt_two_pow (lt_of_lt_of_le (by simpa using hcode)
        (Nat.pow_le_pow_right (by decide) (by omega : 16 ≤ i)))
    simp [hi, h1, h2]

theorem fcom_bits_kept (sw code i : Nat) (hcode : code = 0x4500 ∨ code = 0x4000 ∨
    code = 0 ∨ code = 0x0100) (h8 : i ≠ 8) (h9 : i ≠ 9) (h10 : i ≠ 10) (h14 : i ≠ 14) :
    ((sw &&& (0xffff ^^^ 0x4700)) ||| code).testBit i = (decide (i < 16) && sw.testBit i) := by
  rw [Nat.testBit_or, Nat.testBit_and]
  by_cases hi : i < 16
  · rcases hcode with h | h | h | h <;> subst h <;>
      interval_cases i <;> simp [Nat.testBit, Nat.shiftRight_eq_div_pow] at *
  · have hm : Nat.testBit 47359 i = false :=
      Nat.testBit_lt_two_pow (lt_of_lt_of_le (by decide : (47359 : Nat) < 2 ^ 16)
        (Nat.pow_le_pow_right (by decide) (by omega : 16 ≤ i)))
    have hc : code.testBit i = false := by
      apply Nat.testBit_lt_two_pow
      refine lt_of_lt_of_le (?_ : code < 2 ^ 16)
        (Nat.pow_le_pow_right (by decide) (by omega : 16 ≤ i))
      rcases hcode with h | h | h | h <;> subst h <;> decide
    simp [hi, hm, hc]

theorem runArm_FCOM (hr : HostRegs) (s1 s2 : Nat) (st : ArmState) (o : FCmp)
    (h12 : s1 ≠ s2) (h1e : s1 ≠ hr.xEmu) (h2e : s2 ≠ hr.xEmu)
    (hemu : st.regs hr.xEmu = st.emuAddr) (hcmp : st.fpscr = vcmpFlags o) :
    ∃ st1, runArm (FCOM hr s1 s2) st = some st1 ∧
      st1.emu.df = st.emu.df ∧ st1.emu.flags = st.emu.flags ∧
      st1.emu.sw =
        ((st.emu.sw % 65536 &&& (0x4700 ^^^ 0xffffffff)) |||
          (if o = FCmp.unordered then 0x4500 else if o = FCmp.equal then 0x4000
            else if o = FCmp.greater then 0x0000 else 0x0100)) % 65536 := by
  have h21 : s2 ≠ s1 := Ne.symm h12
  have he1 : hr.xEmu ≠ s1 := Ne.symm h1e
  have he2 : hr.xEmu ≠ s2 := Ne.symm h2e
  cases o <;>
  · simp only [FCOM, runArm, execArm, hcmp, hemu, vcmpFlags, condHolds, shiftedReg,
      Function.update_same, Function.update_noteq h12, Function.update_noteq h21,
      Function.update_noteq he1, Function.update_noteq he2, if_true,
      Bool.not_true, Bool.not_false, Bool.false_and, Bool.true_and, Bool.and_true,
      Bool.and_false, if_false, beq_self_eq_true, Nat.shiftLeft_zero]
    simp [Function.update, h12, h21, he1, he2, hemu]

/-- C21: `FCOM(s1, s2)`, emitted with two distinct scratch registers other than
`xEmu` and run after a host comparison with outcome `o` (unordered: C and V;
equal: Z and C; greater: C; less: N) while `xEmu` holds the address of the guest
state, has the four conditional moves `VS`, `EQ`, `GT`, `LO`, of which exactly one
fires; it runs to the end and leaves the status word `(sw & ~0x4700) | code` with
code `0x4500`, `0x4000`, `0x0000`, `0x0100` for unordered, equal, greater, less;
every bit of the status word other than 8, 9, 10 and 14 (C0, C1, C2, C3) is
unchanged, and so are `df` and the flags. -/
theorem FCOM_status_word (hr : HostRegs) (s1 s2 : Nat) (st : ArmState) (o : FCmp)
    (h12 : s1 ≠ s2) (h1e : s1 ≠ hr.xEmu) (h2e : s2 ≠ hr.xEmu)
    (hemu : st.regs hr.xEmu = st.emuAddr) (hcmp : st.fpscr = vcmpFlags o)
    (hsw : st.emu.sw < 65536) :
    condMoves (FCOM hr s1 s2) = [ArmCond.cVS, ArmCond.cEQ, ArmCond.cGT, ArmCond.cLO] ∧
    firedMoves (FCOM hr s1 s2) (vcmpFlags o) = 1 ∧
    ∃ st1, runArm (FCOM hr s1 s2) st = some st1 ∧
      st1.emu.sw =
        ((st.emu.sw &&& (0xffff ^^^ 0x4700)) |||
          (if o = FCmp.unordered then 0x4500 else if o = FCmp.equal then 0x4000
            else if o = FCmp.greater then 0x0000 else 0x0100)) ∧
      (∀ i, i ≠ 8 → i ≠ 9 → i ≠ 10 → i ≠ 14 →
        st1.emu.sw.testBit i = st.emu.sw.testBit i) ∧
      st1.emu.df = st.emu.df ∧ st1.emu.flags = st.emu.flags := by
  refine ⟨rfl, by cases o <;> rfl, ?_⟩
  obtain ⟨st1, hrun, hdf, hfl, hs⟩ := runArm_FCOM hr s1 s2 st o h12 h1e h2e hemu hcmp
  rw [Nat.mod_eq_of_lt hsw] at hs
  have hs2 : st1.emu.sw =
      ((st.emu.sw &&& (0xffff ^^^ 0x4700)) |||
        (if o = FCmp.unordered then 0x4500 else if o = FCmp.equal then 0x4000
          else if o = FCmp.greater then 0x0000 else 0x0100)) := by
    rw [hs]
    apply fcom_bits _ _ hsw
    cases o <;> decide
  refine ⟨st1, hrun, hs2, ?_, hdf, hfl⟩
  intro i h8 h9 h10 h14
  rw [hs2, fcom_bits_kept _ _ i (by cases o <;> simp) h8 h9 h10 h14]
  by_cases hi : i < 16
  · simp [hi]
  · have : st.emu.sw.testBit i = false :=
      Nat.testBit_lt_two_pow (lt_of_lt_of_le (by simpa using hsw)
        (Nat.pow_le_pow_right (by decide) (by omega : 16 ≤ i)))
    simp [hi, this]

/-- C21 at a concrete input: with `xEmu` r0, scratch registers r1 and r2, the
status word `0xffff` and an equal comparison, `FCOM` leaves the status word
`0xf8ff`: C3 set, C0, C1 and C2 clear, the other bits as they were. -/
theorem FCOM_status_word_witness :
    (1 : Nat) ≠ 2 ∧ exampleArmState.emu.sw < 65536 ∧
    firedMoves (FCOM exampleRegs 1 2) (vcmpFlags FCmp.equal) = 1 ∧
    ∃ st1, runArm (FCOM exampleRegs 1 2) exampleArmState = some st1 ∧
      st1.emu.sw = 0xf8ff := by
  have h := FCOM_status_word exampleRegs 1 2 exampleArmState FCmp.equal (by decide)
    (by decide) (by decide) (by decide) rfl (by decide)
  obtain ⟨st1, hrun, hs, _⟩ := h.2.2
  exact ⟨by decide, by decide, h.2.1, st1, hrun, by rw [hs]; decide⟩

theorem runArm_FCOMI (hr : HostRegs) (s1 s2 : Nat) (st : ArmState) (o : FCmp)
    (h12 : s1 ≠ s2) (h1e : s1 ≠ hr.xEmu) (h2e : s2 ≠ hr.xEmu)
    (hemu : st.regs hr.xEmu = st.emuAddr) (hcmp : st.fpscr = vcmpFlags o) :
    ∃ st1, runArm (FCOMI hr s1 s2) st = some st1 ∧
      st1.emu.sw = st.emu.sw ∧ st1.emu.df = 0 ∧
      st1.emu.flags =
        Function.update (Function.update (Function.update st.emu.flags
          flags_names_t.F_CF (if o = FCmp.unordered ∨ o = FCmp.less then 1 else 0))
          flags_names_t.F_PF (if o = FCmp.unordered then 1 else 0))
          flags_names_t.F_ZF (if o = FCmp.unordered ∨ o = FCmp.equal then 1 else 0) := by
  have h21 : s2 ≠ s1 := Ne.symm h12
  have he1 : hr.xEmu ≠ s1 := Ne.symm h1e
  have he2 : hr.xEmu ≠ s2 := Ne.symm h2e
  have hd : (enumValue defered_flags_decl defered_flags_t.d_none).getD 0 = 0 := by decide
  cases o <;>
  · simp only [FCOMI, runArm, execArm, hcmp, hemu, hd, vcmpFlags, condHolds, shiftedReg,
      Function.update_same, Function.update_noteq h12, Function.update_noteq h21,
      Function.update_noteq he1, Function.update_noteq he2, if_true,
      Bool.not_true, Bool.not_false, Bool.false_and, Bool.true_and, Bool.and_true,
      Bool.and_false, if_false, beq_self_eq_true, Nat.shiftLeft_zero]
    simp [Function.update, h12, h21, he1, he2, hemu]

/-- C22: `FCOMI(s1, s2)`, emitted with two distinct scratch registers other than
`xEmu` and run after a host comparison with outcome `o` while `xEmu` holds the
address of the guest state, has the four conditional moves `VS`, `EQ`, `GT`, `LO`,
of which exactly one fires; it runs to the end and stores
`(flags[F_CF], flags[F_PF], flags[F_ZF])` = `(1,1,1)` for unordered, `(0,0,1)` for
equal, `(0,0,0)` for greater and `(1,0,0)` for less, each value 0 or 1, and sets
`df` to `d_none`, which is 0; the other flags and the status word are unchanged. -/
theorem FCOMI_flags (hr : HostRegs) (s1 s2 : Nat) (st : ArmState) (o : FCmp)
    (h12 : s1 ≠ s2) (h1e : s1 ≠ hr.xEmu) (h2e : s2 ≠ hr.xEmu)
    (hemu : st.regs hr.xEmu = st.emuAddr) (hcmp : st.fpscr = vcmpFlags o) :
    condMoves (FCOMI hr s1 s2) = [ArmCond.cVS, ArmCond.cEQ, ArmCond.cGT, ArmCond.cLO] ∧
    firedMoves (FCOMI hr s1 s2) (vcmpFlags o) = 1 ∧
    ∃ st1, runArm (FCOMI hr s1 s2) st = some st1 ∧
      (st1.emu.flags flags_names_t.F_CF, st1.emu.flags flags_names_t.F_PF,
          st1.emu.flags flags_names_t.F_ZF) =
        (if o = FCmp.unordered then (1, 1, 1) else if o = FCmp.equal then (0, 0, 1)
          else if o = FCmp.greater then (0, 0, 0) else (1, 0, 0)) ∧
      st1.emu.flags flags_names_t.F_CF ≤ 1 ∧ st1.emu.flags flags_names_t.F_PF ≤ 1 ∧
      st1.emu.flags flags_names_t.F_ZF ≤ 1 ∧
      enumValue defered_flags_decl defered_flags_t.d_none = some 0 ∧
      st1.emu.df = 0 ∧
      (∀ f, f ≠ flags_names_t.F_CF → f ≠ flags_names_t.F_PF → f ≠ flags_names_t.F_ZF →
        st1.emu.flags f = st.emu.flags f) ∧
      st1.emu.sw = st.emu.sw := by
  refine ⟨rfl, by cases o <;> rfl, ?_⟩
  obtain ⟨st1, hrun, hs, hdf, hfl⟩ := runArm_FCOMI hr s1 s2 st o h12 h1e h2e hemu hcmp
  refine ⟨st1, hrun, ?_, ?_, ?_, ?_, by decide, hdf, ?_, hs⟩
  · rw [hfl]; cases o <;> simp [Function.update]
  · rw [hfl]; cases o <;> simp [Function.update]
  · rw [hfl]; cases o <;> simp [Function.update]
  · rw [hfl]; cases o <;> simp [Function.update]
  · intro f h1 h2 h3
    rw [hfl]
    simp [Function.update, h1, h2, h3]

/-- C22 at a concrete input: with `xEmu` r0, scratch registers r1 and r2, all
flags 7 and `df` 36 before, and an equal comparison, `FCOMI` leaves
`(CF, PF, ZF) = (0, 0, 1)` and `df = 0`. -/
theorem FCOMI_flags_witness :
    (1 : Nat) ≠ 2 ∧ exampleArmState.fpscr = vcmpFlags FCmp.equal ∧
    ∃ st1, runArm (FCOMI exampleRegs 1 2) exampleArmState = some st1 ∧
      (st1.emu.flags flags_names_t.F_CF, st1.emu.flags flags_names_t.F_PF,
          st1.emu.flags flags_names_t.F_ZF) = (0, 0, 1) ∧
      st1.emu.df = 0 := by
  have h := FCOMI_flags exampleRegs 1 2 exampleArmState FCmp.equal (by decide)
    (by decide) (by decide) (by decide) rfl
  obtain ⟨st1, hrun, hf, _, _, _, _, hdf, _⟩ := h.2.2
  exact ⟨by decide, rfl, st1, hrun, by rw [hf]; decide, hdf⟩

/-! ## Operand decoding -/

theorem reg_field_eq (nextop : Nat) : (nextop &&& 0x38) >>> 3 = (nextop >>> 3) &&& 7 := by
  apply Nat.eq_of_testBit_eq
  intro i
  rw [Nat.testBit_shiftRight, Nat.testBit_and, Nat.testBit_and, Nat.testBit_shiftRight]
  by_cases hi : i < 3
  · interval_cases i <;> simp [Nat.testBit, Nat.shiftRight_eq_div_pow]
  · have h1 : Nat.testBit 0x38 (3 + i) = false :=
      Nat.testBit_lt_two_pow (lt_of_lt_of_le (by decide : (0x38 : Nat) < 2 ^ 6)
        (Nat.pow_le_pow_right (by decide) (by omega)))
    have h2 : Nat.testBit 7 i = false :=
      Nat.testBit_lt_two_pow (lt_of_lt_of_le (by decide : (7 : Nat) < 2 ^ 3)
        (Nat.pow_le_pow_right (by decide) (by omega)))
    simp [h1, h2]

theorem land7_eq_mod (n : Nat) : n &&& 7 = n % 8 := by
  have h : n &&& 7 = n % 2 ^ 3 := Nat.and_pow_two_sub_one_eq_mod n 3
  simpa using h

/-- C23: for a ModR/M byte with `(nextop & 0xC0) == 0xC0`, each of `GETED`,
`GETEDH(hint)` and `GETEDO(O)` sets `ed = xEAX + (nextop & 7)`, which is one of
`xEAX .. xEAX+7`, and `wback = 0`, leaves `addr` and the emitted code as they
were, and a following `WBACK` emits nothing. For every other `nextop`, `GETED`
calls `geted` (hint `x2`, `absmax` 4095), which sets `addr`, `wback` and
`fixedaddress`, then emits `LDR x1, [wback, #fixedaddress]` and sets `ed = x1`;
`GETEDH(hint)` does the same with the load into `hint` and `ed = hint`;
`GETEDO(O)` calls `geted` with `absmax` 0 and its load into `x1` is the
register-offset one, `LDR x1, [wback, O]`. `GETGD` sets
`gd = xEAX + ((nextop >> 3) & 7)` for every `nextop`. -/
theorem GETED_register_direct_policy (hr : HostRegs) (g : Geted) (nextop hint O : Nat)
    (ms : MacroState) :
    (nextop &&& 0xC0 = 0xC0 →
      GETED hr g nextop ms = { ms with ed := hr.xEAX + (nextop &&& 7), wback := 0 } ∧
      GETEDH hr g hint nextop ms = GETED hr g nextop ms ∧
      GETEDO hr g O nextop ms = GETED hr g nextop ms ∧
      (GETED hr g nextop ms).addr = ms.addr ∧
      (GETED hr g nextop ms).emitted = ms.emitted ∧
      (GETED hr g nextop ms).ed ≤ hr.xEAX + 7 ∧
      WBACK (GETED hr g nextop ms) = GETED hr g nextop ms ∧
      (WBACK (GETED hr g nextop ms)).emitted = ms.emitted) ∧
    (nextop &&& 0xC0 ≠ 0xC0 →
      (GETED hr g nextop ms).addr = (g ms.addr nextop hr.x2 4095 0).addr ∧
      (GETED hr g nextop ms).wback = (g ms.addr nextop hr.x2 4095 0).ed ∧
      (GETED hr g nextop ms).fixedaddress = (g ms.addr nextop hr.x2 4095 0).fixedaddress ∧
      (GETED hr g nextop ms).emitted =
        ms.emitted ++ (g ms.addr nextop hr.x2 4095 0).emitted ++
          [ArmInst.LDR_IMM9 hr.x1 (GETED hr g nextop ms).wback
            (Offset.imm (GETED hr g nextop ms).fixedaddress)] ∧
      (GETED hr g nextop ms).ed = hr.x1 ∧
      GETEDH hr g hint nextop ms =
        { callGeted g nextop (if hint = hr.x2 then hr.x1 else hr.x2) 4095 0 ms with
          emitted := (callGeted g nextop (if hint = hr.x2 then hr.x1 else hr.x2) 4095 0
              ms).emitted ++
            [ArmInst.LDR_IMM9 hint
              (callGeted g nextop (if hint = hr.x2 then hr.x1 else hr.x2) 4095 0 ms).wback
              (Offset.imm (callGeted g nextop (if hint = hr.x2 then hr.x1 else hr.x2) 4095 0
                ms).fixedaddress)]
          ed := hint } ∧
      GETEDO hr g O nextop ms =
        { callGeted g nextop hr.x2 0 0 ms with
          emitted := (callGeted g nextop hr.x2 0 0 ms).emitted ++
            [ArmInst.LDR_REG_LSL_IMM5 hr.x1 (callGeted g nextop hr.x2 0 0 ms).wback O 0]
          ed := hr.x1 }) ∧
    (GETGD hr nextop ms).gd = hr.xEAX + ((nextop >>> 3) &&& 7) ∧
    GETGD hr nextop ms = { ms with gd := hr.xEAX + ((nextop >>> 3) &&& 7) } := by
  refine ⟨?_, ?_, ?_, ?_⟩
  · intro h
    have h7 : nextop &&& 7 ≤ 7 := by rw [land7_eq_mod]; omega
    refine ⟨?_, ?_, ?_, ?_, ?_, ?_, ?_, ?_⟩ <;>
      simp [GETED, GETEDH, GETEDO, WBACK, h, h7]
  · intro h
    refine ⟨?_, ?_, ?_, ?_, ?_, ?_, ?_⟩ <;>
      simp [GETED, GETEDH, GETEDO, callGeted, emit, h]
  · simp [GETGD, reg_field_eq]
  · simp [GETGD, reg_field_eq]

/-- C23 at concrete inputs: for `nextop = 0xC3` (register-direct, `rm` 3) `GETED`
gives `ed = xEAX + 3 = 7` and `wback = 0` with nothing emitted, also after `WBACK`;
for `nextop = 0x45` the example `geted` is called and a load into `x1` follows,
and `WBACK` then emits the store; `GETGD` on `0xC8` gives `xEAX + 1`. -/
theorem GETED_register_direct_policy_witness :
    ((GETED exampleRegs exampleGeted 0xC3 exampleMacroState).ed = 7 ∧
      (GETED exampleRegs exampleGeted 0xC3 exampleMacroState).wback = 0 ∧
      (WBACK (GETED exampleRegs exampleGeted 0xC3 exampleMacroState)).emitted = []) ∧
    (WBACK (GETED exampleRegs exampleGeted 0x45 exampleMacroState)).emitted =
      [ArmInst.MOVW 2 0x1000, ArmInst.LDR_IMM9 1 2 (Offset.imm 8),
        ArmInst.STR_IMM9 1 2 (Offset.imm 8)] ∧
    (GETGD exampleRegs 0xC8 exampleMacroState).gd = 5 := by
  have h := GETED_register_direct_policy exampleRegs exampleGeted 0xC3 1 3 exampleMacroState
  have hd := h.1 (by decide)
  refine ⟨⟨?_, ?_, ?_⟩, by decide, by decide⟩
  · rw [hd.1]; decide
  · rw [hd.1]
  · rw [hd.2.2.2.2.2.2.2]; decide

theorem byte_lane_split (r : Nat) (hr8 : r < 8) :
    r &&& 3 = r % 4 ∧ r >>> 2 = r / 4 ∧ (r &&& 4) >>> 2 = r / 4 ∧ r / 4 ≤ 1 := by
  interval_cases r <;> decide

theorem bfiValue_byte_lane (d n lane : Nat) (hlane : lane ≤ 1) (hd : d < 4294967296) :
    bfiValue d n (lane * 8) 8 < 4294967296 ∧
    uxtbValue (bfiValue d n (lane * 8) 8) lane = n % 256 ∧
    (∀ l, l ≤ 3 → l ≠ lane → uxtbValue (bfiValue d n (lane * 8) 8) l = uxtbValue d l) := by
  have hl : lane = 0 ∨ lane = 1 := by omega
  rcases hl with h | h <;> subst h
  · refine ⟨?_, ?_, ?_⟩
    · simp only [bfiValue]; norm_num; omega
    · simp only [bfiValue, uxtbValue]; norm_num; omega
    · intro l hl3 hne
      have : l = 1 ∨ l = 2 ∨ l = 3 := by omega
      rcases this with h | h | h <;> subst h <;> simp only [bfiValue, uxtbValue] <;>
        norm_num <;> omega
  · refine ⟨?_, ?_, ?_⟩
    · simp only [bfiValue]; norm_num; omega
    · simp only [bfiValue, uxtbValue]; norm_num; omega
    · intro l hl3 hne
      have : l = 0 ∨ l = 2 ∨ l = 3 := by omega
      rcases this with h | h | h <;> subst h <;> simp only [bfiValue, uxtbValue] <;>
        norm_num <;> omega

/-- C29: for a ModR/M byte with `(nextop & 0xC0) == 0xC0` and `rm = nextop & 7`,
`GETEB(i)` and `GETSEB(i)` set `wback = xEAX + (rm & 3)`, one of `xEAX .. xEAX+3`,
and the byte lane `wb2 = rm >> 2`, which is 0 for `rm` 0..3 and 1 for `rm` 4..7,
with `wb1 = 0`, and emit the extraction of that lane (`UXTB`, `SXTB`) into `i`;
`EBBACK` then emits `BFI wback, ed, #8*wb2, #8` on that same register. `GETGB(i)`,
`GETSGB(i)` and `GBBACK` do the same with `gb1`, `gb2` for the field
`(nextop >> 3) & 7`, for every `nextop`. The `BFI` writes the low byte of its
source into lane `wb2` of a 32-bit register, the lane `UXTB` reads, and leaves the
other three byte lanes as they were. -/
theorem byte_register_decoding (hr : HostRegs) (g : Geted) (i nextop : Nat)
    (ms : MacroState) :
    (nextop &&& 0xC0 = 0xC0 →
      (GETEB hr g i nextop ms).wback = hr.xEAX + ((nextop &&& 7) &&& 3) ∧
      (GETEB hr g i nextop ms).wb2 = (nextop &&& 7) >>> 2 ∧
      (GETEB hr g i nextop ms).wb2 ≤ 1 ∧
      (nextop &&& 7 < 4 → (GETEB hr g i nextop ms).wb2 = 0 ∧
        (GETEB hr g i nextop ms).wback = hr.xEAX + (nextop &&& 7)) ∧
      (4 ≤ nextop &&& 7 → (GETEB hr g i nextop ms).wb2 = 1 ∧
        (GETEB hr g i nextop ms).wback = hr.xEAX + ((nextop &&& 7) - 4)) ∧
      hr.xEAX ≤ (GETEB hr g i nextop ms).wback ∧
      (GETEB hr g i nextop ms).wback ≤ hr.xEAX + 3 ∧
      (GETEB hr g i nextop ms).wb1 = 0 ∧ (GETEB hr g i nextop ms).ed = i ∧
      (GETEB hr g i nextop ms).emitted =
        ms.emitted ++ [ArmInst.UXTB i (hr.xEAX + ((nextop &&& 7) &&& 3))
          ((nextop &&& 7) >>> 2)] ∧
      GETSEB hr g i nextop ms =
        { GETEB hr g i nextop ms with
          emitted := ms.emitted ++ [ArmInst.SXTB i (hr.xEAX + ((nextop &&& 7) &&& 3))
            ((nextop &&& 7) >>> 2)] } ∧
      (EBBACK (GETEB hr g i nextop ms)).emitted =
        (GETEB hr g i nextop ms).emitted ++
          [ArmInst.BFI (hr.xEAX + ((nextop &&& 7) &&& 3)) i (((nextop &&& 7) >>> 2) * 8) 8] ∧
      (EBBACK (GETSEB hr g i nextop ms)).emitted =
        (GETSEB hr g i nextop ms).emitted ++
          [ArmInst.BFI (hr.xEAX + ((nextop &&& 7) &&& 3)) i (((nextop &&& 7) >>> 2) * 8) 8]) ∧
    ((GETGB hr i nextop ms).gb1 = hr.xEAX + (((nextop >>> 3) &&& 7) &&& 3) ∧
      (GETGB hr i nextop ms).gb2 = ((nextop >>> 3) &&& 7) >>> 2 ∧
      (GETGB hr i nextop ms).gb2 ≤ 1 ∧
      hr.xEAX ≤ (GETGB hr i nextop ms).gb1 ∧ (GETGB hr i nextop ms).gb1 ≤ hr.xEAX + 3 ∧
      (GETGB hr i nextop ms).gd = i ∧
      (GETGB hr i nextop ms).emitted =
        ms.emitted ++ [ArmInst.UXTB i (hr.xEAX + (((nextop >>> 3) &&& 7) &&& 3))
          (((nextop >>> 3) &&& 7) >>> 2)] ∧
      GETSGB hr i nextop ms =
        { GETGB hr i nextop ms with
          emitted := ms.emitted ++ [ArmInst.SXTB i (hr.xEAX + (((nextop >>> 3) &&& 7) &&& 3))
            (((nextop >>> 3) &&& 7) >>> 2)] } ∧
      (GBBACK (GETGB hr i nextop ms)).emitted =
        (GETGB hr i nextop ms).emitted ++
          [ArmInst.BFI (hr.xEAX + (((nextop >>> 3) &&& 7) &&& 3)) i
            ((((nextop >>> 3) &&& 7) >>> 2) * 8) 8] ∧
      (GBBACK (GETSGB hr i nextop ms)).emitted =
        (GETSGB hr i nextop ms).emitted ++
          [ArmInst.BFI (hr.xEAX + (((nextop >>> 3) &&& 7) &&& 3)) i
            ((((nextop >>> 3) &&& 7) >>> 2) * 8) 8]) ∧
    (∀ (st : ArmState) (rd rn lane : Nat), lane ≤ 1 → st.regs rd < 4294967296 →
      ∃ st1, execArm (ArmInst.BFI rd rn (lane * 8) 8) st = some st1 ∧
        uxtbValue (st1.regs rd) lane = st.regs rn % 256 ∧
        (∀ l, l ≤ 3 → l ≠ lane → uxtbValue (st1.regs rd) l = uxtbValue (st.regs rd) l) ∧
        (∀ r, r ≠ rd → st1.regs r = st.regs r) ∧ st1.emu = st.emu) := by
  have hrm : nextop &&& 7 < 8 := by rw [land7_eq_mod]; omega
  have hreg : (nextop >>> 3) &&& 7 < 8 := by rw [land7_eq_mod]; omega
  obtain ⟨a1, a2, _, a4⟩ := byte_lane_split (nextop &&& 7) hrm
  obtain ⟨b1, b2, b3, b4⟩ := byte_lane_split ((nextop >>> 3) &&& 7) hreg
  refine ⟨?_, ?_, ?_⟩
  · intro h
    have e1 : (GETEB hr g i nextop ms).wback = hr.xEAX + ((nextop &&& 7) &&& 3) := by
      simp [GETEB, emit, h]
    have e2 : (GETEB hr g i nextop ms).wb2 = (nextop &&& 7) >>> 2 := by
      simp [GETEB, emit, h]
    refine ⟨e1, e2, ?_, ?_, ?_, ?_, ?_, ?_, ?_, ?_, ?_, ?_, ?_⟩
    · rw [e2, a2]; exact a4
    · intro hlt
      rw [e1, e2, a1, a2]
      constructor <;> omega
    · intro hge
      rw [e1, e2, a1, a2]
      constructor <;> omega
    · rw [e1]; omega
    · rw [e1, a1]; omega
    · simp [GETEB, emit, h]
    · simp [GETEB, emit, h]
    · simp [GETEB, emit, h]
    · simp [GETEB, GETSEB, emit, h]
    · simp [GETEB, EBBACK, emit, h]
    · simp [GETSEB, EBBACK, emit, h]
  · have e1 : (GETGB hr i nextop ms).gb1 = hr.xEAX + (((nextop >>> 3) &&& 7) &&& 3) := by
      simp [GETGB, emit, reg_field_eq]
    have e2 : (GETGB hr i nextop ms).gb2 = ((nextop >>> 3) &&& 7) >>> 2 := by
      simp only [GETGB, emit, reg_field_eq]
      rw [b3, b2]
    have e3 : ((nextop &&& 0x38) >>> 3 &&& 4) >>> 2 = ((nextop >>> 3) &&& 7) >>> 2 := by
      rw [reg_field_eq, b3, b2]
    refine ⟨e1, e2, ?_, ?_, ?_, ?_, ?_, ?_, ?_, ?_⟩
    · rw [e2, b2]; exact b4
    · rw [e1]; omega
    · rw [e1, b1]; omega
    · simp [GETGB, emit]
    · simp only [GETGB, emit, e3]
      simp [reg_field_eq]
    · simp only [GETGB, GETSGB, emit, e3]
      simp [reg_field_eq]
    · simp only [GETGB, GBBACK, emit, e3]
      simp [reg_field_eq]
    · simp only [GETSGB, GBBACK, emit, e3]
      simp [reg_field_eq]
  · intro st rd rn lane hlane hd
    obtain ⟨_, c2, c3⟩ := bfiValue_byte_lane (st.regs rd) (st.regs rn) lane hlane hd
    refine ⟨_, rfl, ?_, ?_, ?_, rfl⟩
    · simpa using c2
    · intro l hl hne
      simpa using c3 l hl hne
    · intro r hne
      simp [Function.update_noteq hne]

/-- C29 at concrete inputs: for `nextop = 0xC5` (register-direct, `rm` 5, the
register CH) `GETEB(1)` selects `xEAX + 1` (ECX) and lane 1, and with `EBBACK` the
emitted code is `UXTB r1, r5, ROR #8; BFI r5, r1, #8, #8`; for `nextop = 0xF8`
(`reg` 7, BH) `GETGB(2)` selects `xEAX + 3` (EBX) and lane 1; on the register value
`0x11223344` the `BFI` of the byte `0xAB` into lane 1 gives `0x1122AB44`. -/
theorem byte_register_decoding_witness :
    ((GETEB exampleRegs exampleGeted 1 0xC5 exampleMacroState).wback = 5 ∧
      (GETEB exampleRegs exampleGeted 1 0xC5 exampleMacroState).wb2 = 1) ∧
    (EBBACK (GETEB exampleRegs exampleGeted 1 0xC5 exampleMacroState)).emitted =
      [ArmInst.UXTB 1 5 1, ArmInst.BFI 5 1 8 8] ∧
    (GBBACK (GETGB exampleRegs 2 0xF8 exampleMacroState)).emitted =
      [ArmInst.UXTB 2 7 1, ArmInst.BFI 7 2 8 8] ∧
    bfiValue 0x11223344 0xAB 8 8 = 0x1122AB44 := by
  have h := byte_register_decoding exampleRegs exampleGeted 1 0xC5 exampleMacroState
  have hd := h.1 (by decide)
  refine ⟨⟨?_, ?_⟩, by decide, by decide, by decide⟩
  · rw [hd.1]; decide
  · rw [hd.2.1]; decide

end Box86
